import Mathlib

/-!
# Verification of the BusTub storage core (buffer pool, LRU-K replacer, B+ tree)

Shallow embedding of the repository's storage core in Lean 4:

* `src/include/buffer/lru_k_replacer.h` / `src/buffer/lru_k_replacer.cpp`
  (the `LRUHeap` priority structure and the `LRUKReplacer` state machine),
* `src/buffer/buffer_pool_manager.cpp` (frame table, free list, pinning),
* `src/storage/page/b_plus_tree_internal_page.cpp` and
  `src/storage/page/b_plus_tree_leaf_page.cpp` (node layouts and search),
* `src/storage/index/b_plus_tree.cpp` (search / insert / remove),
* `src/storage/index/index_iterator.cpp` (forward scan).

Machine integers are modelled as `Int`/`Nat`; keys and record ids are
instantiated at `Int` (the C++ code is generic in the key type and uses an
injected three-way comparator; integer comparison is the canonical
instantiation used by all of BusTub's own tests).  C++ `BUSTUB_ASSERT`
failures and thrown exceptions abort the process, so every operation that can
assert is modelled as an `Option`-returning function where `none` is an abort.
-/

namespace Bustub

/-- `INVALID_PAGE_ID` sentinel from `common/config.h`. -/
def INVALID_PAGE_ID : Int := -1

/-- Indexing a list with a C++ `int` index; reads outside the live range give
the default element (the C++ would read junk or be UB; all verified paths stay
in range). -/
def getI {α : Type} [Inhabited α] (l : List α) (i : Int) : α :=
  if i < 0 then default else l.getD i.toNat default

/-- Writing a list at a C++ `int` index (no-op when out of range). -/
def setI {α : Type} (l : List α) (i : Int) (a : α) : List α :=
  if i < 0 then l else l.set i.toNat a

/-- The key comparator: BusTub's `GenericComparator` returns a negative,
zero, or positive `int` for `<`, `=`, `>`; instantiated at integer keys. -/
def cmpKeys (a b : Int) : Int :=
  if a < b then -1 else if b < a then 1 else 0

/-! ## B+ tree internal page (`b_plus_tree_internal_page.cpp`)

An internal page is an ordered array of `(key, child_page_id)` pairs; the key
at index 0 is an unused sentinel.  `size` is the number of live entries; we
represent the live prefix of `array_` directly as a list, so `GetSize()` is
the list length. -/

/-- Internal node contents: `entries.length` is `size_`, `maxSize` is
`max_size_`. -/
structure InternalPage where
  entries : List (Int × Int)
  maxSize : Int
  deriving Repr, DecidableEq

namespace InternalPage

/-- `GetSize()` (the `size_` header field, kept equal to the live length). -/
def GetSize (p : InternalPage) : Int := p.entries.length

/-- `KeyAt(index)` without the range assert (callers stay in range). -/
def KeyAt (p : InternalPage) (i : Int) : Int := (getI p.entries i).1

/-- `ValueAt(index)` without the range assert. -/
def ValueAt (p : InternalPage) (i : Int) : Int := (getI p.entries i).2

/-- The binary-search loop of `BPlusTreeInternalPage::Lookup`: state `(i, j)`
with `1 ≤ i` initially and `j = n - 1`; on `comparator(key, key[mid]) == 0`
the source returns `(array_[mid].second, j)` — the child at `mid` paired with
the *current upper bound* `j`, not with `mid`.  The `while (i <= j)` loop is
written with a fuel counter bounding the number of iterations (each iteration
shrinks the window `[i, j]` by at least one, so fuel `(j + 1 - i).toNat`
always suffices and the fuel-exhausted branch repeats the loop's exit). -/
def lookupLoop (es : List (Int × Int)) (key : Int) :
    Nat → Int → Int → Int × Int
  | 0, _, j => ((getI es j).2, j)
  | fuel + 1, i, j =>
    if i ≤ j then
      let mid := i + (j - i) / 2
      let res := cmpKeys key (getI es mid).1
      if res < 0 then
        lookupLoop es key fuel i (mid - 1)
      else if 0 < res then
        lookupLoop es key fuel (mid + 1) j
      else
        ((getI es mid).2, j)
    else
      ((getI es j).2, j)

/-- `BPlusTreeInternalPage::Lookup(key, comparator)`: returns the pair
`(child_page_id, child_index)`. -/
def Lookup (p : InternalPage) (key : Int) : Int × Int :=
  lookupLoop p.entries key (p.GetSize - 1).toNat 1 (p.GetSize - 1)

end InternalPage

/-! ## B+ tree leaf page (`b_plus_tree_leaf_page.cpp`) -/

/-- Leaf node contents: ordered `(key, value)` pairs plus the leaf-chain
pointer `next_page_id_`. -/
structure LeafPage where
  entries : List (Int × Int)
  nextPageId : Int
  maxSize : Int
  deriving Repr, DecidableEq

namespace LeafPage

/-- `GetSize()`. -/
def GetSize (p : LeafPage) : Int := p.entries.length

/-- `KeyAt(index)` without the range assert. -/
def KeyAt (p : LeafPage) (i : Int) : Int := (getI p.entries i).1

/-- The binary-search loop of
`BPlusTreeLeafPage::IndexOfFirstKeyEqualOrGreaterThan`: state `(i, j)`
starting from `(0, n - 1)`; returns `(mid, true)` on an exact hit and
`(i, false)` once the window empties.  Fuel-counted as in
`InternalPage.lookupLoop`. -/
def firstGELoop (es : List (Int × Int)) (key : Int) :
    Nat → Int → Int → Int × Bool
  | 0, i, _ => (i, false)
  | fuel + 1, i, j =>
    if i ≤ j then
      let mid := i + (j - i) / 2
      let res := cmpKeys key (getI es mid).1
      if res < 0 then
        firstGELoop es key fuel i (mid - 1)
      else if 0 < res then
        firstGELoop es key fuel (mid + 1) j
      else
        (mid, true)
    else
      (i, false)

/-- `IndexOfFirstKeyEqualOrGreaterThan(key, comparator)`. -/
def IndexOfFirstKeyEqualOrGreaterThan (p : LeafPage) (key : Int) : Int × Bool :=
  firstGELoop p.entries key p.GetSize.toNat 0 (p.GetSize - 1)

/-- `BPlusTreeLeafPage::Lookup(key, val, comparator)`: `some value` when the
key is present (the C++ writes through `val` and returns `true`). -/
def Lookup (p : LeafPage) (key : Int) : Option Int :=
  if p.GetSize = 0 then none
  else
    let res := p.IndexOfFirstKeyEqualOrGreaterThan key
    if res.2 then some (getI p.entries res.1).2 else none

end LeafPage

/-! ## LRU-K replacer (`lru_k_replacer.h` / `lru_k_replacer.cpp`)

`LRUKNode` carries a frame id, a bounded access history (front = oldest of
the retained timestamps, back = newest) and the evictable flag.  The C++ node
also stores a back-index `i_` that the heap code keeps equal to the node's
current position inside whichever heap holds it (`-1` when in no heap); we
represent that index implicitly as the node's position in the heap list, and
every call site that reads `node->i_` is modelled as looking the frame id up
in the corresponding heap list.  `node_store_` is an `unordered_map`; we use
an association list keyed by frame id (map order is never observed).

C++ timestamps are `size_t` and the comparator subtracts them into an `int`;
the model uses `Int` subtraction, which agrees with the machine arithmetic
for every execution with fewer than `2^31` recorded accesses. -/

structure LRUKNode where
  fid : Int
  history : List Nat
  is_evictable : Bool
  deriving Repr, DecidableEq

/-- `node_store_.find(fid)`. -/
def findNode (store : List LRUKNode) (fid : Int) : Option LRUKNode :=
  store.find? (fun n => n.fid = fid)

/-- Dereference a node pointer for `fid` (verified paths only use it on
tracked frames). -/
def getNode (store : List LRUKNode) (fid : Int) : LRUKNode :=
  (findNode store fid).getD ⟨fid, [], false⟩

/-- In-place mutation of the node owned by `fid`. -/
def updateNode (store : List LRUKNode) (fid : Int) (f : LRUKNode → LRUKNode) :
    List LRUKNode :=
  store.map (fun n => if n.fid = fid then f n else n)

/-- `node_store_.erase(fid)`. -/
def eraseNode (store : List LRUKNode) (fid : Int) : List LRUKNode :=
  store.filter (fun n => n.fid ≠ fid)

namespace LRUHeap

/-- `heap_[i]` (frame ids; the C++ vector holds shared pointers). -/
def getN (l : List Int) (i : Nat) : Int := l.getD i 0

/-- Swap two positions of the heap vector. -/
def hSwap (l : List Int) (i j : Nat) : List Int :=
  (l.set i (getN l j)).set j (getN l i)

/-- `LRUHeap::compare_`: `>0` means `lhs` has priority over `rhs`.  For
short-history nodes it compares first (oldest) timestamps; for full-history
nodes the source compares `back - front` — the spread of the retained
history, *not* the backward K-distance.  The `BUSTUB_ASSERT`s in the source
only document that both nodes live in the same heap partition. -/
def compare_ (store : List LRUKNode) (k : Nat) (lhs rhs : Int) : Int :=
  let ln := getNode store lhs
  let rn := getNode store rhs
  if ln.history.length < k then
    (rn.history.headD 0 : Int) - (ln.history.headD 0 : Int)
  else
    ((ln.history.getLastD 0 : Int) - (ln.history.headD 0 : Int)) -
      ((rn.history.getLastD 0 : Int) - (rn.history.headD 0 : Int))

/-- The sift-up loop of `LRUHeap::Push` (`up(i)`); fuel `i` bounds the
iteration count since `i` strictly decreases, and the fuel-exhausted branch
repeats the `i == 0` exit. -/
def upLoop (store : List LRUKNode) (k : Nat) :
    Nat → List Int → Nat → List Int
  | 0, l, _ => l
  | fuel + 1, l, i =>
    if i = 0 then l
    else
      let j := (i - 1) / 2
      if 0 < compare_ store k (getN l j) (getN l i) then l
      else upLoop store k fuel (hSwap l j i) j

/-- The sift-down loop (`down(i)`); fuel `l.length` bounds the iteration
count since `i` strictly increases below the length. -/
def downLoop (store : List LRUKNode) (k : Nat) :
    Nat → List Int → Nat → List Int
  | 0, l, _ => l
  | fuel + 1, l, i =>
    let j := 2 * i + 1
    if j ≥ l.length then l
    else
      let j := if j + 1 < l.length ∧ 0 < compare_ store k (getN l (j + 1)) (getN l j)
               then j + 1 else j
      if 0 < compare_ store k (getN l i) (getN l j) then l
      else downLoop store k fuel (hSwap l i j) j

/-- `LRUHeap::Push(node)`: append then sift up from the last slot. -/
def Push (store : List LRUKNode) (k : Nat) (l : List Int) (fid : Int) :
    List Int :=
  let l' := l ++ [fid]
  upLoop store k (l'.length - 1) l' (l'.length - 1)

/-- `LRUHeap::Remove(i)`: move the last element into slot `i`, shrink, sift
down; `none` models the range `BUSTUB_ASSERT` failing (the C++ call sites
reach it only through a stale `i_`, i.e. a frame not in this heap). -/
def Remove (store : List LRUKNode) (k : Nat) (l : List Int) (i : Nat) :
    Option (List Int) :=
  if i < l.length then
    some (downLoop store k l.length ((l.set i (getN l (l.length - 1))).dropLast) i)
  else none

/-- `LRUHeap::Pop()`: take the root, move the last element up, sift down;
`none` models the empty-heap assert. -/
def Pop (store : List LRUKNode) (k : Nat) (l : List Int) :
    Option (Int × List Int) :=
  if l.length = 0 then none
  else
    some (getN l 0,
      downLoop store k l.length ((l.set 0 (getN l (l.length - 1))).dropLast) 0)

end LRUHeap

/-- `node->i_` for a node currently stored in heap `l`: its position there
(`l.length`, an out-of-range index, when absent — the stale-`i_` case). -/
def heapIndexOf (l : List Int) (fid : Int) : Nat := l.indexOf fid

/-- The replacer state (`LRUKReplacer` fields, minus the mutex). -/
structure LRUKReplacer where
  node_store : List LRUKNode
  current_timestamp : Nat
  curr_size : Nat
  replacer_size : Nat
  k : Nat
  less_than_k_heap : List Int
  equal_to_k_heap : List Int
  deriving Repr, DecidableEq

namespace LRUKReplacer

/-- The constructor `LRUKReplacer(num_frames, k)`. -/
def init (num_frames k : Nat) : LRUKReplacer :=
  ⟨[], 0, 0, num_frames, k, [], []⟩

/-- `Size()`. -/
def Size (r : LRUKReplacer) : Nat := r.curr_size

/-- `Evict(&frame_id)`.  Outer `none` is the `throw Exception("BUG.")` path;
the inner value is `none` when the function returns `false` and
`some frame_id` on success. -/
def Evict (r : LRUKReplacer) : Option (Option Int × LRUKReplacer) :=
  if r.curr_size = 0 then some (none, r)
  else if r.less_than_k_heap.length ≠ 0 then
    match LRUHeap.Pop r.node_store r.k r.less_than_k_heap with
    | none => none
    | some (fid, l') =>
      some (some fid,
        { r with less_than_k_heap := l',
                 node_store := eraseNode r.node_store fid,
                 curr_size := r.curr_size - 1 })
  else if r.equal_to_k_heap.length ≠ 0 then
    match LRUHeap.Pop r.node_store r.k r.equal_to_k_heap with
    | none => none
    | some (fid, l') =>
      some (some fid,
        { r with equal_to_k_heap := l',
                 node_store := eraseNode r.node_store fid,
                 curr_size := r.curr_size - 1 })
  else none

/-- `RecordAccess(frame_id)`: lazily create the node, append the (strictly
increasing) current timestamp, drop the oldest retained timestamp when the
history was already full, and — for an evictable node — reseat it in the
heap partition matching its new history length.  `none` is the range
assert failing. -/
def RecordAccess (r : LRUKReplacer) (fid : Int) : Option LRUKReplacer :=
  if 0 ≤ fid ∧ fid < (r.replacer_size : Int) then
    let store0 :=
      if (findNode r.node_store fid).isSome then r.node_store
      else r.node_store ++ [⟨fid, [], false⟩]
    let node := getNode store0 fid
    let less_than_k := node.history.length < r.k
    let hist1 := node.history ++ [r.current_timestamp]
    let hist2 := if ¬less_than_k then hist1.tail else hist1
    let store1 := updateNode store0 fid (fun n => { n with history := hist2 })
    let r1 := { r with node_store := store1,
                       current_timestamp := r.current_timestamp + 1 }
    if node.is_evictable then
      if less_than_k then
        match LRUHeap.Remove store1 r.k r1.less_than_k_heap
            (heapIndexOf r1.less_than_k_heap fid) with
        | none => none
        | some l' =>
          if hist2.length < r.k then
            some { r1 with less_than_k_heap := LRUHeap.Push store1 r.k l' fid }
          else
            some { r1 with less_than_k_heap := l',
                           equal_to_k_heap :=
                             LRUHeap.Push store1 r.k r1.equal_to_k_heap fid }
      else
        match LRUHeap.Remove store1 r.k r1.equal_to_k_heap
            (heapIndexOf r1.equal_to_k_heap fid) with
        | none => none
        | some l' =>
          if hist2.length < r.k then
            some { r1 with equal_to_k_heap := l',
                           less_than_k_heap :=
                             LRUHeap.Push store1 r.k r1.less_than_k_heap fid }
          else
            some { r1 with equal_to_k_heap := LRUHeap.Push store1 r.k l' fid }
    else some r1
  else none

/-- `SetEvictable(frame_id, set_evictable)`; `none` covers the range assert
and the tracked assert failing. -/
def SetEvictable (r : LRUKReplacer) (fid : Int) (flag : Bool) :
    Option LRUKReplacer :=
  if 0 ≤ fid ∧ fid < (r.replacer_size : Int) then
    match findNode r.node_store fid with
    | none => none
    | some node =>
      if node.is_evictable = flag then some r
      else
        let store' := updateNode r.node_store fid
          (fun n => { n with is_evictable := flag })
        if flag then
          let r1 :=
            if node.history.length < r.k then
              { r with less_than_k_heap :=
                  LRUHeap.Push r.node_store r.k r.less_than_k_heap fid }
            else
              { r with equal_to_k_heap :=
                  LRUHeap.Push r.node_store r.k r.equal_to_k_heap fid }
          some { r1 with curr_size := r1.curr_size + 1, node_store := store' }
        else
          if node.history.length < r.k then
            match LRUHeap.Remove r.node_store r.k r.less_than_k_heap
                (heapIndexOf r.less_than_k_heap fid) with
            | none => none
            | some l' =>
              some { r with less_than_k_heap := l',
                            curr_size := r.curr_size - 1,
                            node_store := store' }
          else
            match LRUHeap.Remove r.node_store r.k r.equal_to_k_heap
                (heapIndexOf r.equal_to_k_heap fid) with
            | none => none
            | some l' =>
              some { r with equal_to_k_heap := l',
                            curr_size := r.curr_size - 1,
                            node_store := store' }
  else none

/-- `Remove(frame_id)`: no-op when untracked, assert-fail (`none`) when
non-evictable; otherwise drop the node from its heap and from the store.
The source does **not** touch `curr_size_` here. -/
def Remove (r : LRUKReplacer) (fid : Int) : Option LRUKReplacer :=
  match findNode r.node_store fid with
  | none => some r
  | some node =>
    if ¬node.is_evictable then none
    else
      let store' := eraseNode r.node_store fid
      if node.history.length < r.k then
        match LRUHeap.Remove r.node_store r.k r.less_than_k_heap
            (heapIndexOf r.less_than_k_heap fid) with
        | none => none
        | some l' => some { r with less_than_k_heap := l', node_store := store' }
      else
        match LRUHeap.Remove r.node_store r.k r.equal_to_k_heap
            (heapIndexOf r.equal_to_k_heap fid) with
        | none => none
        | some l' => some { r with equal_to_k_heap := l', node_store := store' }

end LRUKReplacer

/-- One replacer call, for writing access sequences. -/
inductive RepOp where
  | record (fid : Int)
  | setEvictable (fid : Int) (flag : Bool)
  | evict
  | remove (fid : Int)
  deriving Repr, DecidableEq

/-- Apply one call (the evicted frame id, when any, is discarded here). -/
def applyRepOp (r : LRUKReplacer) : RepOp → Option LRUKReplacer
  | .record fid => r.RecordAccess fid
  | .setEvictable fid flag => r.SetEvictable fid flag
  | .evict => (r.Evict).map Prod.snd
  | .remove fid => r.Remove fid

/-- Run an access sequence (`none` as soon as any call aborts). -/
def runRepOps (r : LRUKReplacer) : List RepOp → Option LRUKReplacer
  | [] => some r
  | op :: ops =>
    match applyRepOp r op with
    | none => none
    | some r' => runRepOps r' ops

/-! ## Buffer pool manager (`buffer_pool_manager.cpp`)

Frames are `pages_[0 .. pool_size)`.  The page payload is abstracted over a
type `α` (the C++ buffer is raw bytes; `ResetMemory` writes the default
element, disk reads return what was last written).  `BUSTUB_ASSERT` failures
abort, so operations return `Option`; `NewPage`/`FetchPage` additionally
distinguish a `nullptr` result (inner `none`). -/

/-- An in-memory frame (`Page` from `storage/page/page.h`): resident page id,
dirty bit, pin count (a C++ `int`, so modelled as `Int`), the reader-writer
latch state, and the payload. -/
structure Frame (α : Type) where
  page_id : Int
  is_dirty : Bool
  pin_count : Int
  rlatch : Nat
  wlatch : Bool
  data : α
  deriving Repr, DecidableEq

/-- A default-constructed frame. -/
def Frame.empty {α : Type} [Inhabited α] : Frame α :=
  ⟨INVALID_PAGE_ID, false, 0, 0, false, default⟩

/-- The buffer pool state: frames, replacer, free list, page table, page id
allocator, and the disk manager's store. -/
structure BufferPoolManager (α : Type) where
  pool_size : Nat
  pages : List (Frame α)
  replacer : LRUKReplacer
  free_list : List Int
  page_table : List (Int × Int)
  next_page_id : Int
  disk : List (Int × α)
  deriving Repr, DecidableEq

namespace BufferPoolManager

variable {α : Type} [Inhabited α] [DecidableEq α]

/-- The constructor: every frame starts on the free list. -/
def init (pool_size replacer_k : Nat) : BufferPoolManager α :=
  ⟨pool_size, List.replicate pool_size Frame.empty, LRUKReplacer.init pool_size replacer_k,
   (List.range pool_size).map Int.ofNat, [], 0, []⟩

/-- `page_table_.count(pid)` / `page_table_[pid]`. -/
def ptFind (s : BufferPoolManager α) (pid : Int) : Option Int :=
  (s.page_table.find? (fun p => p.1 = pid)).map Prod.snd

/-- `page_table_[pid] = fid` (C++ map assignment: replace or insert). -/
def ptSet (s : BufferPoolManager α) (pid fid : Int) : BufferPoolManager α :=
  { s with page_table :=
      if (s.page_table.find? (fun p => p.1 = pid)).isSome then
        s.page_table.map (fun p => if p.1 = pid then (pid, fid) else p)
      else s.page_table ++ [(pid, fid)] }

/-- `page_table_.erase(pid)`. -/
def ptErase (s : BufferPoolManager α) (pid : Int) : BufferPoolManager α :=
  { s with page_table := s.page_table.filter (fun p => p.1 ≠ pid) }

/-- `pages_[fid]`. -/
def frameAt (s : BufferPoolManager α) (fid : Int) : Frame α :=
  if 0 ≤ fid then (s.pages.getD fid.toNat Frame.empty) else Frame.empty

/-- Mutate `pages_[fid]`. -/
def setFrame (s : BufferPoolManager α) (fid : Int) (f : Frame α → Frame α) :
    BufferPoolManager α :=
  { s with pages := if 0 ≤ fid then s.pages.set fid.toNat (f (s.frameAt fid)) else s.pages }

/-- `disk_manager_->WritePage(pid, data)`. -/
def diskWrite (s : BufferPoolManager α) (pid : Int) (d : α) : BufferPoolManager α :=
  { s with disk :=
      if (s.disk.find? (fun p => p.1 = pid)).isSome then
        s.disk.map (fun p => if p.1 = pid then (pid, d) else p)
      else s.disk ++ [(pid, d)] }

/-- `disk_manager_->ReadPage(pid, buf)` (an unwritten page reads back as
zeroed memory, i.e. the default payload). -/
def diskRead (s : BufferPoolManager α) (pid : Int) : α :=
  ((s.disk.find? (fun p => p.1 = pid)).map Prod.snd).getD default

/-- `AllocatePage()`. -/
def AllocatePage (s : BufferPoolManager α) : Int × BufferPoolManager α :=
  (s.next_page_id, { s with next_page_id := s.next_page_id + 1 })

/-- The shared frame-acquisition prefix of `NewPage`/`FetchPage`: free list
first, else an eviction victim (flushing it when dirty, then resetting its
memory and unmapping it).  Result: `none` = abort (the replacer's internal
exception, or the `pin count == 0` victim assert failing); `some none` =
no frame obtainable (the caller returns `nullptr`); `some (some (fid, s'))` =
frame acquired. -/
def acquireFrame (s : BufferPoolManager α) :
    Option (Option (Int × BufferPoolManager α)) :=
  match s.free_list with
  | fid :: rest => some (some (fid, { s with free_list := rest }))
  | [] =>
    match s.replacer.Evict with
    | none => none
    | some (none, _) => some none
    | some (some fid, r') =>
      let s1 : BufferPoolManager α := { s with replacer := r' }
      let page : Frame α := s1.frameAt fid
      if page.pin_count ≠ 0 then none
      else
        let s2 := if page.is_dirty then s1.diskWrite page.page_id page.data else s1
        let s3 := s2.setFrame fid (fun f => { f with data := default })
        let s4 := s3.ptErase page.page_id
        some (some (fid, s4))

/-- `NewPage(&page_id)`: acquire a frame, record an access, mark
non-evictable, allocate a fresh page id and install it pinned (`pin = 1`).
Inner `none` is the `nullptr` return. -/
def NewPage (s : BufferPoolManager α) :
    Option (Option (Int × Int) × BufferPoolManager α) :=
  match s.acquireFrame with
  | none => none
  | some none => some (none, s)
  | some (some (fid, s1)) =>
    match s1.replacer.RecordAccess fid with
    | none => none
    | some r1 =>
      match r1.SetEvictable fid false with
      | none => none
      | some r2 =>
        let s2 := { s1 with replacer := r2 }
        let (pid, s3) := s2.AllocatePage
        let s4 := s3.setFrame fid
          (fun f => { f with page_id := pid, is_dirty := false, pin_count := 1 })
        some (some (pid, fid), s4.ptSet pid fid)

/-- `FetchPage(page_id)`: page-table hit pins the resident frame; otherwise
acquire a frame, read the page from disk into it, then pin.  Inner `none`
is the `nullptr` return. -/
def FetchPage (s : BufferPoolManager α) (pid : Int) :
    Option (Option Int × BufferPoolManager α) :=
  let finish : Int → BufferPoolManager α → Option (Option Int × BufferPoolManager α) :=
    fun fid s1 =>
      match s1.replacer.RecordAccess fid with
      | none => none
      | some r1 =>
        match r1.SetEvictable fid false with
        | none => none
        | some r2 =>
          let s2 := { s1 with replacer := r2 }
          let s3 := s2.setFrame fid (fun f => { f with pin_count := f.pin_count + 1 })
          some (some fid, s3.ptSet pid fid)
  match s.ptFind pid with
  | some fid => finish fid s
  | none =>
    match s.acquireFrame with
    | none => none
    | some none => some (none, s)
    | some (some (fid, s1)) =>
      let s2 := s1.setFrame fid
        (fun f => { f with data := s1.diskRead pid, page_id := pid, is_dirty := false })
      finish fid s2

/-- `UnpinPage(page_id, is_dirty)`: `some (false, s)` when not resident or
already at pin 0; otherwise decrement the pin, mark the frame evictable when
it reaches 0, and sticky-OR the dirty bit.  `none` would be the replacer
asserting (unreachable from reachable states). -/
def UnpinPage (s : BufferPoolManager α) (pid : Int) (is_dirty : Bool) :
    Option (Bool × BufferPoolManager α) :=
  match s.ptFind pid with
  | none => some (false, s)
  | some fid =>
    if (s.frameAt fid).pin_count = 0 then some (false, s)
    else
      let s1 := s.setFrame fid (fun f => { f with pin_count := f.pin_count - 1 })
      let step2 : Option (BufferPoolManager α) :=
        if (s1.frameAt fid).pin_count = 0 then
          match s1.replacer.SetEvictable fid true with
          | none => none
          | some r' => some { s1 with replacer := r' }
        else some s1
      match step2 with
      | none => none
      | some s2 =>
        some (true, s2.setFrame fid (fun f => { f with is_dirty := f.is_dirty || is_dirty }))

/-- `FlushPage(page_id)`: write the resident frame to disk and clear its
dirty bit; `false` when not resident. -/
def FlushPage (s : BufferPoolManager α) (pid : Int) : Bool × BufferPoolManager α :=
  match s.ptFind pid with
  | none => (false, s)
  | some fid =>
    let s1 := s.diskWrite pid (s.frameAt fid).data
    (true, s1.setFrame fid (fun f => { f with is_dirty := false }))

end BufferPoolManager

/-! ### Page guards

`page_guard.cpp` is not part of the provided sources (only its consumers
are), so the guard objects' drop behaviour is modelled from the spec.  A
guard holds a `Page *`, modelled as an optional frame id. -/

/-- `BasicPageGuard` / `ReadPageGuard` / `WritePageGuard` contents: the
wrapped frame (or null) and the holder's dirty mark. -/
structure PageGuard where
  page : Option Int
  is_dirty : Bool
  deriving Repr, DecidableEq

namespace BufferPoolManager

variable {α : Type} [Inhabited α] [DecidableEq α]

/-- Modelled from the spec: dropping a `BasicPageGuard` — `page_guard.cpp`
is absent from the sources — unpins the wrapped page, propagating the
holder's dirty mark; a null guard releases nothing. -/
def dropBasicGuard (s : BufferPoolManager α) (g : PageGuard) : BufferPoolManager α :=
  match g.page with
  | none => s
  | some fid =>
    match s.UnpinPage (s.frameAt fid).page_id g.is_dirty with
    | some (_, s') => s'
    | none => s

/-- Modelled from the spec: dropping a `WritePageGuard` releases the frame's
exclusive latch, then unpins (dirty mark propagated); a null guard releases
nothing. -/
def dropWriteGuard (s : BufferPoolManager α) (g : PageGuard) : BufferPoolManager α :=
  match g.page with
  | none => s
  | some fid =>
    let s1 := s.setFrame fid (fun f => { f with wlatch := false })
    s1.dropBasicGuard g

/-- `FetchPageWrite(page_id)`: fetch and pin the page, take the frame's
exclusive latch (`WLock`; a latch already held would block, modelled as
`none`) — and then, as written in the source, construct the returned guard
from `{this, nullptr}` instead of the fetched frame. -/
def FetchPageWrite (s : BufferPoolManager α) (pid : Int) :
    Option (PageGuard × BufferPoolManager α) :=
  match s.FetchPage pid with
  | none => none
  | some (none, _) => none
  | some (some fid, s1) =>
    if (s1.frameAt fid).wlatch ∨ (s1.frameAt fid).rlatch ≠ 0 then none
    else
      let s2 := s1.setFrame fid (fun f => { f with wlatch := true })
      some (⟨none, false⟩, s2)

/-- `FetchPageRead(page_id)`: fetch and pin, take the shared latch, and wrap
the fetched frame. -/
def FetchPageRead (s : BufferPoolManager α) (pid : Int) :
    Option (PageGuard × BufferPoolManager α) :=
  match s.FetchPage pid with
  | none => none
  | some (none, _) => none
  | some (some fid, s1) =>
    if (s1.frameAt fid).wlatch then none
    else
      let s2 := s1.setFrame fid (fun f => { f with rlatch := f.rlatch + 1 })
      some (⟨some fid, false⟩, s2)

end BufferPoolManager

/-- One buffer pool call, for writing operation sequences. -/
inductive BPMOp where
  | newPage
  | fetchPage (pid : Int)
  | unpinPage (pid : Int) (is_dirty : Bool)
  | flushPage (pid : Int)
  deriving Repr, DecidableEq

/-- Apply one call, discarding the returned page/boolean. -/
def applyBPMOp {α : Type} [Inhabited α] [DecidableEq α]
    (s : BufferPoolManager α) : BPMOp → Option (BufferPoolManager α)
  | .newPage => (s.NewPage).map Prod.snd
  | .fetchPage pid => (s.FetchPage pid).map Prod.snd
  | .unpinPage pid d => (s.UnpinPage pid d).map Prod.snd
  | .flushPage pid => some (s.FlushPage pid).2

/-- Run a call sequence (`none` as soon as any call aborts). -/
def runBPMOps {α : Type} [Inhabited α] [DecidableEq α]
    (s : BufferPoolManager α) : List BPMOp → Option (BufferPoolManager α)
  | [] => some s
  | op :: ops =>
    match applyBPMOp s op with
    | none => none
    | some s' => runBPMOps s' ops

/-- A buffer pool state an execution can actually be in: reached from the
freshly constructed pool by some sequence of calls. -/
def BPMReachable {α : Type} [Inhabited α] [DecidableEq α]
    (pool_size replacer_k : Nat) (s : BufferPoolManager α) : Prop :=
  ∃ ops, runBPMOps (BufferPoolManager.init pool_size replacer_k) ops = some s

/-! ## B+ tree page mutation helpers

Each helper mirrors one member function of
`b_plus_tree_leaf_page.cpp` / `b_plus_tree_internal_page.cpp`; functions
whose source carries a `BUSTUB_ASSERT` return `Option` (`none` = abort).
`GetMinSize()` and `CanBorrow()` live in `b_plus_tree_page.cpp`, which is not
among the provided sources, so they are modelled from the spec. -/

namespace InternalPage

/-- `GetMaxSize()`. -/
def GetMaxSize (p : InternalPage) : Int := p.maxSize

/-- Modelled from the spec: `BPlusTreePage::GetMinSize` is not among the
provided sources; the spec fixes `min_size = ⌈max_size/2⌉`. -/
def GetMinSize (p : InternalPage) : Int := (p.maxSize + 1) / 2

/-- Modelled from the spec: `BPlusTreePage::CanBorrow` is not among the
provided sources; the spec says a sibling can lend iff its
`size > min_size`. -/
def CanBorrow (p : InternalPage) : Bool := p.GetMinSize < p.GetSize

/-- `Init(max_size)`. -/
def Init (max_size : Int) : InternalPage := ⟨[], max_size⟩

/-- `Init(max_size, lhs, mid, rhs)`: size-2 root `[(⊥, lhs), (mid, rhs)]`
(the slot-0 key is the never-read sentinel; the C++ leaves it
uninitialized, the model writes 0). -/
def Init4 (max_size : Int) (lhs mid rhs : Int) : InternalPage :=
  ⟨[(0, lhs), (mid, rhs)], max_size⟩

/-- `SetKeyAt(index, key)` with its `0 < index < size` assert. -/
def SetKeyAtA (p : InternalPage) (i : Int) (key : Int) : Option InternalPage :=
  if 0 < i ∧ i < p.GetSize then
    some ⟨setI p.entries i (key, (getI p.entries i).2), p.maxSize⟩
  else none

/-- `InsertAt(key, val, i)` with its capacity and range asserts. -/
def InsertAtA (p : InternalPage) (key val i : Int) : Option InternalPage :=
  if p.GetSize + 1 ≤ p.GetMaxSize ∧ 0 ≤ i ∧ i ≤ p.GetSize then
    some ⟨p.entries.take i.toNat ++ (key, val) :: p.entries.drop i.toNat, p.maxSize⟩
  else none

/-- `MoveHalfTo(dst)`: move the upper `size / 2` entries, via `CopyNFrom`
(whose capacity assert is included); result `(this', dst')`. -/
def MoveHalfToA (p dst : InternalPage) : Option (InternalPage × InternalPage) :=
  let n := p.entries.length / 2
  if (dst.GetSize + n : Int) ≤ dst.GetMaxSize then
    some (⟨p.entries.take (p.entries.length - n), p.maxSize⟩,
          ⟨dst.entries ++ p.entries.drop (p.entries.length - n), dst.maxSize⟩)
  else none

/-- `MoveBackToFrontOf(dst)` (`CopyToFront` capacity assert included). -/
def MoveBackToFrontOfA (p dst : InternalPage) :
    Option (InternalPage × InternalPage) :=
  if 0 < p.GetSize ∧ dst.GetSize + 1 ≤ dst.GetMaxSize then
    some (⟨p.entries.dropLast, p.maxSize⟩,
          ⟨p.entries.getLastD (0, 0) :: dst.entries, dst.maxSize⟩)
  else none

/-- `MoveFrontToBackOf(dst)` (`CopyToBack` capacity assert included). -/
def MoveFrontToBackOfA (p dst : InternalPage) :
    Option (InternalPage × InternalPage) :=
  if 0 < p.GetSize ∧ dst.GetSize + 1 ≤ dst.GetMaxSize then
    some (⟨p.entries.tail, p.maxSize⟩,
          ⟨dst.entries ++ [p.entries.headD (0, 0)], dst.maxSize⟩)
  else none

/-- Modelled from the spec: the internal-page `MoveAllTo(other)` used by
`BPlusTree::Merge` is declared in a header that is not among the provided
sources; the spec says it appends this node's entries to `other` (the leaf
variant in the sources does exactly that via `CopyNFrom`, whose capacity
assert is mirrored). -/
def MoveAllToA (p dst : InternalPage) : Option (InternalPage × InternalPage) :=
  if (dst.GetSize + p.GetSize : Int) ≤ dst.GetMaxSize then
    some (⟨[], p.maxSize⟩, ⟨dst.entries ++ p.entries, dst.maxSize⟩)
  else none

/-- Modelled from the spec: the internal-page `Remove(index)` used by
`BPlusTree::Merge` is declared in a header that is not among the provided
sources; the spec says it shifts the tail left and decrements the size (the
leaf variant in the sources does exactly that). -/
def RemoveAtA (p : InternalPage) (i : Int) : Option InternalPage :=
  if 0 ≤ i ∧ i < p.GetSize then
    some ⟨p.entries.take i.toNat ++ p.entries.drop (i.toNat + 1), p.maxSize⟩
  else none

/-- `KeyAt(index)` with its range assert. -/
def KeyAtA (p : InternalPage) (i : Int) : Option Int :=
  if 0 ≤ i ∧ i < p.GetSize then some (getI p.entries i).1 else none

/-- `ValueAt(index)` with its range assert. -/
def ValueAtA (p : InternalPage) (i : Int) : Option Int :=
  if 0 ≤ i ∧ i < p.GetSize then some (getI p.entries i).2 else none

end InternalPage

namespace LeafPage

/-- `GetMaxSize()`. -/
def GetMaxSize (p : LeafPage) : Int := p.maxSize

/-- Modelled from the spec: `BPlusTreePage::GetMinSize` is not among the
provided sources; the spec fixes `min_size = ⌈max_size/2⌉`. -/
def GetMinSize (p : LeafPage) : Int := (p.maxSize + 1) / 2

/-- Modelled from the spec: `BPlusTreePage::CanBorrow` (see
`InternalPage.CanBorrow`). -/
def CanBorrow (p : LeafPage) : Bool := p.GetMinSize < p.GetSize

/-- `Init(max_size)` (also resets `next_page_id_`). -/
def Init (max_size : Int) : LeafPage := ⟨[], INVALID_PAGE_ID, max_size⟩

/-- `SetNextPageId(pid)`. -/
def SetNextPageId (p : LeafPage) (pid : Int) : LeafPage :=
  ⟨p.entries, pid, p.maxSize⟩

/-- `KeyAt(index)` with its range assert. -/
def KeyAtA (p : LeafPage) (i : Int) : Option Int :=
  if 0 ≤ i ∧ i < p.GetSize then some (getI p.entries i).1 else none

/-- `Insert(key, val, comparator)`: `false` on duplicate, else insert at the
first position whose key is `≥ key`; capacity assert included. -/
def InsertA (p : LeafPage) (key val : Int) : Option (Bool × LeafPage) :=
  let n := p.GetSize
  let res : Int × Bool := if n ≠ 0 then p.IndexOfFirstKeyEqualOrGreaterThan key else (0, false)
  if res.2 then some (false, p)
  else if n + 1 ≤ p.GetMaxSize ∧ 0 ≤ res.1 then
    some (true, ⟨p.entries.take res.1.toNat ++ (key, val) :: p.entries.drop res.1.toNat,
                 p.nextPageId, p.maxSize⟩)
  else none

/-- `InsertAt(key, val, i)` with its capacity and range asserts. -/
def InsertAtA (p : LeafPage) (key val i : Int) : Option LeafPage :=
  if p.GetSize + 1 ≤ p.GetMaxSize ∧ 0 ≤ i ∧ i ≤ p.GetSize then
    some ⟨p.entries.take i.toNat ++ (key, val) :: p.entries.drop i.toNat,
          p.nextPageId, p.maxSize⟩
  else none

/-- `Remove(i)`: shift the tail left (the source asserts `i < n`; a negative
`i` would be out-of-bounds pointer arithmetic and is treated as an abort
too). -/
def RemoveAtA (p : LeafPage) (i : Int) : Option LeafPage :=
  if 0 ≤ i ∧ i < p.GetSize then
    some ⟨p.entries.take i.toNat ++ p.entries.drop (i.toNat + 1), p.nextPageId, p.maxSize⟩
  else none

/-- `MoveHalfTo(dst)` via `CopyNFrom` (capacity assert included). -/
def MoveHalfToA (p dst : LeafPage) : Option (LeafPage × LeafPage) :=
  let n := p.entries.length / 2
  if (dst.GetSize + n : Int) ≤ dst.GetMaxSize then
    some (⟨p.entries.take (p.entries.length - n), p.nextPageId, p.maxSize⟩,
          ⟨dst.entries ++ p.entries.drop (p.entries.length - n), dst.nextPageId, dst.maxSize⟩)
  else none

/-- `MoveAllTo(dst)` via `CopyNFrom` (capacity assert included). -/
def MoveAllToA (p dst : LeafPage) : Option (LeafPage × LeafPage) :=
  if (dst.GetSize + p.GetSize : Int) ≤ dst.GetMaxSize then
    some (⟨[], p.nextPageId, p.maxSize⟩,
          ⟨dst.entries ++ p.entries, dst.nextPageId, dst.maxSize⟩)
  else none

/-- `MoveBackToFrontOf(dst)` (`CopyToFront` capacity assert included). -/
def MoveBackToFrontOfA (p dst : LeafPage) : Option (LeafPage × LeafPage) :=
  if 0 < p.GetSize ∧ dst.GetSize + 1 ≤ dst.GetMaxSize then
    some (⟨p.entries.dropLast, p.nextPageId, p.maxSize⟩,
          ⟨p.entries.getLastD (0, 0) :: dst.entries, dst.nextPageId, dst.maxSize⟩)
  else none

/-- `MoveFrontToBackOf(dst)` (`CopyToBack` capacity assert included). -/
def MoveFrontToBackOfA (p dst : LeafPage) : Option (LeafPage × LeafPage) :=
  if 0 < p.GetSize ∧ dst.GetSize + 1 ≤ dst.GetMaxSize then
    some (⟨p.entries.tail, p.nextPageId, p.maxSize⟩,
          ⟨dst.entries ++ [p.entries.headD (0, 0)], dst.nextPageId, dst.maxSize⟩)
  else none

end LeafPage

/-- A typed view of one tree page (the `page_type` header tag dispatch). -/
inductive BTPage where
  | internal (p : InternalPage)
  | leaf (p : LeafPage)
  deriving Repr, DecidableEq

namespace BTPage

/-- `IsLeafPage()`. -/
def IsLeafPage : BTPage → Bool
  | .internal _ => false
  | .leaf _ => true

/-- `GetSize()` (shared header field). -/
def GetSize : BTPage → Int
  | .internal p => p.GetSize
  | .leaf p => p.GetSize

/-- `GetMaxSize()` (shared header field). -/
def GetMaxSize : BTPage → Int
  | .internal p => p.GetMaxSize
  | .leaf p => p.GetMaxSize

/-- `GetMinSize()` (see the page-level comments on its modelling). -/
def GetMinSize : BTPage → Int
  | .internal p => p.GetMinSize
  | .leaf p => p.GetMinSize

/-- `As<InternalPage>` where the caller requires an internal page. -/
def asInternal : BTPage → Option InternalPage
  | .internal p => some p
  | .leaf _ => none

/-- `As<LeafPage>` where the caller requires a leaf page. -/
def asLeaf : BTPage → Option LeafPage
  | .internal _ => none
  | .leaf p => some p

end BTPage

/-! ## B+ tree (`b_plus_tree.cpp`)

The tree reaches pages only through buffer pool guards; guards pin and latch
but never alter page contents, so for the *content* claims the pool is
modelled as an unbounded page store keyed by page id (`NewPage` always
succeeds — its capacity failure is the `BUSTUB_ASSERT(page, ...)` abort,
outside these claims).  The header page's `root_page_id_` field is the
`root_page_id` component.  Every abort (assert, type-confused cast, or a
descent that would chase a dangling/cyclic pointer forever) is `none`. -/

structure BPlusTree where
  root_page_id : Int
  pages : List (Int × BTPage)
  next_page_id : Int
  leaf_max_size : Int
  internal_max_size : Int
  deriving Repr, DecidableEq

namespace BPlusTree

/-- The constructor: the header page's root id starts as
`INVALID_PAGE_ID`. -/
def mk0 (leaf_max internal_max : Int) : BPlusTree :=
  ⟨INVALID_PAGE_ID, [], 0, leaf_max, internal_max⟩

/-- Resolve a page id through the buffer pool. -/
def pageAt (t : BPlusTree) (pid : Int) : Option BTPage :=
  (t.pages.find? (fun p => p.1 = pid)).map Prod.snd

/-- Write a page back through its guard. -/
def setPage (t : BPlusTree) (pid : Int) (pg : BTPage) : BPlusTree :=
  { t with pages :=
      if (t.pages.find? (fun p => p.1 = pid)).isSome then
        t.pages.map (fun p => if p.1 = pid then (pid, pg) else p)
      else t.pages ++ [(pid, pg)] }

/-- `bpm_->NewPage(&pid)` as seen by the tree (monotonic id allocation). -/
def NewPage (t : BPlusTree) : Int × BPlusTree :=
  (t.next_page_id, { t with next_page_id := t.next_page_id + 1 })

/-- `IsEmpty()` — the source returns `true` unconditionally. -/
def IsEmpty (_ : BPlusTree) : Bool := true

/-- `GetRootPageId()`. -/
def GetRootPageId (t : BPlusTree) : Int := t.root_page_id

/-- The hand-over-hand descent loop of `GetValue`: inner result is the
search outcome, outer `none` an abort (unresolvable page id / type-confused
page / unbounded descent). -/
def getValueLoop (t : BPlusTree) (key : Int) : Nat → Int → Option (Option Int)
  | 0, _ => none
  | fuel + 1, pid =>
    match t.pageAt pid with
    | none => none
    | some (.leaf l) => some (l.Lookup key)
    | some (.internal ip) => getValueLoop t key fuel (ip.Lookup key).1

/-- `GetValue(key, result)`: `some none` = key absent (`false`),
`some (some v)` = found `v`. -/
def GetValue (t : BPlusTree) (key : Int) : Option (Option Int) :=
  if t.root_page_id = INVALID_PAGE_ID then some none
  else getValueLoop t key (t.pages.length + 1) t.root_page_id

/-- The crabbing descent shared by `Insert` and `Remove`: walk from the root
to the leaf, recording the guard stack (cleared whenever the visited node
satisfies `safe`, mirroring `release_all`) and the `Lookup` child index
taken at every internal node.  Returns `(guards, indexes, leaf_pid)`. -/
def descend (t : BPlusTree) (key : Int) (safe : BTPage → Bool) :
    Nat → Int → List Int → List Int → Option (List Int × List Int × Int)
  | 0, _, _, _ => none
  | fuel + 1, pid, guards, indexes =>
    match t.pageAt pid with
    | none => none
    | some pg =>
      let guards' := (if safe pg then [] else guards) ++ [pid]
      match pg with
      | .leaf _ => some (guards', indexes, pid)
      | .internal ip =>
        let res := ip.Lookup key
        descend t key safe fuel res.1 guards' (indexes ++ [res.2])

/-- The upward split-propagation loop of `Insert` (the `while (guards.size())`
loop followed by the new-root epilogue).  `revGuards`/`revIndexes` hold the
retained guard stack and recorded child indexes deepest-first (the source
pops from the back of its deques); `last` is the page id of the most recently
split node and `up` the pending `(split_key, new_pid)`. -/
def insertUpward (key val : Int) :
    BPlusTree → List Int → List Int → Int → Int × Int → Option BPlusTree
  | t, [], _, last, up =>
    -- all retained ancestors were full: make a new root
    let (pid, t1) := t.NewPage
    let root := InternalPage.Init4 t1.internal_max_size last up.1 up.2
    let t2 := t1.setPage pid (.internal root)
    some { t2 with root_page_id := pid }
  | t, g :: rest, revIndexes, _, up =>
    match t.pageAt g with
    | some (.internal ip) =>
      let i : Int := revIndexes.headD 0
      if ip.GetSize < ip.GetMaxSize then
        match ip.InsertAtA up.1 up.2 (i + 1) with
        | none => none
        | some ip' => some (t.setPage g (.internal ip'))
      else
        let (pid, t1) := t.NewPage
        let new0 := InternalPage.Init t1.internal_max_size
        match ip.MoveHalfToA new0 with
        | none => none
        | some (cur1, new1) =>
          let step : Option (InternalPage × InternalPage) :=
            if i < cur1.GetSize then
              (cur1.InsertAtA up.1 up.2 (i + 1)).map (fun c => (c, new1))
            else
              (new1.InsertAtA up.1 up.2 (i - cur1.GetSize + 1)).map (fun n => (cur1, n))
          match step with
          | none => none
          | some (cur2, new2) =>
            let step2 : Option (InternalPage × InternalPage) :=
              if new2.GetSize < new2.GetMinSize then cur2.MoveBackToFrontOfA new2
              else some (cur2, new2)
            match step2 with
            | none => none
            | some (cur3, new3) =>
              match new3.KeyAtA 0 with
              | none => none
              | some k0 =>
                let t2 := (t1.setPage g (.internal cur3)).setPage pid (.internal new3)
                insertUpward key val t2 rest revIndexes.tail g (k0, pid)
    | _ => none

/-- `Insert(key, value)`: `some (false, t)` on duplicate, `some (true, t')`
on success; `none` on any abort. -/
def Insert (t : BPlusTree) (key val : Int) : Option (Bool × BPlusTree) :=
  if t.root_page_id = INVALID_PAGE_ID then
    let (pid, t1) := t.NewPage
    let leaf0 := LeafPage.Init t1.leaf_max_size
    match leaf0.InsertA key val with
    | none => none
    | some (_, leaf1) =>
      let t2 := t1.setPage pid (.leaf leaf1)
      some (true, { t2 with root_page_id := pid })
  else
    match t.descend key (fun pg => pg.GetSize < pg.GetMaxSize)
        (t.pages.length + 1) t.root_page_id [] [] with
    | none => none
    | some (guards, indexes, leaf_pid) =>
      match t.pageAt leaf_pid with
      | some (.leaf leaf) =>
        let res := leaf.IndexOfFirstKeyEqualOrGreaterThan key
        if res.2 then some (false, t)
        else if leaf.GetSize < leaf.GetMaxSize then
          match leaf.InsertAtA key val res.1 with
          | none => none
          | some leaf' => some (true, t.setPage leaf_pid (.leaf leaf'))
        else
          let (pid, t1) := t.NewPage
          let new0 := LeafPage.Init t1.leaf_max_size
          match leaf.MoveHalfToA new0 with
          | none => none
          | some (cur1, new1) =>
            let new2 := new1.SetNextPageId cur1.nextPageId
            let cur2 := cur1.SetNextPageId pid
            let step : Option (LeafPage × LeafPage) :=
              if res.1 ≤ cur2.GetSize then
                (cur2.InsertAtA key val res.1).map (fun c => (c, new2))
              else
                (new2.InsertAtA key val (res.1 - cur2.GetSize)).map (fun n => (cur2, n))
            match step with
            | none => none
            | some (cur3, new3) =>
              match new3.KeyAtA 0 with
              | none => none
              | some k0 =>
                let t2 := (t1.setPage leaf_pid (.leaf cur3)).setPage pid (.leaf new3)
                match insertUpward key val t2 guards.dropLast.reverse indexes.reverse
                    leaf_pid (k0, pid) with
                | none => none
                | some t3 => some (true, t3)
      | _ => none

/-- `Borrow(parent, child, childIndex, isChildLeaf)`: try the left then the
right sibling; on success move one entry across the boundary and reset the
parent separator.  Result `some (lent?, t')`. -/
def Borrow (t : BPlusTree) (parentPid childPid : Int) (childIndex : Int)
    (isChildLeaf : Bool) : Option (Bool × BPlusTree) :=
  match t.pageAt parentPid with
  | some (.internal parent) =>
    let idx0 : Int := if 0 < childIndex then childIndex - 1 else -1
    let idx1 : Int := if childIndex < parent.GetSize - 1 then childIndex + 1 else -1
    let tryOne : Int → Nat → Option (Option BPlusTree) := fun idx which =>
      -- `some none` = this sibling cannot lend (`continue`), `none` = abort
      if idx = -1 then some none
      else
        match t.pageAt (parent.ValueAt idx) with
        | none => none
        | some sib =>
          let can := match sib with
            | .internal p => p.CanBorrow
            | .leaf p => p.CanBorrow
          if can = false then some none
          else if isChildLeaf then
            match t.pageAt childPid, sib with
            | some (.leaf cur), .leaf sp =>
              if which = 0 then
                match sp.MoveBackToFrontOfA cur with
                | none => none
                | some (sp', cur') =>
                  match cur'.KeyAtA 0 with
                  | none => none
                  | some k =>
                    match parent.SetKeyAtA childIndex k with
                    | none => none
                    | some parent' =>
                      some (some (((t.setPage (parent.ValueAt idx) (.leaf sp')).setPage
                        childPid (.leaf cur')).setPage parentPid (.internal parent')))
              else
                match sp.MoveFrontToBackOfA cur with
                | none => none
                | some (sp', cur') =>
                  match sp'.KeyAtA 0 with
                  | none => none
                  | some k =>
                    match parent.SetKeyAtA (childIndex + 1) k with
                    | none => none
                    | some parent' =>
                      some (some (((t.setPage (parent.ValueAt idx) (.leaf sp')).setPage
                        childPid (.leaf cur')).setPage parentPid (.internal parent')))
            | _, _ => none
          else
            match t.pageAt childPid, sib with
            | some (.internal cur), .internal sp =>
              if which = 0 then
                match sp.MoveBackToFrontOfA cur with
                | none => none
                | some (sp', cur') =>
                  match cur'.KeyAtA 0 with
                  | none => none
                  | some k =>
                    match parent.SetKeyAtA childIndex k with
                    | none => none
                    | some parent' =>
                      some (some (((t.setPage (parent.ValueAt idx) (.internal sp')).setPage
                        childPid (.internal cur')).setPage parentPid (.internal parent')))
              else
                match sp.MoveFrontToBackOfA cur with
                | none => none
                | some (sp', cur') =>
                  match sp'.KeyAtA 0 with
                  | none => none
                  | some k =>
                    match parent.SetKeyAtA (childIndex + 1) k with
                    | none => none
                    | some parent' =>
                      some (some (((t.setPage (parent.ValueAt idx) (.internal sp')).setPage
                        childPid (.internal cur')).setPage parentPid (.internal parent')))
            | _, _ => none
    match tryOne idx0 0 with
    | none => none
    | some (some t') => some (true, t')
    | some none =>
      match tryOne idx1 1 with
      | none => none
      | some (some t') => some (true, t')
      | some none => some (false, t)
  | _ => none

/-- `Merge(parent, child, childIndex, isChildLeaf)`: concatenate `child`
with the adjacent sibling (preferring the left one), splice leaf-chain
pointers / reset the right participant's slot-0 key, then remove the
merged-away arc from the parent.  (When the child is empty the source only
removes the parent arc.) -/
def Merge (t : BPlusTree) (parentPid childPid : Int) (childIndex : Int)
    (isChildLeaf : Bool) : Option BPlusTree :=
  match t.pageAt parentPid, t.pageAt childPid with
  | some (.internal parent), some child =>
    if child.GetSize ≠ 0 then
      let l : Int := if 0 < childIndex then childIndex - 1 else childIndex
      let r : Int := l + 1
      let sibPid := if r = childIndex then parent.ValueAt l else parent.ValueAt r
      if isChildLeaf then
        match child, t.pageAt sibPid with
        | .leaf cur, some (.leaf sp) =>
          let (cur1, sp1) :=
            if r = childIndex then (cur, sp.SetNextPageId cur.nextPageId)
            else (cur.SetNextPageId sp.nextPageId, sp)
          let merged : Option (LeafPage × LeafPage) :=
            if r = childIndex then cur1.MoveAllToA sp1
            else (sp1.MoveAllToA cur1).map (fun p => (p.2, p.1))
          -- `merged = (cur', sib')` with contents after the move
          match merged with
          | none => none
          | some (cur2, sp2) =>
            match parent.RemoveAtA r with
            | none => none
            | some parent' =>
              some (((t.setPage childPid (.leaf cur2)).setPage sibPid
                (.leaf sp2)).setPage parentPid (.internal parent'))
        | _, _ => none
      else
        match child, t.pageAt sibPid with
        | .internal cur, some (.internal sp) =>
          let fixed : Option (InternalPage × InternalPage) :=
            if r = childIndex then (cur.SetKeyAtA 0 (parent.KeyAt r)).map (fun c => (c, sp))
            else (sp.SetKeyAtA 0 (parent.KeyAt r)).map (fun s => (cur, s))
          match fixed with
          | none => none
          | some (cur1, sp1) =>
            let merged : Option (InternalPage × InternalPage) :=
              if r = childIndex then cur1.MoveAllToA sp1
              else (sp1.MoveAllToA cur1).map (fun p => (p.2, p.1))
            match merged with
            | none => none
            | some (cur2, sp2) =>
              match parent.RemoveAtA r with
              | none => none
              | some parent' =>
                some (((t.setPage childPid (.internal cur2)).setPage sibPid
                  (.internal sp2)).setPage parentPid (.internal parent'))
        | _, _ => none
    else
      match parent.RemoveAtA childIndex with
      | none => none
      | some parent' => some (t.setPage parentPid (.internal parent'))
  | _, _ => none

/-- The borrow-or-merge walk of `Remove` (the `while (guards.size() >= 2)`
loop and the root epilogue), over the retained guard stack deepest-first. -/
def removeUpward : BPlusTree → List Int → List Int → Bool → Option BPlusTree
  | t, child :: parent :: rest, revIndexes, isChildLeaf =>
    match t.Borrow parent child (revIndexes.headD 0) isChildLeaf with
    | none => none
    | some (true, t') => some t'
    | some (false, t') =>
      match t'.Merge parent child (revIndexes.headD 0) isChildLeaf with
      | none => none
      | some t'' => removeUpward t'' (parent :: rest) revIndexes.tail false
  | t, [g], _, _ =>
    match t.pageAt g with
    | none => none
    | some pg =>
      if pg.GetSize ≥ pg.GetMinSize ∨ pg.IsLeafPage then some t
      else if pg.GetSize = 1 then
        match pg.asInternal with
        | none => none
        | some ip => some { t with root_page_id := ip.ValueAt 0 }
      else some t
  | t, [], _, _ => some t

/-- `Remove(key)`: delete the key from its leaf, then resolve underflow by
borrow-or-merge up the retained guards; collapse an internal root of size 1.
The source never resets `root_page_id_` to `INVALID_PAGE_ID`. -/
def Remove (t : BPlusTree) (key : Int) : Option BPlusTree :=
  if t.root_page_id = INVALID_PAGE_ID then some t
  else
    match t.descend key (fun pg => pg.GetSize > pg.GetMinSize)
        (t.pages.length + 1) t.root_page_id [] [] with
    | none => none
    | some (guards, indexes, leaf_pid) =>
      match t.pageAt leaf_pid with
      | some (.leaf leaf) =>
        let res := leaf.IndexOfFirstKeyEqualOrGreaterThan key
        if ¬res.2 then some t
        else
          match leaf.RemoveAtA res.1 with
          | none => none
          | some leaf' =>
            let t1 := t.setPage leaf_pid (.leaf leaf')
            if leaf'.GetSize ≥ leaf'.GetMinSize then some t1
            else removeUpward t1 guards.reverse indexes.reverse true
      | _ => none

/-- Modelled from the spec: the pretty-printer behind `DrawBPlusTree`
(`ToPrintableBPlusTree` + `PrintableBPlusTree::Print`) depends on page
`ToString` helpers that are not among the provided sources; since
`DrawBPlusTree` returns before ever calling it (`IsEmpty()` is constantly
`true`), it is modelled as a plain rendering of the page table. -/
def drawNonEmptyTree (t : BPlusTree) : String :=
  toString (t.pages.map Prod.fst)

/-- `DrawBPlusTree()`. -/
def DrawBPlusTree (t : BPlusTree) : String :=
  if t.IsEmpty then "()" else t.drawNonEmptyTree

end BPlusTree

/-- One tree call, for writing operation sequences. -/
inductive TreeOp where
  | insert (key val : Int)
  | remove (key : Int)
  deriving Repr, DecidableEq

/-- Apply one call, discarding `Insert`'s boolean. -/
def applyTreeOp (t : BPlusTree) : TreeOp → Option BPlusTree
  | .insert k v => (t.Insert k v).map Prod.snd
  | .remove k => t.Remove k

/-- Run a call sequence. -/
def runTreeOps (t : BPlusTree) : List TreeOp → Option BPlusTree
  | [] => some t
  | op :: ops =>
    match applyTreeOp t op with
    | none => none
    | some t' => runTreeOps t' ops

/-! ## Spec-side reference definitions

These definitions are written from the specification's words (not from the
source); they exist only to be compared against the embedded code. -/

/-- Spec: the backward K-distance of a frame at time `now` — `none` (`+∞`)
when fewer than `K` accesses are recorded, else `now` minus the timestamp of
the K-th most recent access (the history retains the `K` most recent
timestamps oldest-first, so that is its front). -/
def specBackwardKDistance (k now : Nat) (hist : List Nat) : Option Nat :=
  if hist.length < k then none else some (now - hist.headD 0)

/-- Spec: the greatest index `i ∈ [0, n)` of an internal node with
`key[i] ≤ probe`, treating `key[0]` as `−∞` (the filtered index list is
ascending, so its last element is the greatest). -/
def specChildIndex (es : List (Int × Int)) (probe : Int) : Int :=
  (((List.range es.length).filter
      (fun i => i = 0 ∨ (getI es (Int.ofNat i)).1 ≤ probe)).getLastD 0 : Nat)

/-! ## Index iterator (`index_iterator.cpp`)

The iterator works directly on `Page *` frames of the buffer pool, so here
the pool's payload type is instantiated with a typed page image. -/

/-- The raw content of a pool frame as the iterator interprets it: the
header page, a tree page, or zeroed memory. -/
inductive DiskPage where
  | zero
  | header (root_page_id : Int)
  | internal (p : InternalPage)
  | leaf (p : LeafPage)
  deriving Repr, DecidableEq

instance : Inhabited DiskPage := ⟨.zero⟩

namespace BufferPoolManager

variable {α : Type} [Inhabited α] [DecidableEq α]

/-- A write through a pinned frame's `Page *` (how the B+ tree and the test
harness fill page contents; the raw `memcpy` itself is not a buffer pool
call). -/
def writeFrameData (s : BufferPoolManager α) (fid : Int) (d : α) :
    BufferPoolManager α :=
  s.setFrame fid (fun f => { f with data := d })

/-- `page->RLatch()` (blocks — modelled as abort — while the exclusive latch
is held). -/
def RLatchF (s : BufferPoolManager α) (fid : Int) : Option (BufferPoolManager α) :=
  if (s.frameAt fid).wlatch then none
  else some (s.setFrame fid (fun f => { f with rlatch := f.rlatch + 1 }))

/-- `page->RUnlatch()`. -/
def RUnlatchF (s : BufferPoolManager α) (fid : Int) : BufferPoolManager α :=
  s.setFrame fid (fun f => { f with rlatch := f.rlatch - 1 })

/-- Modelled from the spec: dropping a `ReadPageGuard` releases the shared
latch, then unpins (see `dropBasicGuard`). -/
def dropReadGuard (s : BufferPoolManager α) (g : PageGuard) : BufferPoolManager α :=
  match g.page with
  | none => s
  | some fid => (s.RUnlatchF fid).dropBasicGuard g

end BufferPoolManager

/-- Iterator state: the currently held `Page *` (`none` = null/unassigned)
and the in-leaf index `i_`. -/
structure IndexIterator where
  page_ : Option Int
  i_ : Int
  deriving Repr, DecidableEq

namespace IndexIterator

/-- The root-to-leftmost-leaf walk of the `Begin()` constructor body (the
`while (1)` of `ITERATOR_CONSTRUCTOR`): at an internal page fetch and
read-latch child `ValueAt(0)`, release the parent's latch (the parent's
*pin* is never released), repeat.  Returns the leaf's frame. -/
def ctorLoop (fuel : Nat) (s : BufferPoolManager DiskPage) (fid : Int) :
    Option (Int × BufferPoolManager DiskPage) :=
  match fuel with
  | 0 => none
  | fuel + 1 =>
    match (s.frameAt fid).data with
    | .leaf _ => some (fid, s)
    | .internal ip =>
      let pid := ip.ValueAt 0
      match s.FetchPage pid with
      | none => none
      | some (none, _) => none
      | some (some child, s1) =>
        match s1.RLatchF child with
        | none => none
        | some s2 => ctorLoop fuel (s2.RUnlatchF fid) child
    | _ => none

/-- `IndexIterator(header_page_id, bpm)`: read the root id through a read
guard on the header, fetch and read-latch the root, drop the header guard,
walk to the leftmost leaf.  (On an empty tree the source returns with
`page_` unassigned — represented as null.) -/
def construct (s : BufferPoolManager DiskPage) (header_page_id : Int) :
    Option (IndexIterator × BufferPoolManager DiskPage) :=
  match s.FetchPageRead header_page_id with
  | none => none
  | some (rg, s1) =>
    match rg.page with
    | none => none
    | some hfid =>
      match (s1.frameAt hfid).data with
      | .header root_pid =>
        if root_pid = INVALID_PAGE_ID then
          some (⟨none, 0⟩, s1.dropReadGuard rg)
        else
          match s1.FetchPage root_pid with
          | none => none
          | some (none, _) => none
          | some (some fid, s2) =>
            match s2.RLatchF fid with
            | none => none
            | some s3 =>
              let s4 := s3.dropReadGuard rg
              match ctorLoop (s4.pool_size + 1) s4 fid with
              | none => none
              | some (lfid, s5) => some (⟨some lfid, 0⟩, s5)
      | _ => none

/-- `operator++`: under the current leaf's read latch, advance `i_`; at the
leaf's end follow `next_page_id_` — fetching (and thereby pinning) the next
leaf — then release the *latch* of the previous leaf.  No `UnpinPage` call
appears anywhere in the body. -/
def increment (s : BufferPoolManager DiskPage) (it : IndexIterator) :
    Option (IndexIterator × BufferPoolManager DiskPage) :=
  match it.page_ with
  | none => none
  | some cur =>
    match s.RLatchF cur with
    | none => none
    | some s1 =>
      match (s1.frameAt cur).data with
      | .leaf lp =>
        if it.i_ < lp.GetSize - 1 then
          some ({ it with i_ := it.i_ + 1 }, s1.RUnlatchF cur)
        else
          let pid := lp.nextPageId
          if pid = INVALID_PAGE_ID then
            some (⟨none, 0⟩, s1.RUnlatchF cur)
          else
            match s1.FetchPage pid with
            | none => none
            | some (fidOpt, s2) =>
              some (⟨fidOpt, 0⟩, s2.RUnlatchF cur)
      | _ => none

end IndexIterator

/-! ## State invariants

Predicates used to state the invariant claims (C6, C9); they are properties
of the embedded states, phrased decidably so concrete states can be
checked. -/

/-- Is `fid` tracked by the replacer? -/
def tracked (r : LRUKReplacer) (fid : Int) : Bool :=
  (findNode r.node_store fid).isSome

/-- Is `fid` tracked and flagged evictable? -/
def trackedEvictable (r : LRUKReplacer) (fid : Int) : Bool :=
  match findNode r.node_store fid with
  | some n => n.is_evictable
  | none => false

/-- Well-formedness of the replacer state, maintained by every replacer
call the buffer pool issues: tracked frame ids are in range and unique; the
two heaps hold exactly the evictable tracked frames, once each, partitioned
by history length; and `curr_size_` counts the heap entries. -/
def RWF (pool : Nat) (r : LRUKReplacer) : Prop :=
  r.replacer_size = pool ∧
  (∀ n ∈ r.node_store, 0 ≤ n.fid ∧ n.fid < (pool : Int)) ∧
  (r.node_store.map LRUKNode.fid).Nodup ∧
  (∀ n ∈ r.node_store,
    (r.less_than_k_heap ++ r.equal_to_k_heap).count n.fid =
      (if n.is_evictable then 1 else 0)) ∧
  (∀ x ∈ r.less_than_k_heap ++ r.equal_to_k_heap, ∃ n ∈ r.node_store, n.fid = x) ∧
  (∀ x ∈ r.less_than_k_heap, (getNode r.node_store x).history.length < r.k) ∧
  (∀ x ∈ r.equal_to_k_heap, ¬ (getNode r.node_store x).history.length < r.k) ∧
  r.curr_size = r.less_than_k_heap.length + r.equal_to_k_heap.length

/-- Well-formedness of the buffer pool state: the replacer is well-formed
over the pool's frames; pin counts are nonnegative; pinned frames are never
flagged evictable; page-table entries bind distinct resident page ids to
distinct in-range tracked frames whose `page_id_` field matches; free-list
frames are in range, unmapped, and fresh page ids really are fresh. -/
def BInv {α : Type} [Inhabited α] (pool : Nat) (s : BufferPoolManager α) : Prop :=
  s.pool_size = pool ∧
  s.pages.length = pool ∧
  RWF pool s.replacer ∧
  (∀ fid : Int, 0 ≤ fid → fid < (pool : Int) → 0 ≤ (s.frameAt fid).pin_count) ∧
  (∀ fid : Int, 0 ≤ fid → fid < (pool : Int) → 0 < (s.frameAt fid).pin_count →
    trackedEvictable s.replacer fid = false) ∧
  (∀ p ∈ s.page_table, 0 ≤ p.2 ∧ p.2 < (pool : Int) ∧
    tracked s.replacer p.2 = true ∧ (s.frameAt p.2).page_id = p.1) ∧
  (s.page_table.map Prod.fst).Nodup ∧
  (s.page_table.map Prod.snd).Nodup ∧
  (∀ f ∈ s.free_list, 0 ≤ f ∧ f < (pool : Int) ∧
    ∀ p ∈ s.page_table, p.2 ≠ f) ∧
  s.free_list.Nodup

-- temporary sanity check of the iterator pin-leak scenario
example :
    ((runBPMOps (BufferPoolManager.init (α := DiskPage) 5 2)
        [.newPage, .newPage, .newPage, .newPage]).map (fun s =>
        (((s.writeFrameData 0 (.header 1)).writeFrameData 1
            (.internal ⟨[(0, 2), (3, 3)], 3⟩)).writeFrameData 2
            (.leaf ⟨[(1, 10), (2, 20)], 3, 2⟩)).writeFrameData 3
            (.leaf ⟨[(3, 30)], -1, 2⟩))).bind (fun s =>
      (runBPMOps s [.unpinPage 0 false, .unpinPage 1 false, .unpinPage 2 false,
        .unpinPage 3 false]).bind (fun s =>
      (IndexIterator.construct s 0).bind (fun p =>
      (IndexIterator.increment p.2 p.1).bind (fun q =>
      (IndexIterator.increment q.2 q.1).map (fun w =>
        (p.1.page_, (p.2.frameAt 2).pin_count,
         w.1.page_, (w.2.frameAt 2).pin_count, (w.2.frameAt 2).rlatch,
         (w.2.frameAt 3).pin_count)))))) =
      some (some 2, 1, some 3, 1, 1, 1) := by
  decide

-- temporary sanity checks of the tree on the spec's scenario
example :
    (runTreeOps (BPlusTree.mk0 2 3)
      [.insert 1 10, .insert 2 20, .insert 3 30, .insert 4 40, .insert 5 50]).map
      (fun t => ((List.range 7).map (fun k => t.GetValue k))) =
      some [some none, some (some 10), some (some 20), some (some 30),
            some (some 40), some (some 50), some none] := by
  decide
example :
    (runTreeOps (BPlusTree.mk0 2 3)
      [.insert 1 10, .insert 2 20, .insert 3 30, .insert 4 40, .insert 5 50,
       .remove 3]).map
      (fun t => ((List.range 6).map (fun k => t.GetValue k))) =
      some [some none, some (some 10), some (some 20), some none,
            some (some 40), some (some 50)] := by
  decide
example :
    (runTreeOps (BPlusTree.mk0 2 3) [.insert 1 10, .remove 1]).map
      (fun t => (t.root_page_id, t.GetValue 1)) = some (0, some none) := by
  decide

-- temporary sanity checks of the buffer pool on concrete runs
example :
    (runBPMOps (α := Nat) (BufferPoolManager.init 3 2)
      [.newPage, .newPage, .newPage]).map
      (fun s => (s.free_list, s.page_table, (s.frameAt 0).pin_count)) =
      some ([], [(0, 0), (1, 1), (2, 2)], 1) := by
  decide
example :
    (runBPMOps (α := Nat) (BufferPoolManager.init 1 2)
      [.newPage]).bind (fun s => (s.NewPage).map (fun p => p.1)) =
      some none := by
  decide
example :
    (runBPMOps (α := Nat) (BufferPoolManager.init 1 2)
      [.newPage, .unpinPage 0 true]).bind
      (fun s => (s.NewPage).map (fun p => (p.1, p.2.disk))) =
      some (some (1, 0), [(0, 0)]) := by
  decide

-- temporary sanity checks of the replacer on concrete runs
example :
    (runRepOps (LRUKReplacer.init 3 2)
      [.record 0, .record 0, .record 1, .record 2, .record 2, .record 1,
       .setEvictable 0 true, .setEvictable 1 true]).bind
      (fun r => r.Evict.map (fun p => p.1)) = some (some 1) := by
  decide
example :
    (runRepOps (LRUKReplacer.init 3 2)
      [.record 0, .setEvictable 0 true, .remove 0]).map
      (fun r => (r.Size, r.node_store.length)) = some (1, 0) := by
  decide

-- sanity checks of the searches on concrete nodes
example :
    (InternalPage.Lookup ⟨[(0, 100), (10, 101), (20, 102)], 4⟩ 15) = (101, 1) := by
  decide

example :
    (InternalPage.Lookup ⟨[(0, 100), (10, 101), (20, 102)], 4⟩ 10) = (101, 2) := by
  decide

example :
    (LeafPage.IndexOfFirstKeyEqualOrGreaterThan ⟨[(3, 30), (7, 70)], INVALID_PAGE_ID, 2⟩ 5) =
      (1, false) := by
  decide

example :
    (LeafPage.Lookup ⟨[(3, 30), (7, 70)], INVALID_PAGE_ID, 2⟩ 7) = some 70 := by
  decide

/-! ## Claim theorems -/

/-- C1: the claim fails on the code, which is a bug against the replacer's
own header documentation (`lru_k_replacer.h` defines eviction by maximal
backward K-distance, `now − timestamp of K-th previous access`, while
`LRUHeap::compare_` ranks full-history frames by the *spread*
`back − front` of their histories).  With `K = 2` and the access sequence
`0,0,1,2,2,1` (frame 2 never made evictable), frame 0's history is `[0,1]`
(distance `6−0 = 6`) and frame 1's is `[2,5]` (distance `6−2 = 4`): both are
evictable and both distances are finite, so the claim requires `Evict` to
return frame 0, yet the code evicts frame 1 (both spreads are `1`, and the
tie falls to the later-pushed heap entry). -/
theorem C1_evict_ignores_backward_k_distance :
    (runRepOps (LRUKReplacer.init 3 2)
      [.record 0, .record 0, .record 1, .record 2, .record 2, .record 1,
       .setEvictable 0 true, .setEvictable 1 true]).map (fun r =>
      ((r.Evict).map Prod.fst,
       (getNode r.node_store 0).is_evictable,
       (getNode r.node_store 1).is_evictable,
       specBackwardKDistance r.k r.current_timestamp (getNode r.node_store 0).history,
       specBackwardKDistance r.k r.current_timestamp (getNode r.node_store 1).history)) =
    some (some (some 1), true, true, some 6, some 4) := by
  decide

/-- C5: the claim restates the header documentation of
`LRUKReplacer::Remove` ("this function should also decrement replacer's
size"), but the implementation never touches `curr_size_`.  After
`RecordAccess(0)`, `SetEvictable(0, true)`, `Remove(0)` the replacer tracks
no frames at all, yet `Size()` still returns 1 — and the stale counter then
drives `Evict` into its internal `throw Exception("BUG.")` path (both heaps
empty while `curr_size_ != 0`). -/
theorem C5_remove_does_not_decrement_size :
    (runRepOps (LRUKReplacer.init 3 2)
      [.record 0, .setEvictable 0 true, .remove 0]).map (fun r =>
      (r.Size, r.node_store, r.Evict)) =
    some (1, [], none) := by
  decide

/-- C3 counterexample: on an exact probe hit `Lookup` pairs the child
pointer at the hit position `mid` with the binary search's *current upper
bound* `j`, not with `mid`.  For the internal node with keys
`[⊥, 10, 20]` and children `[100, 101, 102]`, probing `10` yields
`(101, 2)`: the child pointer is the one stored at index 1 (the greatest
index whose key is `≤ 10`), but the reported `child_index` is 2, and the
child stored at index 2 is 102, not the returned 101. -/
theorem C3_lookup_equal_key_wrong_index :
    (InternalPage.Lookup ⟨[(0, 100), (10, 101), (20, 102)], 4⟩ 10,
     specChildIndex [(0, 100), (10, 101), (20, 102)] 10,
     InternalPage.ValueAt ⟨[(0, 100), (10, 101), (20, 102)], 4⟩ 2) =
    ((101, 2), 1, 102) := by
  decide

/-! ### C3, amended: characterization of `InternalPage.Lookup` -/

/-- In-range `getI` is `List.get`. -/
theorem getI_eq_get {α : Type} [Inhabited α] (l : List α) (m : Int)
    (h0 : 0 ≤ m) (h1 : m.toNat < l.length) : getI l m = l.get ⟨m.toNat, h1⟩ := by
  rw [getI, if_neg (not_lt.mpr h0)]
  exact List.getD_eq_get l default h1

/-- Index form of the node-sortedness hypothesis (keys strictly increase
from index 1). -/
theorem sorted_key_lt (es : List (Int × Int))
    (hs : List.Pairwise (fun a b => a.1 < b.1) (es.drop 1)) :
    ∀ a b : Int, 1 ≤ a → a < b → b < (es.length : Int) →
      (getI es a).1 < (getI es b).1 := by
  intro a b ha hab hb
  have hb' : b.toNat < es.length := by omega
  have ha' : a.toNat < es.length := by omega
  rw [getI_eq_get es a (by omega) ha', getI_eq_get es b (by omega) hb']
  have hld : (es.drop 1).length = es.length - 1 := by simp
  have h1 : a.toNat - 1 < (es.drop 1).length := by omega
  have h2 : b.toNat - 1 < (es.drop 1).length := by omega
  have hp := List.pairwise_iff_get.mp hs ⟨a.toNat - 1, h1⟩ ⟨b.toNat - 1, h2⟩
    (by simp only [Fin.mk_lt_mk]; omega)
  have e1 : (es.drop 1).get ⟨a.toNat - 1, h1⟩ = es.get ⟨a.toNat, ha'⟩ := by
    simp only [List.get_eq_getElem, List.getElem_drop]
    congr 1
    omega
  have e2 : (es.drop 1).get ⟨b.toNat - 1, h2⟩ = es.get ⟨b.toNat, hb'⟩ := by
    simp only [List.get_eq_getElem, List.getElem_drop]
    congr 1
    omega
  rwa [e1, e2] at hp

/-- Every member of a strictly increasing `Nat` list is at most its last
element. -/
theorem le_getLastD_of_pairwise_lt (l : List Nat) (h : l.Pairwise (· < ·)) :
    ∀ x ∈ l, x ≤ l.getLastD 0 := by
  induction l with
  | nil => intro x hx; cases hx
  | cons a t ih =>
    intro x hx
    rcases List.pairwise_cons.mp h with ⟨ha, ht⟩
    cases t with
    | nil =>
      rcases List.mem_cons.mp hx with hx | hx
      · subst hx; simp [List.getLastD]
      · cases hx
    | cons b u =>
      have hbne : b :: u ≠ ([] : List Nat) := by simp
      have e : ∀ d : Nat, (b :: u).getLastD d = (b :: u).getLast hbne := by
        intro d
        rw [List.getLastD_eq_getLast?, List.getLast?_eq_getLast _ hbne,
          Option.getD_some]
      have hlast : (a :: b :: u).getLastD 0 = (b :: u).getLastD 0 := by
        rw [List.getLastD_cons, e a, e 0]
      rcases List.mem_cons.mp hx with hx | hx
      · have hmem : (b :: u).getLastD 0 ∈ b :: u := by
          rw [e 0]; exact List.getLast_mem hbne
        have := ha _ hmem
        subst hx
        omega
      · have := ih ht x hx
        omega

/-- The last position of `(range m).filter pred` (as `getLastD 0`) is a
maximal index `< m` satisfying `pred`, provided `pred 0` holds. -/
theorem filter_range_getLastD_spec (m : Nat) (pred : Nat → Bool)
    (h0 : pred 0 = true) (hm : 1 ≤ m) :
    ((List.range m).filter pred).getLastD 0 < m ∧
    pred (((List.range m).filter pred).getLastD 0) = true ∧
    ∀ i, i < m → pred i = true → i ≤ ((List.range m).filter pred).getLastD 0 := by
  have hmem0 : 0 ∈ (List.range m).filter pred :=
    List.mem_filter.mpr ⟨List.mem_range.mpr (by omega), h0⟩
  have hne : (List.range m).filter pred ≠ [] := List.ne_nil_of_mem hmem0
  have hpair : ((List.range m).filter pred).Pairwise (· < ·) :=
    List.Pairwise.filter pred (List.pairwise_lt_range m)
  have hlmem : ((List.range m).filter pred).getLastD 0 ∈ (List.range m).filter pred := by
    have e : ((List.range m).filter pred).getLastD 0 =
        ((List.range m).filter pred).getLast hne := by
      rw [List.getLastD_eq_getLast?, List.getLast?_eq_getLast _ hne, Option.getD_some]
    rw [e]
    exact List.getLast_mem hne
  refine ⟨?_, ?_, ?_⟩
  · exact List.mem_range.mp (List.mem_of_mem_filter hlmem)
  · exact (List.mem_filter.mp hlmem).2
  · intro i him hpi
    exact le_getLastD_of_pairwise_lt _ hpair i
      (List.mem_filter.mpr ⟨List.mem_range.mpr him, hpi⟩)

/-- `specChildIndex` really is the greatest index whose key is `≤` the
probe: it is in range, it qualifies, and every larger in-range index does
not. -/
theorem specChildIndex_spec (es : List (Int × Int)) (key : Int)
    (hn : 1 ≤ es.length) :
    0 ≤ specChildIndex es key ∧ specChildIndex es key < (es.length : Int) ∧
      (specChildIndex es key = 0 ∨ (getI es (specChildIndex es key)).1 ≤ key) ∧
      (∀ i : Int, specChildIndex es key < i → i < (es.length : Int) →
        ¬ (getI es i).1 ≤ key) := by
  have h := filter_range_getLastD_spec es.length
    (fun i => decide (i = 0 ∨ (getI es (Int.ofNat i)).1 ≤ key)) (by simp) hn
  obtain ⟨h1, h2, h3⟩ := h
  have hg : specChildIndex es key =
      ((((List.range es.length).filter
        (fun i => decide (i = 0 ∨ (getI es (Int.ofNat i)).1 ≤ key))).getLastD 0 : Nat) :
        Int) := rfl
  refine ⟨by rw [hg]; omega, by rw [hg]; omega, ?_, ?_⟩
  · rcases of_decide_eq_true h2 with h | h
    · left; rw [hg]; omega
    · right
      rw [hg]
      exact h
  · intro i hgi hin hle
    rw [hg] at hgi
    have hi0 : 0 ≤ i := by omega
    have hmem : i.toNat < es.length := by omega
    have : decide (i.toNat = 0 ∨ (getI es (Int.ofNat i.toNat)).1 ≤ key) = true := by
      apply decide_eq_true
      right
      have hi : Int.ofNat i.toNat = i := Int.toNat_of_nonneg hi0
      rwa [hi]
    have := h3 i.toNat hmem this
    omega

/-- The loop invariant of the `Lookup` binary search: starting from a valid
window `[i, j]` with everything left of `i` known `≤ key` (indices `≥ 1`)
and everything right of `j` known `> key`, the loop lands on the greatest
index `r` whose key is `≤ key` (index 0 as `−∞`): the returned child is the
one stored at `r`, and when no stored key equals the probe the returned
index is `r` as well. -/
theorem internalLookupLoop_spec (es : List (Int × Int)) (key : Int)
    (hs : List.Pairwise (fun a b => a.1 < b.1) (es.drop 1)) :
    ∀ (fuel : Nat) (i j : Int),
      1 ≤ i → i ≤ j + 1 → j < (es.length : Int) →
      (j + 1 - i) ≤ (fuel : Int) →
      (∀ m : Int, 1 ≤ m → m < i → (getI es m).1 ≤ key) →
      (∀ m : Int, j < m → m < (es.length : Int) → key < (getI es m).1) →
      ∃ r : Int, 0 ≤ r ∧ r < (es.length : Int) ∧
        (r = 0 ∨ (getI es r).1 ≤ key) ∧
        (∀ m : Int, r < m → m < (es.length : Int) → key < (getI es m).1) ∧
        (InternalPage.lookupLoop es key fuel i j).1 = (getI es r).2 ∧
        ((∀ e ∈ es.drop 1, e.1 ≠ key) → (InternalPage.lookupLoop es key fuel i j).2 = r) := by
  intro fuel
  induction fuel with
  | zero =>
    intro i j hi hij hjn hfuel hleft hright
    -- fuel bound forces the window empty (`i = j + 1`): the loop exits at `j`
    have hij' : i = j + 1 := by omega
    refine ⟨j, by omega, hjn, ?_, ?_, rfl, fun _ => rfl⟩
    · rcases eq_or_lt_of_le (show (0 : Int) ≤ j by omega) with h | h
      · left; omega
      · right; exact hleft j (by omega) (by omega)
    · intro m hm hmn; exact hright m hm hmn
  | succ fuel ih =>
    intro i j hi hij hjn hfuel hleft hright
    by_cases hwin : i ≤ j
    · have hmid0 : 0 ≤ (j - i) / 2 := Int.ediv_nonneg (by omega) (by norm_num)
      have hmid1 : (j - i) / 2 ≤ j - i := by
        have := Int.ediv_le_self 2 (show (0 : Int) ≤ j - i by omega)
        omega
      rcases lt_trichotomy key (getI es (i + (j - i) / 2)).1 with hlt | heq | hgt
      · -- key < key[mid]: shrink to [i, mid-1]
        have hres : cmpKeys key (getI es (i + (j - i) / 2)).1 < 0 := by
          simp [cmpKeys, if_pos hlt]
        have hright' : ∀ m : Int, i + (j - i) / 2 - 1 < m → m < (es.length : Int) →
            key < (getI es m).1 := by
          intro m hm hmn
          rcases eq_or_lt_of_le (show i + (j - i) / 2 ≤ m by omega) with h | h
          · rw [← h]; exact hlt
          · calc key < (getI es (i + (j - i) / 2)).1 := hlt
              _ < (getI es m).1 := sorted_key_lt es hs _ m (by omega) h hmn
        have hrec := ih i (i + (j - i) / 2 - 1) hi (by omega) (by omega) (by omega)
          hleft hright'
        rcases hrec with ⟨r, hr1, hr2, hr3, hr4, hr5, hr6⟩
        have hstep : InternalPage.lookupLoop es key (fuel + 1) i j =
            InternalPage.lookupLoop es key fuel i (i + (j - i) / 2 - 1) := by
          simp only [InternalPage.lookupLoop, if_pos hwin]
          rw [if_pos hres]
        exact ⟨r, hr1, hr2, hr3, hr4, by rw [hstep]; exact hr5,
          fun hne => by rw [hstep]; exact hr6 hne⟩
      · -- key = key[mid]: the loop returns (child at mid, j)
        have hres : cmpKeys key (getI es (i + (j - i) / 2)).1 = 0 := by
          simp [cmpKeys, heq]
        have hloop : InternalPage.lookupLoop es key (fuel + 1) i j =
            ((getI es (i + (j - i) / 2)).2, j) := by
          simp only [InternalPage.lookupLoop, if_pos hwin]
          rw [if_neg (by omega), if_neg (by omega)]
        refine ⟨i + (j - i) / 2, by omega, by omega, Or.inr (le_of_eq heq.symm),
          ?_, by rw [hloop], ?_⟩
        · intro m hm hmn
          calc key = (getI es (i + (j - i) / 2)).1 := heq
            _ < (getI es m).1 := sorted_key_lt es hs _ m (by omega) hm hmn
        · intro hne
          exfalso
          have hmn : (i + (j - i) / 2).toNat < es.length := by omega
          have hd1 : (i + (j - i) / 2).toNat - 1 < (es.drop 1).length := by
            simp only [List.length_drop]
            omega
          have hmemd : getI es (i + (j - i) / 2) ∈ es.drop 1 := by
            rw [getI_eq_get es _ (by omega) hmn]
            have e : (es.drop 1).get ⟨(i + (j - i) / 2).toNat - 1, hd1⟩ =
                es.get ⟨(i + (j - i) / 2).toNat, hmn⟩ := by
              simp only [List.get_eq_getElem, List.getElem_drop]
              congr 1
              omega
            rw [← e]
            exact List.get_mem _ _ hd1
          exact hne _ hmemd heq.symm
      · -- key[mid] < key: shrink to [mid+1, j]
        have hres0 : ¬ cmpKeys key (getI es (i + (j - i) / 2)).1 < 0 := by
          simp only [cmpKeys]
          rw [if_neg (by omega), if_pos hgt]
          omega
        have hres1 : 0 < cmpKeys key (getI es (i + (j - i) / 2)).1 := by
          simp only [cmpKeys]
          rw [if_neg (by omega), if_pos hgt]
          omega
        have hleft' : ∀ m : Int, 1 ≤ m → m < i + (j - i) / 2 + 1 →
            (getI es m).1 ≤ key := by
          intro m hm1 hm2
          rcases eq_or_lt_of_le (show m ≤ i + (j - i) / 2 by omega) with h | h
          · rw [h]; omega
          · have := sorted_key_lt es hs m (i + (j - i) / 2) hm1 h (by omega)
            omega
        have hrec := ih (i + (j - i) / 2 + 1) j (by omega) (by omega) hjn (by omega)
          hleft' hright
        rcases hrec with ⟨r, hr1, hr2, hr3, hr4, hr5, hr6⟩
        have hstep : InternalPage.lookupLoop es key (fuel + 1) i j =
            InternalPage.lookupLoop es key fuel (i + (j - i) / 2 + 1) j := by
          simp only [InternalPage.lookupLoop, if_pos hwin]
          rw [if_neg hres0, if_pos hres1]
        exact ⟨r, hr1, hr2, hr3, hr4, by rw [hstep]; exact hr5,
          fun hne => by rw [hstep]; exact hr6 hne⟩
    · -- window already empty: exit at `j`
      have hloop : InternalPage.lookupLoop es key (fuel + 1) i j = ((getI es j).2, j) := by
        simp only [InternalPage.lookupLoop, if_neg hwin]
      have hij' : i = j + 1 := by omega
      refine ⟨j, by omega, hjn, ?_, ?_, by rw [hloop], fun _ => by rw [hloop]⟩
      · rcases eq_or_lt_of_le (show (0 : Int) ≤ j by omega) with h | h
        · left; omega
        · right; exact hleft j (by omega) (by omega)
      · intro m hm hmn; exact hright m hm hmn

/-- C3, amended: for every internal node with `1 ≤ size` and strictly
increasing keys (from index 1), `Lookup(probe)` returns the child pointer
stored at the greatest index `i` with `key[i] ≤ probe` (`key[0]` as `−∞`);
and whenever the probe differs from every stored key the returned
`child_index` equals that greatest index as well (on an exact hit it can
exceed it — see the counterexample `C3_lookup_equal_key_wrong_index`). -/
theorem C3_lookup_characterization (p : InternalPage) (key : Int)
    (hn : 1 ≤ p.entries.length)
    (hs : List.Pairwise (fun a b => a.1 < b.1) (p.entries.drop 1)) :
    (p.Lookup key).1 = (getI p.entries (specChildIndex p.entries key)).2 ∧
    ((∀ e ∈ p.entries.drop 1, e.1 ≠ key) →
      (p.Lookup key).2 = specChildIndex p.entries key) := by
  have hlen : p.GetSize = (p.entries.length : Int) := rfl
  have hrun := internalLookupLoop_spec p.entries key hs
    (p.GetSize - 1).toNat 1 (p.GetSize - 1)
    (by omega) (by rw [hlen]; omega) (by rw [hlen]; omega)
    (by rw [hlen]; omega)
    (by intro m h1 h2; omega)
    (by intro m h1 h2; rw [hlen] at h1; omega)
  rcases hrun with ⟨r, hr0, hrn, hrq, hrgt, hv, hidx⟩
  have hg := specChildIndex_spec p.entries key hn
  -- the greatest qualifying index is unique, so r = specChildIndex
  have hreq : r = specChildIndex p.entries key := by
    rcases lt_trichotomy r (specChildIndex p.entries key) with h | h | h
    · exfalso
      rcases hg.2.2.1 with h0 | hq
      · omega
      · exact absurd hq (not_le.mpr (hrgt _ h hg.2.1))
    · exact h
    · exfalso
      rcases hrq with h0 | hq
      · omega
      · exact hg.2.2.2 r h hrn hq
  have hL : p.Lookup key = InternalPage.lookupLoop p.entries key (p.GetSize - 1).toNat
      1 (p.GetSize - 1) := rfl
  constructor
  · rw [hL, hv, hreq]
  · intro hne
    rw [hL, hidx hne, hreq]

/-- Witness for the amended C3 theorem at a concrete sorted node and a probe
hitting no stored key. -/
theorem C3_lookup_characterization_witness :
    (InternalPage.Lookup ⟨[(0, 100), (10, 101), (20, 102)], 4⟩ 15).1 =
      (getI [(0, 100), (10, 101), (20, 102)]
        (specChildIndex [(0, 100), (10, 101), (20, 102)] 15)).2 ∧
    (InternalPage.Lookup ⟨[(0, 100), (10, 101), (20, 102)], 4⟩ 15).2 =
      specChildIndex [(0, 100), (10, 101), (20, 102)] 15 := by
  have h := C3_lookup_characterization ⟨[(0, 100), (10, 101), (20, 102)], 4⟩ 15
    (by decide) (by decide)
  exact ⟨h.1, h.2 (by decide)⟩

/-- C4: the claim fails on the code — a slip the code's own sibling
constructors expose (`FetchPageRead` wraps the fetched frame;
`FetchPageWrite` returns `{this, nullptr}`).  Fetching page 0 write-latched
pins frame 0 and takes its exclusive latch, but the returned guard wraps
null, so destroying the guard releases neither the latch nor the pin: the
frame stays at pin count 1 with the latch held. -/
theorem C4_fetch_page_write_guard_wraps_null :
    ((runBPMOps (BufferPoolManager.init (α := Nat) 3 2)
        [.newPage, .unpinPage 0 false]).bind (fun s =>
      (s.FetchPageWrite 0).map (fun p =>
        (p.1.page,
         (p.2.frameAt 0).pin_count,
         (p.2.frameAt 0).wlatch,
         ((p.2.dropWriteGuard p.1).frameAt 0).pin_count,
         ((p.2.dropWriteGuard p.1).frameAt 0).wlatch)))) =
    some (none, 1, true, 1, true) := by
  decide

/-- C7: the claim fails on the code, contradicting the documented pin
discipline (a fetched page must be unpinned; `operator++` only ever calls
`FetchPage` and `RUnlatch`).  On a two-leaf tree (header page 0, internal
root page 1, leaves page 2 `[(1,10),(2,20)] → 3` and page 3 `[(3,30)]`),
the leaf frame 2 has pin count 0 before the iterator is built; the iterator
pins it, and after `operator++` crosses to leaf 3 (pinning frame 3), frame 2
is still pinned (count 1, with the constructor-held read latch also still
held) instead of returning to 0. -/
theorem C7_iterator_increment_never_unpins :
    (((runBPMOps (BufferPoolManager.init (α := DiskPage) 5 2)
        [.newPage, .newPage, .newPage, .newPage]).map (fun s =>
        (((s.writeFrameData 0 (.header 1)).writeFrameData 1
            (.internal ⟨[(0, 2), (3, 3)], 3⟩)).writeFrameData 2
            (.leaf ⟨[(1, 10), (2, 20)], 3, 2⟩)).writeFrameData 3
            (.leaf ⟨[(3, 30)], -1, 2⟩))).bind (fun s =>
      runBPMOps s [.unpinPage 0 false, .unpinPage 1 false, .unpinPage 2 false,
        .unpinPage 3 false])).bind (fun s =>
      (IndexIterator.construct s 0).bind (fun p =>
      (IndexIterator.increment p.2 p.1).bind (fun q =>
      (IndexIterator.increment q.2 q.1).map (fun w =>
        decide ((s.frameAt 2).pin_count = 0) &&
        decide (p.1.page_ = some 2) &&
        decide ((p.2.frameAt 2).pin_count = 1) &&
        decide (w.1.page_ = some 3) &&
        decide ((w.2.frameAt 2).pin_count = 1) &&
        decide ((w.2.frameAt 2).rlatch = 1) &&
        decide ((w.2.frameAt 3).pin_count = 1))))) =
    some true := by
  decide

/-- C8: the claim fails on the code — and the spec's design notes record
exactly this as a source bug ("the source never resets the header root id to
the sentinel").  Inserting key 1 into an empty tree (leaf max 2, internal
max 3) and then removing it leaves `root_page_id_ = 0` — the now-empty root
leaf — instead of `INVALID_PAGE_ID`; a subsequent `GetValue(1)` does return
absent (the empty leaf misses), but a subsequent `Insert` descends into the
stale root leaf rather than taking the empty-tree path (the root id stays
0, where the empty-tree path would have allocated a fresh page id 1). -/
theorem C8_remove_last_key_keeps_stale_root :
    (runTreeOps (BPlusTree.mk0 2 3) [.insert 1 10, .remove 1]).map (fun t =>
      (t.root_page_id, t.pageAt 0)) =
      some (0, some (.leaf ⟨[], INVALID_PAGE_ID, 2⟩)) ∧
    (runTreeOps (BPlusTree.mk0 2 3) [.insert 1 10, .remove 1]).map (fun t =>
      (t.GetValue 1,
       (t.Insert 2 20).map (fun p => (p.1, p.2.root_page_id, p.2.next_page_id)))) =
      some (some none, some (true, 0, 1)) ∧
    (0 : Int) ≠ INVALID_PAGE_ID := by
  refine ⟨by decide, by decide, by decide⟩

/-- C10: confirmed — `IsEmpty()` returns `true` for every tree state (it
never consults the header page's root id), and `DrawBPlusTree()`
consequently short-circuits to `"()"` for every tree, including any state
reached after successful inserts. -/
theorem C10_is_empty_constant_true (t : BPlusTree) :
    t.IsEmpty = true ∧ t.DrawBPlusTree = "()" := by
  exact ⟨rfl, rfl⟩

/-! ### Heap-shape lemmas for the replacer invariant

`LRUHeap`'s sift operations only swap elements, so every heap operation
permutes the underlying id list in the obvious way; these lemmas capture
that. -/

/-- Splitting a list at an in-range index, as a permutation. -/
theorem perm_cons_eraseIdx {α : Type} (l : List α) (i : Nat) (h : i < l.length) :
    List.Perm l (l.get ⟨i, h⟩ :: l.eraseIdx i) := by
  conv_lhs => rw [← List.take_append_drop i l]
  rw [List.eraseIdx_eq_take_drop_succ, List.drop_eq_get_cons h]
  exact List.perm_middle

/-- `set` at an in-range index, as a permutation. -/
theorem set_perm_cons_eraseIdx {α : Type} (l : List α) (i : Nat) (a : α)
    (h : i < l.length) : List.Perm (l.set i a) (a :: l.eraseIdx i) := by
  rw [List.set_eq_take_cons_drop a h, List.eraseIdx_eq_take_drop_succ]
  exact List.perm_middle

/-- Count bookkeeping for `set`. -/
theorem count_set_eq {α : Type} [DecidableEq α] (l : List α) (i : Nat) (a : α)
    (h : i < l.length) (x : α) :
    (l.set i a).count x + (if l.get ⟨i, h⟩ = x then 1 else 0) =
      l.count x + (if a = x then 1 else 0) := by
  have p1 := (set_perm_cons_eraseIdx l i a h).count_eq x
  have p2 := (perm_cons_eraseIdx l i h).count_eq x
  simp only [List.count_cons, beq_iff_eq] at p1 p2
  omega

namespace LRUHeap

/-- In-range `getN` is `List.get`. -/
theorem getN_eq_get (l : List Int) (i : Nat) (h : i < l.length) :
    getN l i = l.get ⟨i, h⟩ :=
  List.getD_eq_get l 0 h

/-- `hSwap` at in-range indices is a permutation. -/
theorem hSwap_perm (l : List Int) (i j : Nat) (hi : i < l.length)
    (hj : j < l.length) : List.Perm (hSwap l i j) l := by
  rw [List.perm_iff_count]
  intro x
  have hlen : (l.set i (getN l j)).length = l.length := List.length_set l i _
  have hj' : j < (l.set i (getN l j)).length := by omega
  have e1 := count_set_eq l i (getN l j) hi x
  have e2 := count_set_eq (l.set i (getN l j)) j (getN l i) hj' x
  have hv : (l.set i (getN l j)).get ⟨j, hj'⟩ = getN l j := by
    rcases eq_or_ne i j with rfl | hne
    · simp only [List.get_eq_getElem, List.getElem_set_self]
    · simp only [List.get_eq_getElem, List.getElem_set_ne hne]
      exact (getN_eq_get l j hj).symm
  rw [hv] at e2
  rw [getN_eq_get l i hi] at e2
  simp only [hSwap]
  rw [getN_eq_get l i hi]
  omega

/-- `upLoop` permutes the heap. -/
theorem upLoop_perm (store : List LRUKNode) (k : Nat) :
    ∀ (fuel : Nat) (l : List Int) (i : Nat), i < l.length →
      List.Perm (upLoop store k fuel l i) l := by
  intro fuel
  induction fuel with
  | zero => intro l i _; exact List.Perm.refl l
  | succ fuel ih =>
    intro l i hi
    simp only [upLoop]
    by_cases h0 : i = 0
    · rw [if_pos h0]
    · rw [if_neg h0]
      by_cases hc : 0 < compare_ store k (getN l ((i - 1) / 2)) (getN l i)
      · rw [if_pos hc]
      · rw [if_neg hc]
        have hj : (i - 1) / 2 < l.length := by omega
        have hlen : (hSwap l ((i - 1) / 2) i).length = l.length := by
          simp [hSwap]
        exact (ih (hSwap l ((i - 1) / 2) i) ((i - 1) / 2) (by omega)).trans
          (hSwap_perm l ((i - 1) / 2) i hj hi)

/-- `downLoop` permutes the heap. -/
theorem downLoop_perm (store : List LRUKNode) (k : Nat) :
    ∀ (fuel : Nat) (l : List Int) (i : Nat),
      List.Perm (downLoop store k fuel l i) l := by
  intro fuel
  induction fuel with
  | zero => intro l i; exact List.Perm.refl l
  | succ fuel ih =>
    intro l i
    simp only [downLoop]
    by_cases hj : 2 * i + 1 ≥ l.length
    · rw [if_pos hj]
    · rw [if_neg hj]
      by_cases hbig : 2 * i + 1 + 1 < l.length ∧
          0 < compare_ store k (getN l (2 * i + 1 + 1)) (getN l (2 * i + 1))
      · rw [if_pos hbig]
        by_cases hc : 0 < compare_ store k (getN l i) (getN l (2 * i + 1 + 1))
        · rw [if_pos hc]
        · rw [if_neg hc]
          have hjl : 2 * i + 1 + 1 < l.length := hbig.1
          exact (ih _ _).trans (hSwap_perm l i (2 * i + 1 + 1) (by omega) hjl)
      · rw [if_neg hbig]
        by_cases hc : 0 < compare_ store k (getN l i) (getN l (2 * i + 1))
        · rw [if_pos hc]
        · rw [if_neg hc]
          exact (ih _ _).trans (hSwap_perm l i (2 * i + 1) (by omega) (by omega))

/-- `Push` appends, up to permutation. -/
theorem Push_perm (store : List LRUKNode) (k : Nat) (l : List Int) (fid : Int) :
    List.Perm (Push store k l fid) (l ++ [fid]) := by
  simp only [Push]
  have hlen : (l ++ [fid]).length = l.length + 1 := by simp
  exact upLoop_perm store k _ (l ++ [fid]) _ (by omega)

/-- Moving the last element into slot `i` and shrinking removes exactly the
element at `i`, up to permutation. -/
theorem set_last_dropLast_perm (l : List Int) (i : Nat) (h : i < l.length) :
    List.Perm ((l.set i (getN l (l.length - 1))).dropLast) (l.eraseIdx i) := by
  rw [List.perm_iff_count]
  intro x
  have hlast : l.length - 1 < l.length := by omega
  have hlen : (l.set i (getN l (l.length - 1))).length = l.length :=
    List.length_set l i _
  have hL1 : (l.set i (getN l (l.length - 1))).length - 1 <
      (l.set i (getN l (l.length - 1))).length := by omega
  have e1 := count_set_eq l i (getN l (l.length - 1)) h x
  have e2 := (perm_cons_eraseIdx (l.set i (getN l (l.length - 1)))
    ((l.set i (getN l (l.length - 1))).length - 1) hL1).count_eq x
  simp only [List.count_cons, beq_iff_eq] at e2
  rw [← getN_eq_get _ _ hL1] at e2
  have her : (l.set i (getN l (l.length - 1))).eraseIdx
      ((l.set i (getN l (l.length - 1))).length - 1) =
      (l.set i (getN l (l.length - 1))).dropLast := by
    rw [List.eraseIdx_eq_take_drop_succ, List.dropLast_eq_take]
    have hnil : (l.set i (getN l (l.length - 1))).drop
        ((l.set i (getN l (l.length - 1))).length - 1 + 1) = [] :=
      List.drop_eq_nil_of_le (by omega)
    rw [hnil, List.append_nil]
  rw [her] at e2
  have hidx : (l.set i (getN l (l.length - 1))).length - 1 = l.length - 1 := by
    omega
  rw [hidx] at e2
  have hgv : getN (l.set i (getN l (l.length - 1))) (l.length - 1) =
      getN l (l.length - 1) := by
    rcases eq_or_ne i (l.length - 1) with hie | hie
    · subst hie
      simp only [getN, List.getD_eq_getElem?_getD, List.getElem?_set_eq h,
        Option.getD_some]
    · simp only [getN, List.getD_eq_getElem?_getD, List.getElem?_set_ne hie]
  rw [hgv] at e2
  have e3 := (perm_cons_eraseIdx l i h).count_eq x
  simp only [List.count_cons, beq_iff_eq] at e3
  omega

/-- `Remove` at a valid index succeeds and removes exactly that element, up
to permutation. -/
theorem Remove_perm (store : List LRUKNode) (k : Nat) (l : List Int) (i : Nat)
    (h : i < l.length) :
    ∃ l', Remove store k l i = some l' ∧ List.Perm l' (l.eraseIdx i) := by
  refine ⟨_, by rw [Remove, if_pos h], ?_⟩
  exact (downLoop_perm store k _ _ _).trans (set_last_dropLast_perm l i h)

/-- `Pop` on a nonempty heap returns the root and removes it, up to
permutation. -/
theorem Pop_perm (store : List LRUKNode) (k : Nat) (l : List Int)
    (h : 0 < l.length) :
    ∃ l', Pop store k l = some (getN l 0, l') ∧
      List.Perm l' (l.eraseIdx 0) := by
  refine ⟨_, by rw [Pop, if_neg (by omega)], ?_⟩
  exact (downLoop_perm store k _ _ _).trans (set_last_dropLast_perm l 0 h)

end LRUHeap

/-! ### Node-store lemmas -/

/-- A successful `findNode` returns a stored node with the right id. -/
theorem findNode_eq_some {st : List LRUKNode} {x : Int} {n : LRUKNode}
    (h : findNode st x = some n) : n ∈ st ∧ n.fid = x := by
  have hm := List.mem_of_find?_eq_some h
  have hp := List.find?_some h
  exact ⟨hm, by simpa using hp⟩

/-- `findNode` succeeds exactly on stored ids. -/
theorem findNode_isSome_iff {st : List LRUKNode} {x : Int} :
    (findNode st x).isSome = true ↔ ∃ n ∈ st, n.fid = x := by
  constructor
  · intro h
    rcases Option.isSome_iff_exists.mp h with ⟨n, hn⟩
    rcases findNode_eq_some hn with ⟨h1, h2⟩
    exact ⟨n, h1, h2⟩
  · intro ⟨n, hn, hfid⟩
    exact List.find?_isSome.mpr ⟨n, hn, by simpa using hfid⟩

/-- With unique ids, a stored node is what `findNode` returns for its id. -/
theorem findNode_of_mem_nodup {st : List LRUKNode} {n : LRUKNode}
    (hnd : (st.map LRUKNode.fid).Nodup) (hn : n ∈ st) :
    findNode st n.fid = some n := by
  induction st with
  | nil => cases hn
  | cons m t ih =>
    simp only [List.map_cons, List.nodup_cons] at hnd
    rcases List.mem_cons.mp hn with rfl | hnt
    · simp [findNode]
    · have hneq : m.fid ≠ n.fid := by
        intro he
        exact hnd.1 (he ▸ List.mem_map_of_mem LRUKNode.fid hnt)
      simp only [findNode]
      rw [List.find?_cons_of_neg _ (by simpa using hneq)]
      exact ih hnd.2 hnt

/-- `updateNode` leaves other ids untouched. -/
theorem findNode_updateNode_ne (st : List LRUKNode) (f : Int)
    (g : LRUKNode → LRUKNode) (hg : ∀ n, (g n).fid = n.fid) (x : Int)
    (hx : x ≠ f) : findNode (updateNode st f g) x = findNode st x := by
  induction st with
  | nil => rfl
  | cons n t ih =>
    simp only [updateNode, List.map_cons] at ih ⊢
    by_cases hnf : n.fid = f
    · rw [if_pos hnf]
      simp only [findNode]
      rw [List.find?_cons_of_neg _ (by simp [hg n, hnf]; omega),
        List.find?_cons_of_neg _ (by simp [hnf]; omega)]
      exact ih
    · rw [if_neg hnf]
      simp only [findNode]
      by_cases hnx : n.fid = x
      · rw [List.find?_cons_of_pos _ (by simpa using hnx),
          List.find?_cons_of_pos _ (by simpa using hnx)]
      · rw [List.find?_cons_of_neg _ (by simpa using hnx),
          List.find?_cons_of_neg _ (by simpa using hnx)]
        exact ih

/-- `updateNode` rewrites the found node at the target id. -/
theorem findNode_updateNode_self (st : List LRUKNode) (f : Int)
    (g : LRUKNode → LRUKNode) (hg : ∀ n, (g n).fid = n.fid) :
    findNode (updateNode st f g) f = (findNode st f).map g := by
  induction st with
  | nil => rfl
  | cons n t ih =>
    simp only [updateNode, List.map_cons] at ih ⊢
    by_cases hnf : n.fid = f
    · rw [if_pos hnf]
      simp only [findNode]
      rw [List.find?_cons_of_pos _ (by simp [hg n, hnf]),
        List.find?_cons_of_pos _ (by simpa using hnf)]
      rfl
    · rw [if_neg hnf]
      simp only [findNode]
      rw [List.find?_cons_of_neg _ (by simpa using hnf),
        List.find?_cons_of_neg _ (by simpa using hnf)]
      exact ih

/-- Erasing an id makes it unfindable. -/
theorem findNode_eraseNode_self (st : List LRUKNode) (f : Int) :
    findNode (eraseNode st f) f = none := by
  apply List.find?_eq_none.mpr
  intro n hn
  have := (List.mem_filter.mp hn).2
  simp only [decide_eq_true_eq] at this ⊢
  simpa using this

/-- Erasing an id leaves other ids untouched. -/
theorem findNode_eraseNode_ne (st : List LRUKNode) (f x : Int) (hx : x ≠ f) :
    findNode (eraseNode st f) x = findNode st x := by
  induction st with
  | nil => rfl
  | cons n t ih =>
    simp only [eraseNode, List.filter_cons] at ih ⊢
    by_cases hnf : n.fid = f
    · rw [if_neg (by simpa using hnf)]
      simp only [findNode]
      rw [List.find?_cons_of_neg _ (by simp; omega)]
      exact ih
    · rw [if_pos (by simpa using hnf)]
      simp only [findNode]
      by_cases hnx : n.fid = x
      · rw [List.find?_cons_of_pos _ (by simpa using hnx),
          List.find?_cons_of_pos _ (by simpa using hnx)]
      · rw [List.find?_cons_of_neg _ (by simpa using hnx),
          List.find?_cons_of_neg _ (by simpa using hnx)]
        exact ih

/-- `updateNode` preserves the id sequence. -/
theorem updateNode_map_fid (st : List LRUKNode) (f : Int)
    (g : LRUKNode → LRUKNode) (hg : ∀ n, (g n).fid = n.fid) :
    (updateNode st f g).map LRUKNode.fid = st.map LRUKNode.fid := by
  simp only [updateNode, List.map_map]
  apply List.map_congr_left
  intro n _
  by_cases hnf : n.fid = f
  · simp [hnf, hg n]
  · simp [hnf]

/-- Membership in `updateNode`. -/
theorem mem_updateNode {st : List LRUKNode} {f : Int} {g : LRUKNode → LRUKNode}
    {n' : LRUKNode} (h : n' ∈ updateNode st f g) :
    ∃ n ∈ st, n' = if n.fid = f then g n else n := by
  rcases List.mem_map.mp h with ⟨n, hn, he⟩
  exact ⟨n, hn, he.symm⟩

/-- Membership in `eraseNode`. -/
theorem mem_eraseNode {st : List LRUKNode} {f : Int} {n : LRUKNode} :
    n ∈ eraseNode st f ↔ n ∈ st ∧ n.fid ≠ f := by
  constructor
  · intro h
    have := List.mem_filter.mp h
    exact ⟨this.1, by simpa using this.2⟩
  · intro ⟨h1, h2⟩
    exact List.mem_filter.mpr ⟨h1, by simpa using h2⟩

/-- `eraseNode` keeps the id sequence unique. -/
theorem eraseNode_nodup {st : List LRUKNode} {f : Int}
    (h : (st.map LRUKNode.fid).Nodup) :
    ((eraseNode st f).map LRUKNode.fid).Nodup :=
  h.sublist (List.Sublist.map LRUKNode.fid (List.filter_sublist st))

/-- `updateNode` at an id that is not stored is the identity. -/
theorem updateNode_not_mem (st : List LRUKNode) (f : Int)
    (g : LRUKNode → LRUKNode) (h : ∀ n ∈ st, n.fid ≠ f) :
    updateNode st f g = st := by
  induction st with
  | nil => rfl
  | cons n t ih =>
    simp only [updateNode, List.map_cons] at ih ⊢
    rw [if_neg (h n (List.mem_cons_self n t)),
      ih (fun m hm => h m (List.mem_cons_of_mem n hm))]

/-- `updateNode` through an appended node carrying the target id. -/
theorem updateNode_append_fresh (st : List LRUKNode) (f : Int)
    (g : LRUKNode → LRUKNode) (n0 : LRUKNode) (h : ∀ n ∈ st, n.fid ≠ f)
    (h0 : n0.fid = f) : updateNode (st ++ [n0]) f g = st ++ [g n0] := by
  simp only [updateNode, List.map_append]
  have h1 : updateNode st f g = st := updateNode_not_mem st f g h
  simp only [updateNode] at h1
  rw [h1, List.map_singleton, if_pos h0]

/-- `findNode` looks through an appended node when the id is already
stored. -/
theorem findNode_append_of_isSome {st : List LRUKNode} {x : Int}
    (n0 : LRUKNode) (h : (findNode st x).isSome) :
    findNode (st ++ [n0]) x = findNode st x := by
  rcases Option.isSome_iff_exists.mp h with ⟨n, hn⟩
  simp only [findNode] at hn ⊢
  rw [List.find?_append, hn]
  rfl

/-- `findNode` of a fresh id finds the appended node. -/
theorem findNode_append_of_none {st : List LRUKNode} {x : Int}
    (n0 : LRUKNode) (h : findNode st x = none) (hfid : n0.fid = x) :
    findNode (st ++ [n0]) x = some n0 := by
  simp only [findNode] at h ⊢
  rw [List.find?_append, h]
  simp [hfid]

/-! ### Replacer-operation characterizations under `RWF` -/

/-- `getNode` after a successful `findNode`. -/
theorem getNode_eq_of_findNode {st : List LRUKNode} {x : Int} {n : LRUKNode}
    (h : findNode st x = some n) : getNode st x = n := by
  simp [getNode, h]

/-- An evictable tracked frame sits in exactly the heap matching its history
length. -/
theorem evictable_mem_heap {pool : Nat} {r : LRUKReplacer} {fid : Int}
    {n : LRUKNode} (hw : RWF pool r) (hf : findNode r.node_store fid = some n)
    (he : n.is_evictable = true) :
    (n.history.length < r.k →
      fid ∈ r.less_than_k_heap ∧ fid ∉ r.equal_to_k_heap) ∧
    (¬ n.history.length < r.k →
      fid ∈ r.equal_to_k_heap ∧ fid ∉ r.less_than_k_heap) := by
  obtain ⟨-, -, -, hW4, -, hW6, hW7, -⟩ := hw
  rcases findNode_eq_some hf with ⟨hmem, hfid⟩
  have hcount := hW4 n hmem
  rw [he, if_pos rfl, hfid] at hcount
  have hgn : getNode r.node_store fid = n := getNode_eq_of_findNode hf
  constructor
  · intro hlt
    have hnotq : fid ∉ r.equal_to_k_heap := by
      intro hq
      exact hW7 fid hq (by rw [hgn]; exact hlt)
    have hcq : r.equal_to_k_heap.count fid = 0 := List.count_eq_zero.mpr hnotq
    rw [List.count_append, hcq] at hcount
    have : 0 < r.less_than_k_heap.count fid := by omega
    exact ⟨List.count_pos_iff.mp this, hnotq⟩
  · intro hge
    have hnotl : fid ∉ r.less_than_k_heap := by
      intro hq
      exact hge (by rw [← hgn]; exact hW6 fid hq)
    have hcl : r.less_than_k_heap.count fid = 0 := List.count_eq_zero.mpr hnotl
    rw [List.count_append, hcl] at hcount
    have : 0 < r.equal_to_k_heap.count fid := by omega
    exact ⟨List.count_pos_iff.mp this, hnotl⟩

/-- `SetEvictable` under `RWF`, on a tracked in-range frame: it succeeds,
preserves well-formedness and the tracked set, flips exactly the target's
evictable flag, and adjusts `curr_size` the way the source does. -/
theorem SetEvictable_spec {pool : Nat} {r : LRUKReplacer} (fid : Int)
    (flag : Bool) (hw : RWF pool r) (ht : tracked r fid = true)
    (h0 : 0 ≤ fid) (h1 : fid < (pool : Int)) :
    ∃ r', r.SetEvictable fid flag = some r' ∧ RWF pool r' ∧
      (∀ x, tracked r' x = tracked r x) ∧
      (∀ x, trackedEvictable r' x =
        (if x = fid then flag else trackedEvictable r x)) ∧
      r'.curr_size = (if trackedEvictable r fid = flag then r.curr_size
        else if flag then r.curr_size + 1 else r.curr_size - 1) ∧
      r'.replacer_size = r.replacer_size ∧ r'.k = r.k ∧
      (∀ x, (getNode r'.node_store x).history = (getNode r.node_store x).history) := by
  obtain ⟨hW1, hW2, hW3, hW4, hW5, hW6, hW7, hW8⟩ := hw
  rcases Option.isSome_iff_exists.mp ht with ⟨node, hf⟩
  have hrange : 0 ≤ fid ∧ fid < (r.replacer_size : Int) := by
    rw [hW1]; exact ⟨h0, h1⟩
  have hTE : trackedEvictable r fid = node.is_evictable := by
    simp [trackedEvictable, hf]
  rcases findNode_eq_some hf with ⟨hmem, hfid⟩
  by_cases hsame : node.is_evictable = flag
  · -- no-op branch
    refine ⟨r, ?_, ⟨hW1, hW2, hW3, hW4, hW5, hW6, hW7, hW8⟩,
      fun x => rfl, ?_, ?_, rfl, rfl, fun x => rfl⟩
    · simp only [LRUKReplacer.SetEvictable, if_pos hrange, hf, if_pos hsame]
    · intro x
      by_cases hx : x = fid
      · subst hx
        rw [if_pos rfl, hTE, hsame]
      · rw [if_neg hx]
    · rw [hTE, if_pos hsame]
  · -- the flag really flips
    have hg : ∀ n : LRUKNode,
        ((fun n : LRUKNode => { n with is_evictable := flag }) n).fid = n.fid :=
      fun _ => rfl
    have hfidup : findNode (updateNode r.node_store fid
        (fun n => { n with is_evictable := flag })) fid =
        some { node with is_evictable := flag } := by
      rw [findNode_updateNode_self _ _ _ hg, hf]
      rfl
    have hstore_hist : ∀ x, (getNode (updateNode r.node_store fid
        (fun n => { n with is_evictable := flag })) x).history =
        (getNode r.node_store x).history := by
      intro x
      by_cases hx : x = fid
      · subst hx
        rw [getNode_eq_of_findNode hfidup, getNode_eq_of_findNode hf]
      · simp [getNode, findNode_updateNode_ne _ _ _ hg _ hx]
    have htracked' : ∀ x, tracked { r with
        node_store := updateNode r.node_store fid
          (fun n => { n with is_evictable := flag }) } x = tracked r x := by
      intro x
      by_cases hx : x = fid
      · subst hx
        simp [tracked, hfidup, hf]
      · simp [tracked, findNode_updateNode_ne _ _ _ hg _ hx]
    have hTE' : ∀ x, (match findNode (updateNode r.node_store fid
        (fun n => { n with is_evictable := flag })) x with
        | some n => n.is_evictable
        | none => false) = (if x = fid then flag else trackedEvictable r x) := by
      intro x
      by_cases hx : x = fid
      · subst hx
        rw [hfidup, if_pos rfl]
      · rw [findNode_updateNode_ne _ _ _ hg _ hx, if_neg hx]
        rfl
    have hmap' : (updateNode r.node_store fid
        (fun n => { n with is_evictable := flag })).map LRUKNode.fid =
        r.node_store.map LRUKNode.fid := updateNode_map_fid _ _ _ hg
    have hW2' : ∀ n' ∈ updateNode r.node_store fid
        (fun n => { n with is_evictable := flag }),
        0 ≤ n'.fid ∧ n'.fid < (pool : Int) := by
      intro n' hn'
      rcases mem_updateNode hn' with ⟨n, hn, he⟩
      rcases hW2 n hn with ⟨ha, hb⟩
      by_cases hnf : n.fid = fid
      · rw [he, if_pos hnf]
        exact ⟨ha, hb⟩
      · rw [he, if_neg hnf]
        exact ⟨ha, hb⟩
    cases flag with
    | true =>
      -- push into the heap matching the node's history length
      have hTEfid : trackedEvictable r fid = false := by
        rw [hTE]
        simpa using hsame
      have hnotin : fid ∉ r.less_than_k_heap ++ r.equal_to_k_heap := by
        intro hin
        have := hW4 node hmem
        rw [hfid] at this
        have hpos := List.count_pos_iff.mpr hin
        rw [this] at hpos
        simp [show node.is_evictable = false by simpa using hsame] at hpos
      by_cases hlen : node.history.length < r.k
      · refine ⟨{ r with
            node_store := updateNode r.node_store fid
              (fun n : LRUKNode => { n with is_evictable := true }),
            curr_size := r.curr_size + 1,
            less_than_k_heap :=
              LRUHeap.Push r.node_store r.k r.less_than_k_heap fid },
            ?_, ?_, ?_, ?_, ?_, ?_, ?_, ?_⟩
        · simp [LRUKReplacer.SetEvictable, hrange, hf, hsame, hlen]
        · -- RWF of the pushed state
          refine ⟨hW1, hW2', by rw [hmap']; exact hW3, ?_, ?_, ?_, ?_, ?_⟩
          · intro n' hn'
            simp only
            rcases mem_updateNode hn' with ⟨n, hn, he⟩
            have hperm := LRUHeap.Push_perm r.node_store r.k r.less_than_k_heap fid
            have hcnt : ∀ y : Int,
                (LRUHeap.Push r.node_store r.k r.less_than_k_heap fid ++
                  r.equal_to_k_heap).count y =
                (r.less_than_k_heap ++ r.equal_to_k_heap).count y +
                  (if fid = y then 1 else 0) := by
              intro y
              rw [List.count_append, hperm.count_eq, List.count_append,
                List.count_append]
              simp [List.count_singleton]
              omega
            by_cases hnf : n.fid = fid
            · have hnn : n = node := by
                have h2 := findNode_of_mem_nodup hW3 hn
                rw [hnf, hf] at h2
                injection h2 with h3
                exact h3.symm
              rw [he, if_pos hnf]
              have hold := hW4 n hn
              have hev0 : n.is_evictable = false := by
                rw [hnn]; simpa using hsame
              rw [hev0] at hold
              simp only [Bool.false_eq_true, if_false] at hold
              simp only [hcnt]
              simp [hnf]
              rw [hnf, List.count_append] at hold
              omega
            · rw [he, if_neg hnf]
              rw [hcnt]
              rw [if_neg (by omega)]
              simp only [add_zero]
              exact hW4 n hn
          · intro x hx
            have hperm := LRUHeap.Push_perm r.node_store r.k r.less_than_k_heap fid
            rw [List.mem_append] at hx
            rcases hx with hx | hx
            · have := hperm.mem_iff.mp hx
              rw [List.mem_append] at this
              rcases this with h | h
              · rcases hW5 x (List.mem_append.mpr (Or.inl h)) with ⟨n, hn, hne⟩
                refine ⟨if n.fid = fid then { n with is_evictable := true } else n,
                  List.mem_map.mpr ⟨n, hn, rfl⟩, ?_⟩
                by_cases hnf : n.fid = fid
                · rw [if_pos hnf]; exact hne
                · rw [if_neg hnf]; exact hne
              · have hx' : x = fid := by simpa using h
                subst hx'
                exact ⟨{ node with is_evictable := true },
                  List.mem_map.mpr ⟨node, hmem, by simp [hfid]⟩, hfid⟩
            · rcases hW5 x (List.mem_append.mpr (Or.inr hx)) with ⟨n, hn, hne⟩
              refine ⟨if n.fid = fid then { n with is_evictable := true } else n,
                List.mem_map.mpr ⟨n, hn, rfl⟩, ?_⟩
              by_cases hnf : n.fid = fid
              · rw [if_pos hnf]; exact hne
              · rw [if_neg hnf]; exact hne
          · intro x hx
            have hperm := LRUHeap.Push_perm r.node_store r.k r.less_than_k_heap fid
            rw [hstore_hist x]
            have := hperm.mem_iff.mp hx
            rw [List.mem_append] at this
            rcases this with h | h
            · exact hW6 x h
            · have hx' : x = fid := by simpa using h
              subst hx'
              rw [getNode_eq_of_findNode hf]
              exact hlen
          · intro x hx
            rw [hstore_hist x]
            exact hW7 x hx
          · have := (LRUHeap.Push_perm r.node_store r.k
              r.less_than_k_heap fid).length_eq
            simp only [List.length_append, List.length_singleton] at this
            simp only [this]
            omega
        · exact htracked'
        · exact hTE'
        · rw [hTEfid]
          simp
        · rfl
        · rfl
        · exact hstore_hist
      · refine ⟨{ r with
            node_store := updateNode r.node_store fid
              (fun n : LRUKNode => { n with is_evictable := true }),
            curr_size := r.curr_size + 1,
            equal_to_k_heap :=
              LRUHeap.Push r.node_store r.k r.equal_to_k_heap fid },
            ?_, ?_, ?_, ?_, ?_, ?_, ?_, ?_⟩
        · simp [LRUKReplacer.SetEvictable, hrange, hf, hsame, hlen]
        · refine ⟨hW1, hW2', by rw [hmap']; exact hW3, ?_, ?_, ?_, ?_, ?_⟩
          · intro n' hn'
            simp only
            rcases mem_updateNode hn' with ⟨n, hn, he⟩
            have hperm := LRUHeap.Push_perm r.node_store r.k r.equal_to_k_heap fid
            have hcnt : ∀ y : Int,
                (r.less_than_k_heap ++
                  LRUHeap.Push r.node_store r.k r.equal_to_k_heap fid).count y =
                (r.less_than_k_heap ++ r.equal_to_k_heap).count y +
                  (if fid = y then 1 else 0) := by
              intro y
              rw [List.count_append, hperm.count_eq, List.count_append,
                List.count_append]
              simp [List.count_singleton]
              omega
            by_cases hnf : n.fid = fid
            · have hnn : n = node := by
                have h2 := findNode_of_mem_nodup hW3 hn
                rw [hnf, hf] at h2
                injection h2 with h3
                exact h3.symm
              rw [he, if_pos hnf]
              have hold := hW4 n hn
              have hev0 : n.is_evictable = false := by
                rw [hnn]; simpa using hsame
              rw [hev0] at hold
              simp only [Bool.false_eq_true, if_false] at hold
              simp only [hcnt]
              simp [hnf]
              rw [hnf, List.count_append] at hold
              omega
            · rw [he, if_neg hnf]
              rw [hcnt]
              rw [if_neg (by omega)]
              simp only [add_zero]
              exact hW4 n hn
          · intro x hx
            have hperm := LRUHeap.Push_perm r.node_store r.k r.equal_to_k_heap fid
            rw [List.mem_append] at hx
            rcases hx with hx | hx
            · rcases hW5 x (List.mem_append.mpr (Or.inl hx)) with ⟨n, hn, hne⟩
              refine ⟨if n.fid = fid then { n with is_evictable := true } else n,
                List.mem_map.mpr ⟨n, hn, rfl⟩, ?_⟩
              by_cases hnf : n.fid = fid
              · rw [if_pos hnf]; exact hne
              · rw [if_neg hnf]; exact hne
            · have := hperm.mem_iff.mp hx
              rw [List.mem_append] at this
              rcases this with h | h
              · rcases hW5 x (List.mem_append.mpr (Or.inr h)) with ⟨n, hn, hne⟩
                refine ⟨if n.fid = fid then { n with is_evictable := true } else n,
                  List.mem_map.mpr ⟨n, hn, rfl⟩, ?_⟩
                by_cases hnf : n.fid = fid
                · rw [if_pos hnf]; exact hne
                · rw [if_neg hnf]; exact hne
              · have hx' : x = fid := by simpa using h
                subst hx'
                exact ⟨{ node with is_evictable := true },
                  List.mem_map.mpr ⟨node, hmem, by simp [hfid]⟩, hfid⟩
          · intro x hx
            rw [hstore_hist x]
            exact hW6 x hx
          · intro x hx
            have hperm := LRUHeap.Push_perm r.node_store r.k r.equal_to_k_heap fid
            rw [hstore_hist x]
            have := hperm.mem_iff.mp hx
            rw [List.mem_append] at this
            rcases this with h | h
            · exact hW7 x h
            · have hx' : x = fid := by simpa using h
              subst hx'
              rw [getNode_eq_of_findNode hf]
              exact hlen
          · have := (LRUHeap.Push_perm r.node_store r.k
              r.equal_to_k_heap fid).length_eq
            simp only [List.length_append, List.length_singleton] at this
            simp only [this]
            omega
        · exact htracked'
        · exact hTE'
        · rw [hTEfid]
          simp
        · rfl
        · rfl
        · exact hstore_hist
    | false =>
      -- remove from the heap matching the node's history length
      have hev : node.is_evictable = true := by simpa using hsame
      have hTEfid : trackedEvictable r fid = true := by rw [hTE, hev]
      have hmemheap := @evictable_mem_heap pool r fid node
        ⟨hW1, hW2, hW3, hW4, hW5, hW6, hW7, hW8⟩ hf hev
      by_cases hlen : node.history.length < r.k
      · obtain ⟨hinl, hninq⟩ := hmemheap.1 hlen
        have hidx : heapIndexOf r.less_than_k_heap fid < r.less_than_k_heap.length :=
          List.indexOf_lt_length.mpr hinl
        rcases LRUHeap.Remove_perm r.node_store r.k r.less_than_k_heap
          (heapIndexOf r.less_than_k_heap fid) hidx with ⟨l', hrm, hperm⟩
        have hperm' : List.Perm l' (r.less_than_k_heap.erase fid) := by
          rw [← List.eraseIdx_indexOf_eq_erase]
          exact hperm
        have hcnt : ∀ y : Int, (l' ++ r.equal_to_k_heap).count y +
            (if fid = y then 1 else 0) =
            (r.less_than_k_heap ++ r.equal_to_k_heap).count y := by
          intro y
          rw [List.count_append, List.count_append, hperm'.count_eq]
          by_cases hy : y = fid
          · subst hy
            rw [if_pos rfl, List.count_erase_self]
            have := List.count_pos_iff.mpr hinl
            omega
          · rw [if_neg (by omega), List.count_erase_of_ne (by omega)]
            omega
        refine ⟨{ r with
            node_store := updateNode r.node_store fid
              (fun n : LRUKNode => { n with is_evictable := false }),
            curr_size := r.curr_size - 1,
            less_than_k_heap := l' }, ?_, ?_, ?_, ?_, ?_, ?_, ?_, ?_⟩
        · simp [LRUKReplacer.SetEvictable, hrange, hf, hsame, hlen, hrm]
        · refine ⟨hW1, hW2', by rw [hmap']; exact hW3, ?_, ?_, ?_, ?_, ?_⟩
          · intro n' hn'
            simp only
            rcases mem_updateNode hn' with ⟨n, hn, he⟩
            by_cases hnf : n.fid = fid
            · have hnn : n = node := by
                have h2 := findNode_of_mem_nodup hW3 hn
                rw [hnf, hf] at h2
                injection h2 with h3
                exact h3.symm
              rw [he, if_pos hnf]
              have hold := hW4 n hn
              have hev1 : n.is_evictable = true := by rw [hnn]; exact hev
              rw [hev1, if_pos rfl] at hold
              have hc := hcnt n.fid
              rw [if_pos hnf.symm] at hc
              have hz : ∀ m, m + 1 = 1 → m = 0 := by omega
              have hzero := hz _ (hold ▸ hc)
              simp [hzero]
            · rw [he, if_neg hnf]
              have hc := hcnt n.fid
              rw [if_neg (by omega)] at hc
              have := hW4 n hn
              omega
          · intro x hx
            rw [List.mem_append] at hx
            have hx' : x ∈ r.less_than_k_heap ++ r.equal_to_k_heap := by
              rcases hx with hx | hx
              · have := hperm'.mem_iff.mp hx
                exact List.mem_append.mpr (Or.inl (List.mem_of_mem_erase this))
              · exact List.mem_append.mpr (Or.inr hx)
            rcases hW5 x hx' with ⟨n, hn, hne⟩
            refine ⟨if n.fid = fid then { n with is_evictable := false } else n,
              List.mem_map.mpr ⟨n, hn, rfl⟩, ?_⟩
            by_cases hnf : n.fid = fid
            · rw [if_pos hnf]; exact hne
            · rw [if_neg hnf]; exact hne
          · intro x hx
            rw [hstore_hist x]
            exact hW6 x (List.mem_of_mem_erase (hperm'.mem_iff.mp hx))
          · intro x hx
            rw [hstore_hist x]
            exact hW7 x hx
          · have hlen' := hperm'.length_eq
            rw [List.length_erase_of_mem hinl] at hlen'
            have hpos : 0 < r.less_than_k_heap.length := List.length_pos.mpr
              (List.ne_nil_of_mem hinl)
            simp only [hlen']
            omega
        · exact htracked'
        · exact hTE'
        · rw [hTEfid]
          simp
        · rfl
        · rfl
        · exact hstore_hist
      · obtain ⟨hinq, hninl⟩ := hmemheap.2 hlen
        have hidx : heapIndexOf r.equal_to_k_heap fid < r.equal_to_k_heap.length :=
          List.indexOf_lt_length.mpr hinq
        rcases LRUHeap.Remove_perm r.node_store r.k r.equal_to_k_heap
          (heapIndexOf r.equal_to_k_heap fid) hidx with ⟨l', hrm, hperm⟩
        have hperm' : List.Perm l' (r.equal_to_k_heap.erase fid) := by
          rw [← List.eraseIdx_indexOf_eq_erase]
          exact hperm
        have hcnt : ∀ y : Int, (r.less_than_k_heap ++ l').count y +
            (if fid = y then 1 else 0) =
            (r.less_than_k_heap ++ r.equal_to_k_heap).count y := by
          intro y
          rw [List.count_append, List.count_append, hperm'.count_eq]
          by_cases hy : y = fid
          · subst hy
            rw [if_pos rfl, List.count_erase_self]
            have := List.count_pos_iff.mpr hinq
            omega
          · rw [if_neg (by omega), List.count_erase_of_ne (by omega)]
            omega
        refine ⟨{ r with
            node_store := updateNode r.node_store fid
              (fun n : LRUKNode => { n with is_evictable := false }),
            curr_size := r.curr_size - 1,
            equal_to_k_heap := l' }, ?_, ?_, ?_, ?_, ?_, ?_, ?_, ?_⟩
        · simp [LRUKReplacer.SetEvictable, hrange, hf, hsame, hlen, hrm]
        · refine ⟨hW1, hW2', by rw [hmap']; exact hW3, ?_, ?_, ?_, ?_, ?_⟩
          · intro n' hn'
            simp only
            rcases mem_updateNode hn' with ⟨n, hn, he⟩
            by_cases hnf : n.fid = fid
            · have hnn : n = node := by
                have h2 := findNode_of_mem_nodup hW3 hn
                rw [hnf, hf] at h2
                injection h2 with h3
                exact h3.symm
              rw [he, if_pos hnf]
              have hold := hW4 n hn
              have hev1 : n.is_evictable = true := by rw [hnn]; exact hev
              rw [hev1, if_pos rfl] at hold
              have hc := hcnt n.fid
              rw [if_pos hnf.symm] at hc
              have hz : ∀ m, m + 1 = 1 → m = 0 := by omega
              have hzero := hz _ (hold ▸ hc)
              simp [hzero]
            · rw [he, if_neg hnf]
              have hc := hcnt n.fid
              rw [if_neg (by omega)] at hc
              have := hW4 n hn
              omega
          · intro x hx
            rw [List.mem_append] at hx
            have hx' : x ∈ r.less_than_k_heap ++ r.equal_to_k_heap := by
              rcases hx with hx | hx
              · exact List.mem_append.mpr (Or.inl hx)
              · have := hperm'.mem_iff.mp hx
                exact List.mem_append.mpr (Or.inr (List.mem_of_mem_erase this))
            rcases hW5 x hx' with ⟨n, hn, hne⟩
            refine ⟨if n.fid = fid then { n with is_evictable := false } else n,
              List.mem_map.mpr ⟨n, hn, rfl⟩, ?_⟩
            by_cases hnf : n.fid = fid
            · rw [if_pos hnf]; exact hne
            · rw [if_neg hnf]; exact hne
          · intro x hx
            rw [hstore_hist x]
            exact hW6 x hx
          · intro x hx
            rw [hstore_hist x]
            exact hW7 x (List.mem_of_mem_erase (hperm'.mem_iff.mp hx))
          · have hlen' := hperm'.length_eq
            rw [List.length_erase_of_mem hinq] at hlen'
            have hpos : 0 < r.equal_to_k_heap.length := List.length_pos.mpr
              (List.ne_nil_of_mem hinq)
            simp only [hlen']
            omega
        · exact htracked'
        · exact hTE'
        · rw [hTEfid]
          simp
        · rfl
        · rfl
        · exact hstore_hist

/-- `RecordAccess` under `RWF` on an in-range frame: it succeeds, preserves
well-formedness, grows the tracked set by exactly the accessed frame,
leaves every evictable flag as it was, and touches neither `curr_size_`
nor the pool size. -/
theorem RecordAccess_spec {pool : Nat} {r : LRUKReplacer} (fid : Int)
    (hw : RWF pool r) (h0 : 0 ≤ fid) (h1 : fid < (pool : Int)) :
    ∃ r', r.RecordAccess fid = some r' ∧ RWF pool r' ∧
      (∀ x, tracked r' x = (tracked r x || decide (x = fid))) ∧
      (∀ x, trackedEvictable r' x = trackedEvictable r x) ∧
      r'.curr_size = r.curr_size ∧ r'.replacer_size = r.replacer_size ∧
      r'.k = r.k := by
  obtain ⟨hW1, hW2, hW3, hW4, hW5, hW6, hW7, hW8⟩ := hw
  have hrange : 0 ≤ fid ∧ fid < (r.replacer_size : Int) := by
    rw [hW1]; exact ⟨h0, h1⟩
  by_cases htr : (findNode r.node_store fid).isSome = true
  · -- already tracked
    rcases Option.isSome_iff_exists.mp htr with ⟨node, hf⟩
    rcases findNode_eq_some hf with ⟨hmem, hfid⟩
    have hgn : getNode r.node_store fid = node := getNode_eq_of_findNode hf
    have hg : ∀ h2 : List Nat, ∀ n : LRUKNode,
        ((fun n : LRUKNode => { n with history := h2 }) n).fid = n.fid :=
      fun _ _ => rfl
    have hfindup : ∀ h2 : List Nat, ∀ x, x ≠ fid →
        findNode (updateNode r.node_store fid
          (fun n : LRUKNode => { n with history := h2 })) x =
        findNode r.node_store x :=
      fun h2 x hx => findNode_updateNode_ne _ _ _ (hg h2) x hx
    have hfindfid : ∀ h2 : List Nat,
        findNode (updateNode r.node_store fid
          (fun n : LRUKNode => { n with history := h2 })) fid =
        some { node with history := h2 } := by
      intro h2
      rw [findNode_updateNode_self _ _ _ (hg h2), hf]
      rfl
    have hmap : ∀ h2 : List Nat,
        (updateNode r.node_store fid
          (fun n : LRUKNode => { n with history := h2 })).map LRUKNode.fid =
        r.node_store.map LRUKNode.fid := fun h2 => updateNode_map_fid _ _ _ (hg h2)
    have hW2u : ∀ h2 : List Nat, ∀ n' ∈ updateNode r.node_store fid
        (fun n : LRUKNode => { n with history := h2 }),
        0 ≤ n'.fid ∧ n'.fid < (pool : Int) := by
      intro h2 n' hn'
      rcases mem_updateNode hn' with ⟨n, hn, he⟩
      rcases hW2 n hn with ⟨ha, hb⟩
      by_cases hnf : n.fid = fid
      · rw [he, if_pos hnf]; exact ⟨ha, hb⟩
      · rw [he, if_neg hnf]; exact ⟨ha, hb⟩
    have htrk : ∀ h2 : List Nat, ∀ x, tracked { r with
        node_store := updateNode r.node_store fid
          (fun n : LRUKNode => { n with history := h2 }),
        current_timestamp := r.current_timestamp + 1 } x =
        (tracked r x || decide (x = fid)) := by
      intro h2 x
      by_cases hx : x = fid
      · subst hx
        simp [tracked, hfindfid h2, htr]
      · simp [tracked, hfindup h2 x hx, hx]
    have hTEu : ∀ h2 : List Nat, ∀ x,
        (match findNode (updateNode r.node_store fid
          (fun n : LRUKNode => { n with history := h2 })) x with
          | some n => n.is_evictable
          | none => false) = trackedEvictable r x := by
      intro h2 x
      by_cases hx : x = fid
      · subst hx
        rw [hfindfid h2]
        simp [trackedEvictable, hf]
      · rw [hfindup h2 x hx]
        rfl
    have hghist : ∀ h2 : List Nat, ∀ x, x ≠ fid →
        (getNode (updateNode r.node_store fid
          (fun n : LRUKNode => { n with history := h2 })) x).history =
        (getNode r.node_store x).history := by
      intro h2 x hx
      simp [getNode, hfindup h2 x hx]
    have hW4u : ∀ h2 : List Nat, ∀ hp1 hp2 : List Int,
        (∀ y : Int, (hp1 ++ hp2).count y =
          (r.less_than_k_heap ++ r.equal_to_k_heap).count y) →
        ∀ n' ∈ updateNode r.node_store fid
          (fun n : LRUKNode => { n with history := h2 }),
        (hp1 ++ hp2).count n'.fid = (if n'.is_evictable then 1 else 0) := by
      intro h2 hp1 hp2 hcnt n' hn'
      rcases mem_updateNode hn' with ⟨n, hn, he⟩
      by_cases hnf : n.fid = fid
      · rw [he, if_pos hnf]
        have := hW4 n hn
        simp only
        rw [hcnt, hnf]
        rw [hnf] at this
        exact this
      · rw [he, if_neg hnf]
        rw [hcnt]
        exact hW4 n hn
    have hW5u : ∀ h2 : List Nat, ∀ hp1 hp2 : List Int,
        (∀ x ∈ hp1 ++ hp2, x ∈ r.less_than_k_heap ++ r.equal_to_k_heap ∨ x = fid) →
        ∀ x ∈ hp1 ++ hp2, ∃ n' ∈ updateNode r.node_store fid
          (fun n : LRUKNode => { n with history := h2 }), n'.fid = x := by
      intro h2 hp1 hp2 hsub x hx
      have hxm : ∃ n ∈ r.node_store, n.fid = x := by
        rcases hsub x hx with h | h
        · exact hW5 x h
        · exact ⟨node, hmem, by rw [hfid, h]⟩
      rcases hxm with ⟨n, hn, hne⟩
      refine ⟨if n.fid = fid then { n with history := h2 } else n,
        List.mem_map.mpr ⟨n, hn, rfl⟩, ?_⟩
      by_cases hnf : n.fid = fid
      · rw [if_pos hnf]; exact hne
      · rw [if_neg hnf]; exact hne
    by_cases hev : node.is_evictable = true
    · -- evictable: the node is reseated inside the heaps
      have hmemheap := @evictable_mem_heap pool r fid node
        ⟨hW1, hW2, hW3, hW4, hW5, hW6, hW7, hW8⟩ hf hev
      by_cases hlen : node.history.length < r.k
      · -- the node was in the short-history heap
        obtain ⟨hinl, hninq⟩ := hmemheap.1 hlen
        have hidx : heapIndexOf r.less_than_k_heap fid < r.less_than_k_heap.length :=
          List.indexOf_lt_length.mpr hinl
        rcases LRUHeap.Remove_perm (updateNode r.node_store fid
            (fun n : LRUKNode => { n with history :=
              node.history ++ [r.current_timestamp] })) r.k
            r.less_than_k_heap (heapIndexOf r.less_than_k_heap fid) hidx with
          ⟨l', hrm, hperm⟩
        have hperm' : List.Perm l' (r.less_than_k_heap.erase fid) := by
          rw [← List.eraseIdx_indexOf_eq_erase]; exact hperm
        have hfidl' : fid ∉ l' := by
          intro hmem'
          have := List.count_pos_iff.mpr hmem'
          rw [hperm'.count_eq, List.count_erase_self] at this
          have hc := hW4 node hmem
          rw [hev, if_pos rfl, hfid, List.count_append] at hc
          have hq0 : r.equal_to_k_heap.count fid = 0 := List.count_eq_zero.mpr hninq
          omega
        have hcnt' : ∀ y : Int, (l' ++ [fid]).count y + r.equal_to_k_heap.count y =
            (r.less_than_k_heap ++ r.equal_to_k_heap).count y := by
          intro y
          rw [List.count_append, List.count_append, hperm'.count_eq]
          by_cases hy : y = fid
          · subst hy
            rw [List.count_erase_self]
            have := List.count_pos_iff.mpr hinl
            simp [List.count_singleton]
            omega
          · rw [List.count_erase_of_ne (by omega)]
            simp [List.count_singleton, hy]
        by_cases hnew : node.history.length + 1 < r.k
        · -- still short: removed and re-pushed into the same heap
          have hpp := LRUHeap.Push_perm (updateNode r.node_store fid
            (fun n : LRUKNode => { n with history :=
              node.history ++ [r.current_timestamp] })) r.k l' fid
          refine ⟨{ r with
              node_store := updateNode r.node_store fid
                (fun n : LRUKNode => { n with history :=
                  node.history ++ [r.current_timestamp] }),
              current_timestamp := r.current_timestamp + 1,
              less_than_k_heap := LRUHeap.Push (updateNode r.node_store fid
                (fun n : LRUKNode => { n with history :=
                  node.history ++ [r.current_timestamp] })) r.k l' fid },
            ?_, ?_, ?_, ?_, rfl, rfl, rfl⟩
          · simp [LRUKReplacer.RecordAccess, hrange, htr, hgn, hev, hlen, hrm, hnew]
          · have hcnt : ∀ y : Int,
                (LRUHeap.Push (updateNode r.node_store fid
                  (fun n : LRUKNode => { n with history :=
                    node.history ++ [r.current_timestamp] })) r.k l' fid ++
                  r.equal_to_k_heap).count y =
                (r.less_than_k_heap ++ r.equal_to_k_heap).count y := by
              intro y
              rw [List.count_append, hpp.count_eq]
              exact hcnt' y
            refine ⟨hW1, hW2u _, by rw [hmap _]; exact hW3, ?_, ?_, ?_, ?_, ?_⟩
            · exact hW4u _ _ _ hcnt
            · apply hW5u
              intro x hx
              rw [List.mem_append] at hx
              rcases hx with hx | hx
              · have := hpp.mem_iff.mp hx
                rw [List.mem_append] at this
                rcases this with h | h
                · exact Or.inl (List.mem_append.mpr (Or.inl
                    (List.mem_of_mem_erase (hperm'.mem_iff.mp h))))
                · exact Or.inr (by simpa using h)
              · exact Or.inl (List.mem_append.mpr (Or.inr hx))
            · intro x hx
              simp only at hx ⊢
              have := hpp.mem_iff.mp hx
              rw [List.mem_append] at this
              rcases this with h | h
              · have hxfid : x ≠ fid := fun he => hfidl' (he ▸ h)
                rw [hghist _ x hxfid]
                exact hW6 x (List.mem_of_mem_erase (hperm'.mem_iff.mp h))
              · have hxfid : x = fid := by simpa using h
                subst hxfid
                have hgg : getNode (updateNode r.node_store x
                    (fun n : LRUKNode => { n with history :=
                      node.history ++ [r.current_timestamp] })) x =
                    { node with history := node.history ++ [r.current_timestamp] } :=
                  getNode_eq_of_findNode (hfindfid _)
                rw [hgg]
                simpa using hnew
            · intro x hx
              simp only at hx ⊢
              have hxfid : x ≠ fid := fun he => hninq (he ▸ hx)
              rw [hghist _ x hxfid]
              exact hW7 x hx
            · have hl1 := hperm'.length_eq
              rw [List.length_erase_of_mem hinl] at hl1
              have hl2 := hpp.length_eq
              simp only [List.length_append, List.length_singleton] at hl2
              have hpos : 0 < r.less_than_k_heap.length :=
                List.length_pos.mpr (List.ne_nil_of_mem hinl)
              simp only [hl2, hl1]
              omega
          · exact htrk _
          · exact hTEu _
        · -- reached exactly `k` timestamps: moved to the full-history heap
          have hpp := LRUHeap.Push_perm (updateNode r.node_store fid
            (fun n : LRUKNode => { n with history :=
              node.history ++ [r.current_timestamp] })) r.k
            r.equal_to_k_heap fid
          refine ⟨{ r with
              node_store := updateNode r.node_store fid
                (fun n : LRUKNode => { n with history :=
                  node.history ++ [r.current_timestamp] }),
              current_timestamp := r.current_timestamp + 1,
              less_than_k_heap := l',
              equal_to_k_heap := LRUHeap.Push (updateNode r.node_store fid
                (fun n : LRUKNode => { n with history :=
                  node.history ++ [r.current_timestamp] })) r.k
                r.equal_to_k_heap fid },
            ?_, ?_, ?_, ?_, rfl, rfl, rfl⟩
          · simp [LRUKReplacer.RecordAccess, hrange, htr, hgn, hev, hlen, hrm, hnew]
          · have hcnt : ∀ y : Int,
                (l' ++ LRUHeap.Push (updateNode r.node_store fid
                  (fun n : LRUKNode => { n with history :=
                    node.history ++ [r.current_timestamp] })) r.k
                  r.equal_to_k_heap fid).count y =
                (r.less_than_k_heap ++ r.equal_to_k_heap).count y := by
              intro y
              rw [List.count_append, hpp.count_eq, List.count_append]
              have := hcnt' y
              rw [List.count_append] at this
              omega
            refine ⟨hW1, hW2u _, by rw [hmap _]; exact hW3, ?_, ?_, ?_, ?_, ?_⟩
            · exact hW4u _ _ _ hcnt
            · apply hW5u
              intro x hx
              rw [List.mem_append] at hx
              rcases hx with hx | hx
              · exact Or.inl (List.mem_append.mpr (Or.inl
                  (List.mem_of_mem_erase (hperm'.mem_iff.mp hx))))
              · have := hpp.mem_iff.mp hx
                rw [List.mem_append] at this
                rcases this with h | h
                · exact Or.inl (List.mem_append.mpr (Or.inr h))
                · exact Or.inr (by simpa using h)
            · intro x hx
              simp only at hx ⊢
              have hxfid : x ≠ fid := fun he => hfidl' (he ▸ hx)
              rw [hghist _ x hxfid]
              exact hW6 x (List.mem_of_mem_erase (hperm'.mem_iff.mp hx))
            · intro x hx
              simp only at hx ⊢
              have := hpp.mem_iff.mp hx
              rw [List.mem_append] at this
              rcases this with h | h
              · have hxfid : x ≠ fid := fun he => hninq (he ▸ h)
                rw [hghist _ x hxfid]
                exact hW7 x h
              · have hxfid : x = fid := by simpa using h
                subst hxfid
                have hgg : getNode (updateNode r.node_store x
                    (fun n : LRUKNode => { n with history :=
                      node.history ++ [r.current_timestamp] })) x =
                    { node with history := node.history ++ [r.current_timestamp] } :=
                  getNode_eq_of_findNode (hfindfid _)
                rw [hgg]
                simpa using hnew
            · have hl1 := hperm'.length_eq
              rw [List.length_erase_of_mem hinl] at hl1
              have hl2 := hpp.length_eq
              simp only [List.length_append, List.length_singleton] at hl2
              have hpos : 0 < r.less_than_k_heap.length :=
                List.length_pos.mpr (List.ne_nil_of_mem hinl)
              simp only [hl2, hl1]
              omega
          · exact htrk _
          · exact hTEu _
      · -- the node was in the full-history heap; its history stays full
        obtain ⟨hinq, hninl⟩ := hmemheap.2 hlen
        have hidx : heapIndexOf r.equal_to_k_heap fid < r.equal_to_k_heap.length :=
          List.indexOf_lt_length.mpr hinq
        rcases LRUHeap.Remove_perm (updateNode r.node_store fid
            (fun n : LRUKNode => { n with history :=
              (node.history ++ [r.current_timestamp]).tail })) r.k
            r.equal_to_k_heap (heapIndexOf r.equal_to_k_heap fid) hidx with
          ⟨l', hrm, hperm⟩
        have hperm' : List.Perm l' (r.equal_to_k_heap.erase fid) := by
          rw [← List.eraseIdx_indexOf_eq_erase]; exact hperm
        have hfidl' : fid ∉ l' := by
          intro hmem'
          have := List.count_pos_iff.mpr hmem'
          rw [hperm'.count_eq, List.count_erase_self] at this
          have hc := hW4 node hmem
          rw [hev, if_pos rfl, hfid, List.count_append] at hc
          have hq0 : r.less_than_k_heap.count fid = 0 := List.count_eq_zero.mpr hninl
          omega
        have hnew : ¬ (node.history ++ [r.current_timestamp]).tail.length < r.k := by
          have : (node.history ++ [r.current_timestamp]).tail.length =
              node.history.length := by
            cases node.history <;> simp
          rw [this]; exact hlen
        have hpp := LRUHeap.Push_perm (updateNode r.node_store fid
          (fun n : LRUKNode => { n with history :=
            (node.history ++ [r.current_timestamp]).tail })) r.k l' fid
        refine ⟨{ r with
            node_store := updateNode r.node_store fid
              (fun n : LRUKNode => { n with history :=
                (node.history ++ [r.current_timestamp]).tail }),
            current_timestamp := r.current_timestamp + 1,
            equal_to_k_heap := LRUHeap.Push (updateNode r.node_store fid
              (fun n : LRUKNode => { n with history :=
                (node.history ++ [r.current_timestamp]).tail })) r.k l' fid },
          ?_, ?_, ?_, ?_, rfl, rfl, rfl⟩
        · simp [LRUKReplacer.RecordAccess, hrange, htr, hgn, hev, hlen, hrm, hnew]
        · have hcnt : ∀ y : Int,
              (r.less_than_k_heap ++ LRUHeap.Push (updateNode r.node_store fid
                (fun n : LRUKNode => { n with history :=
                  (node.history ++ [r.current_timestamp]).tail })) r.k
                l' fid).count y =
              (r.less_than_k_heap ++ r.equal_to_k_heap).count y := by
            intro y
            rw [List.count_append, hpp.count_eq, List.count_append,
              List.count_append, hperm'.count_eq]
            by_cases hy : y = fid
            · subst hy
              rw [List.count_erase_self]
              have := List.count_pos_iff.mpr hinq
              simp [List.count_singleton]
              omega
            · rw [List.count_erase_of_ne (by omega)]
              simp [List.count_singleton, hy]
          refine ⟨hW1, hW2u _, by rw [hmap _]; exact hW3, ?_, ?_, ?_, ?_, ?_⟩
          · exact hW4u _ _ _ hcnt
          · apply hW5u
            intro x hx
            rw [List.mem_append] at hx
            rcases hx with hx | hx
            · exact Or.inl (List.mem_append.mpr (Or.inl hx))
            · have := hpp.mem_iff.mp hx
              rw [List.mem_append] at this
              rcases this with h | h
              · exact Or.inl (List.mem_append.mpr (Or.inr
                  (List.mem_of_mem_erase (hperm'.mem_iff.mp h))))
              · exact Or.inr (by simpa using h)
          · intro x hx
            simp only at hx ⊢
            have hxfid : x ≠ fid := fun he => hninl (he ▸ hx)
            rw [hghist _ x hxfid]
            exact hW6 x hx
          · intro x hx
            simp only at hx ⊢
            have := hpp.mem_iff.mp hx
            rw [List.mem_append] at this
            rcases this with h | h
            · have hxfid : x ≠ fid := fun he => hfidl' (he ▸ h)
              rw [hghist _ x hxfid]
              exact hW7 x (List.mem_of_mem_erase (hperm'.mem_iff.mp h))
            · have hxfid : x = fid := by simpa using h
              subst hxfid
              have hgg : getNode (updateNode r.node_store x
                  (fun n : LRUKNode => { n with history :=
                    (node.history ++ [r.current_timestamp]).tail })) x =
                  { node with history :=
                    (node.history ++ [r.current_timestamp]).tail } :=
                getNode_eq_of_findNode (hfindfid _)
              rw [hgg]
              simpa using hnew
          · have hl1 := hperm'.length_eq
            rw [List.length_erase_of_mem hinq] at hl1
            have hl2 := hpp.length_eq
            simp only [List.length_append, List.length_singleton] at hl2
            have hpos : 0 < r.equal_to_k_heap.length :=
              List.length_pos.mpr (List.ne_nil_of_mem hinq)
            simp only [hl2, hl1]
            omega
        · exact htrk _
        · exact hTEu _
    · -- tracked but not evictable: only the history changes
      have hnotin : fid ∉ r.less_than_k_heap ++ r.equal_to_k_heap := by
        intro hin
        have hpos := List.count_pos_iff.mpr hin
        have := hW4 node hmem
        rw [hfid] at this
        rw [this] at hpos
        simp [hev] at hpos
      have hRWFu : ∀ h2 : List Nat, RWF pool { r with
          node_store := updateNode r.node_store fid
            (fun n : LRUKNode => { n with history := h2 }),
          current_timestamp := r.current_timestamp + 1 } := by
        intro h2
        refine ⟨hW1, hW2u _, by rw [hmap _]; exact hW3, ?_, ?_, ?_, ?_, hW8⟩
        · exact hW4u _ _ _ (fun y => rfl)
        · exact hW5u _ _ _ (fun x hx => Or.inl hx)
        · intro x hx
          simp only at hx ⊢
          have hxfid : x ≠ fid := fun he =>
            hnotin (he ▸ List.mem_append.mpr (Or.inl hx))
          rw [hghist _ x hxfid]
          exact hW6 x hx
        · intro x hx
          simp only at hx ⊢
          have hxfid : x ≠ fid := fun he =>
            hnotin (he ▸ List.mem_append.mpr (Or.inr hx))
          rw [hghist _ x hxfid]
          exact hW7 x hx
      by_cases hlen : node.history.length < r.k
      · refine ⟨{ r with
            node_store := updateNode r.node_store fid
              (fun n : LRUKNode => { n with history :=
                node.history ++ [r.current_timestamp] }),
            current_timestamp := r.current_timestamp + 1 },
          ?_, hRWFu _, htrk _, hTEu _, rfl, rfl, rfl⟩
        simp [LRUKReplacer.RecordAccess, hrange, htr, hgn, hev, hlen]
      · refine ⟨{ r with
            node_store := updateNode r.node_store fid
              (fun n : LRUKNode => { n with history :=
                (node.history ++ [r.current_timestamp]).tail }),
            current_timestamp := r.current_timestamp + 1 },
          ?_, hRWFu _, htrk _, hTEu _, rfl, rfl, rfl⟩
        simp [LRUKReplacer.RecordAccess, hrange, htr, hgn, hev, hlen]
  · -- not yet tracked: a fresh non-evictable node is created
    have hnone : findNode r.node_store fid = none := by
      rcases h : findNode r.node_store fid with _ | n
      · rfl
      · rw [h] at htr; simp at htr
    have hfidnotin : ∀ n ∈ r.node_store, n.fid ≠ fid := by
      intro n hn he
      exact htr (findNode_isSome_iff.mpr ⟨n, hn, he⟩)
    have hnotinheap : ∀ x ∈ r.less_than_k_heap ++ r.equal_to_k_heap, x ≠ fid := by
      intro x hx he
      rcases hW5 x hx with ⟨n, hn, hne⟩
      exact hfidnotin n hn (by rw [hne, he])
    have hfind_app : ∀ h2 : List Nat, ∀ x, x ≠ fid →
        findNode (r.node_store ++ [⟨fid, h2, false⟩]) x =
        findNode r.node_store x := by
      intro h2 x hx
      have hone : List.find? (fun n : LRUKNode => n.fid = x)
          [⟨fid, h2, false⟩] = none := by
        rw [List.find?_cons_of_neg _ (by simp; omega)]
        rfl
      simp only [findNode, List.find?_append, hone]
      cases List.find? (fun n : LRUKNode => n.fid = x) r.node_store <;> rfl
    have happW : ∀ h2 : List Nat, RWF pool { r with
        node_store := r.node_store ++ [⟨fid, h2, false⟩],
        current_timestamp := r.current_timestamp + 1 } := by
      intro h2
      refine ⟨hW1, ?_, ?_, ?_, ?_, ?_, ?_, hW8⟩
      · intro n hn
        rcases List.mem_append.mp hn with h | h
        · exact hW2 n h
        · have hne : n = ⟨fid, h2, false⟩ := by simpa using h
          rw [hne]
          exact ⟨h0, h1⟩
      · simp only [List.map_append, List.map_singleton]
        rw [List.nodup_append]
        refine ⟨hW3, List.nodup_singleton _, ?_⟩
        intro a ha hb
        rcases List.mem_map.mp ha with ⟨n, hn, he⟩
        rw [List.mem_singleton] at hb
        exact hfidnotin n hn (by rw [he, hb])
      · intro n hn
        rcases List.mem_append.mp hn with h | h
        · exact hW4 n h
        · have hne : n = ⟨fid, h2, false⟩ := by simpa using h
          rw [hne]
          have hz : (r.less_than_k_heap ++ r.equal_to_k_heap).count fid = 0 :=
            List.count_eq_zero.mpr (fun hmem => hnotinheap fid hmem rfl)
          simpa using hz
      · intro x hx
        rcases hW5 x hx with ⟨n, hn, hne⟩
        exact ⟨n, List.mem_append.mpr (Or.inl hn), hne⟩
      · intro x hx
        simp only at hx ⊢
        have hxf : x ≠ fid := hnotinheap x (List.mem_append.mpr (Or.inl hx))
        have hgx : getNode (r.node_store ++ [⟨fid, h2, false⟩]) x =
            getNode r.node_store x := by
          simp [getNode, hfind_app h2 x hxf]
        rw [hgx]
        exact hW6 x hx
      · intro x hx
        simp only at hx ⊢
        have hxf : x ≠ fid := hnotinheap x (List.mem_append.mpr (Or.inr hx))
        have hgx : getNode (r.node_store ++ [⟨fid, h2, false⟩]) x =
            getNode r.node_store x := by
          simp [getNode, hfind_app h2 x hxf]
        rw [hgx]
        exact hW7 x hx
    have htrk2 : ∀ h2 : List Nat, ∀ x, tracked { r with
        node_store := r.node_store ++ [⟨fid, h2, false⟩],
        current_timestamp := r.current_timestamp + 1 } x =
        (tracked r x || decide (x = fid)) := by
      intro h2 x
      by_cases hx : x = fid
      · subst hx
        have hfx : findNode (r.node_store ++ [⟨x, h2, false⟩]) x =
            some ⟨x, h2, false⟩ := findNode_append_of_none _ hnone rfl
        simp [tracked, hfx]
      · simp [tracked, hfind_app h2 x hx, hx]
    have hTE2 : ∀ h2 : List Nat, ∀ x, trackedEvictable { r with
        node_store := r.node_store ++ [⟨fid, h2, false⟩],
        current_timestamp := r.current_timestamp + 1 } x =
        trackedEvictable r x := by
      intro h2 x
      by_cases hx : x = fid
      · subst hx
        have hfx : findNode (r.node_store ++ [⟨x, h2, false⟩]) x =
            some ⟨x, h2, false⟩ := findNode_append_of_none _ hnone rfl
        simp [trackedEvictable, hfx, hnone]
      · simp [trackedEvictable, hfind_app h2 x hx]
    have hgn : getNode (r.node_store ++ [⟨fid, [], false⟩]) fid =
        ⟨fid, [], false⟩ :=
      getNode_eq_of_findNode (findNode_append_of_none _ hnone rfl)
    by_cases hks : 0 < r.k
    · refine ⟨{ r with
          node_store := r.node_store ++ [⟨fid, [r.current_timestamp], false⟩],
          current_timestamp := r.current_timestamp + 1 },
        ?_, happW _, htrk2 _, hTE2 _, rfl, rfl, rfl⟩
      have hup := updateNode_append_fresh r.node_store fid
        (fun n : LRUKNode => { n with history := [r.current_timestamp] })
        ⟨fid, [], false⟩ hfidnotin rfl
      simp [LRUKReplacer.RecordAccess, hrange, htr, hgn, hks, hup]
    · refine ⟨{ r with
          node_store := r.node_store ++ [⟨fid, [], false⟩],
          current_timestamp := r.current_timestamp + 1 },
        ?_, happW _, htrk2 _, hTE2 _, rfl, rfl, rfl⟩
      have hup := updateNode_append_fresh r.node_store fid
        (fun n : LRUKNode => { n with history := ([] : List Nat) })
        ⟨fid, [], false⟩ hfidnotin rfl
      simp [LRUKReplacer.RecordAccess, hrange, htr, hgn, hks, hup]

/-- `Evict` under `RWF`: with `curr_size_ == 0` it reports no victim and
changes nothing; otherwise it succeeds (never reaching the `throw`), the
victim is a tracked evictable in-range frame that afterwards is untracked,
and `curr_size_` drops by one.  Every other frame keeps its tracked and
evictable status. -/
theorem Evict_spec {pool : Nat} {r : LRUKReplacer} (hw : RWF pool r) :
    (r.curr_size = 0 → r.Evict = some (none, r)) ∧
    (r.curr_size ≠ 0 → ∃ fid r', r.Evict = some (some fid, r') ∧
      RWF pool r' ∧ trackedEvictable r fid = true ∧
      0 ≤ fid ∧ fid < (pool : Int) ∧
      (∀ x, tracked r' x = (tracked r x && !(decide (x = fid)))) ∧
      (∀ x, trackedEvictable r' x =
        (trackedEvictable r x && !(decide (x = fid)))) ∧
      r'.curr_size = r.curr_size - 1 ∧ r'.replacer_size = r.replacer_size ∧
      r'.k = r.k) := by
  obtain ⟨hW1, hW2, hW3, hW4, hW5, hW6, hW7, hW8⟩ := hw
  constructor
  · intro h
    simp [LRUKReplacer.Evict, h]
  · intro hcs
    by_cases hL : r.less_than_k_heap.length = 0
    · -- the short-history heap is empty, so the full one is not
      have hQpos : 0 < r.equal_to_k_heap.length := by omega
      rcases LRUHeap.Pop_perm r.node_store r.k r.equal_to_k_heap hQpos with
        ⟨l', hpop, hperm⟩
      have hget : LRUHeap.getN r.equal_to_k_heap 0 =
          r.equal_to_k_heap.get ⟨0, hQpos⟩ := LRUHeap.getN_eq_get _ 0 hQpos
      have hmemfid : LRUHeap.getN r.equal_to_k_heap 0 ∈ r.equal_to_k_heap := by
        rw [hget]; exact List.get_mem _ 0 hQpos
      have hmemheap : LRUHeap.getN r.equal_to_k_heap 0 ∈
          r.less_than_k_heap ++ r.equal_to_k_heap :=
        List.mem_append.mpr (Or.inr hmemfid)
      rcases hW5 _ hmemheap with ⟨n, hn, hnfid⟩
      have hf : findNode r.node_store (LRUHeap.getN r.equal_to_k_heap 0) =
          some n := by
        have := findNode_of_mem_nodup hW3 hn
        rw [hnfid] at this
        exact this
      have hcountpos : 0 < (r.less_than_k_heap ++ r.equal_to_k_heap).count
          (LRUHeap.getN r.equal_to_k_heap 0) :=
        List.count_pos_iff.mpr hmemheap
      have hev : n.is_evictable = true := by
        cases hh : n.is_evictable
        · have h4 := hW4 n hn
          rw [hnfid, hh] at h4
          simp only [Bool.false_eq_true, if_false] at h4
          omega
        · rfl
      have hcount1 : (r.less_than_k_heap ++ r.equal_to_k_heap).count
          (LRUHeap.getN r.equal_to_k_heap 0) = 1 := by
        have h4 := hW4 n hn
        rw [hnfid, hev] at h4
        simpa using h4
      have hpermc : ∀ y : Int, r.equal_to_k_heap.count y =
          l'.count y + (if y = LRUHeap.getN r.equal_to_k_heap 0 then 1 else 0) := by
        intro y
        have hp := perm_cons_eraseIdx r.equal_to_k_heap 0 hQpos
        rw [hp.count_eq, List.count_cons, hperm.count_eq, ← hget]
        simp only [beq_iff_eq]
        by_cases hy : y = LRUHeap.getN r.equal_to_k_heap 0
        · rw [if_pos hy.symm, if_pos hy]
        · rw [if_neg (fun he => hy he.symm), if_neg hy]
      have hl0 : r.less_than_k_heap.count (LRUHeap.getN r.equal_to_k_heap 0) = 0 ∧
          l'.count (LRUHeap.getN r.equal_to_k_heap 0) = 0 := by
        have h1 := hcount1
        rw [List.count_append] at h1
        have h2 := hpermc (LRUHeap.getN r.equal_to_k_heap 0)
        rw [if_pos rfl] at h2
        omega
      have hfidl' : LRUHeap.getN r.equal_to_k_heap 0 ∉ l' :=
        List.count_eq_zero.mp hl0.2
      have hfidless : LRUHeap.getN r.equal_to_k_heap 0 ∉ r.less_than_k_heap :=
        List.count_eq_zero.mp hl0.1
      have hl'sub : ∀ x ∈ l', x ∈ r.equal_to_k_heap := by
        intro x hx
        have h1 := hperm.mem_iff.mp hx
        have hp := perm_cons_eraseIdx r.equal_to_k_heap 0 hQpos
        exact hp.mem_iff.mpr (List.mem_cons_of_mem _ h1)
      have hQnil : r.equal_to_k_heap ≠ [] :=
        List.ne_nil_of_length_pos hQpos
      have hLnil : r.less_than_k_heap = [] := List.length_eq_zero.mp hL
      rcases hW2 n hn with ⟨ha, hb⟩
      rw [hnfid] at ha hb
      refine ⟨LRUHeap.getN r.equal_to_k_heap 0,
        { r with equal_to_k_heap := l',
                 node_store := eraseNode r.node_store
                   (LRUHeap.getN r.equal_to_k_heap 0),
                 curr_size := r.curr_size - 1 },
        ?_, ?_, by simp [trackedEvictable, hf, hev], ha, hb, ?_, ?_, rfl, rfl, rfl⟩
      · simp [LRUKReplacer.Evict, hcs, hLnil, hQnil, hpop]
      · refine ⟨hW1, ?_, eraseNode_nodup hW3, ?_, ?_, ?_, ?_, ?_⟩
        · intro n' hn'
          exact hW2 n' (mem_eraseNode.mp hn').1
        · intro n' hn'
          simp only
          rcases mem_eraseNode.mp hn' with ⟨hn'mem, hn'ne⟩
          have h4 := hW4 n' hn'mem
          have hc := hpermc n'.fid
          rw [if_neg hn'ne, add_zero] at hc
          rw [List.count_append] at h4
          rw [List.count_append, ← hc]
          exact h4
        · intro x hx
          simp only at hx
          rw [List.mem_append] at hx
          have hxne : x ≠ LRUHeap.getN r.equal_to_k_heap 0 := by
            intro he
            rcases hx with hx | hx
            · exact hfidless (he ▸ hx)
            · exact hfidl' (he ▸ hx)
          have hxold : x ∈ r.less_than_k_heap ++ r.equal_to_k_heap := by
            rcases hx with hx | hx
            · exact List.mem_append.mpr (Or.inl hx)
            · exact List.mem_append.mpr (Or.inr (hl'sub x hx))
          rcases hW5 x hxold with ⟨n2, hn2, hn2e⟩
          exact ⟨n2, mem_eraseNode.mpr ⟨hn2, by rw [hn2e]; exact hxne⟩, hn2e⟩
        · intro x hx
          simp only at hx ⊢
          have hxne : x ≠ LRUHeap.getN r.equal_to_k_heap 0 := by
            intro he
            exact hfidless (he ▸ hx)
          have hgx : getNode (eraseNode r.node_store
              (LRUHeap.getN r.equal_to_k_heap 0)) x = getNode r.node_store x := by
            simp [getNode, findNode_eraseNode_ne _ _ _ hxne]
          rw [hgx]
          exact hW6 x hx
        · intro x hx
          simp only at hx ⊢
          have hxne : x ≠ LRUHeap.getN r.equal_to_k_heap 0 := by
            intro he
            exact hfidl' (he ▸ hx)
          have hgx : getNode (eraseNode r.node_store
              (LRUHeap.getN r.equal_to_k_heap 0)) x = getNode r.node_store x := by
            simp [getNode, findNode_eraseNode_ne _ _ _ hxne]
          rw [hgx]
          exact hW7 x (hl'sub x hx)
        · have hp := perm_cons_eraseIdx r.equal_to_k_heap 0 hQpos
          have h1 := hp.length_eq
          simp only [List.length_cons] at h1
          have h2 := hperm.length_eq
          simp only
          omega
      · intro x
        by_cases hx : x = LRUHeap.getN r.equal_to_k_heap 0
        · subst hx
          simp [tracked, findNode_eraseNode_self]
        · simp [tracked, findNode_eraseNode_ne _ _ _ hx, hx]
      · intro x
        by_cases hx : x = LRUHeap.getN r.equal_to_k_heap 0
        · subst hx
          simp [trackedEvictable, findNode_eraseNode_self]
        · simp [trackedEvictable, findNode_eraseNode_ne _ _ _ hx, hx]
    · -- the short-history heap is nonempty and is served first
      have hLpos : 0 < r.less_than_k_heap.length := Nat.pos_of_ne_zero hL
      rcases LRUHeap.Pop_perm r.node_store r.k r.less_than_k_heap hLpos with
        ⟨l', hpop, hperm⟩
      have hget : LRUHeap.getN r.less_than_k_heap 0 =
          r.less_than_k_heap.get ⟨0, hLpos⟩ := LRUHeap.getN_eq_get _ 0 hLpos
      have hmemfid : LRUHeap.getN r.less_than_k_heap 0 ∈ r.less_than_k_heap := by
        rw [hget]; exact List.get_mem _ 0 hLpos
      have hmemheap : LRUHeap.getN r.less_than_k_heap 0 ∈
          r.less_than_k_heap ++ r.equal_to_k_heap :=
        List.mem_append.mpr (Or.inl hmemfid)
      rcases hW5 _ hmemheap with ⟨n, hn, hnfid⟩
      have hf : findNode r.node_store (LRUHeap.getN r.less_than_k_heap 0) =
          some n := by
        have := findNode_of_mem_nodup hW3 hn
        rw [hnfid] at this
        exact this
      have hcountpos : 0 < (r.less_than_k_heap ++ r.equal_to_k_heap).count
          (LRUHeap.getN r.less_than_k_heap 0) :=
        List.count_pos_iff.mpr hmemheap
      have hev : n.is_evictable = true := by
        cases hh : n.is_evictable
        · have h4 := hW4 n hn
          rw [hnfid, hh] at h4
          simp only [Bool.false_eq_true, if_false] at h4
          omega
        · rfl
      have hcount1 : (r.less_than_k_heap ++ r.equal_to_k_heap).count
          (LRUHeap.getN r.less_than_k_heap 0) = 1 := by
        have h4 := hW4 n hn
        rw [hnfid, hev] at h4
        simpa using h4
      have hpermc : ∀ y : Int, r.less_than_k_heap.count y =
          l'.count y + (if y = LRUHeap.getN r.less_than_k_heap 0 then 1 else 0) := by
        intro y
        have hp := perm_cons_eraseIdx r.less_than_k_heap 0 hLpos
        rw [hp.count_eq, List.count_cons, hperm.count_eq, ← hget]
        simp only [beq_iff_eq]
        by_cases hy : y = LRUHeap.getN r.less_than_k_heap 0
        · rw [if_pos hy.symm, if_pos hy]
        · rw [if_neg (fun he => hy he.symm), if_neg hy]
      have hl0 : r.equal_to_k_heap.count (LRUHeap.getN r.less_than_k_heap 0) = 0 ∧
          l'.count (LRUHeap.getN r.less_than_k_heap 0) = 0 := by
        have h1 := hcount1
        rw [List.count_append] at h1
        have h2 := hpermc (LRUHeap.getN r.less_than_k_heap 0)
        rw [if_pos rfl] at h2
        omega
      have hfidl' : LRUHeap.getN r.less_than_k_heap 0 ∉ l' :=
        List.count_eq_zero.mp hl0.2
      have hfidq : LRUHeap.getN r.less_than_k_heap 0 ∉ r.equal_to_k_heap :=
        List.count_eq_zero.mp hl0.1
      have hl'sub : ∀ x ∈ l', x ∈ r.less_than_k_heap := by
        intro x hx
        have h1 := hperm.mem_iff.mp hx
        have hp := perm_cons_eraseIdx r.less_than_k_heap 0 hLpos
        exact hp.mem_iff.mpr (List.mem_cons_of_mem _ h1)
      have hLnil : r.less_than_k_heap ≠ [] :=
        List.ne_nil_of_length_pos hLpos
      rcases hW2 n hn with ⟨ha, hb⟩
      rw [hnfid] at ha hb
      refine ⟨LRUHeap.getN r.less_than_k_heap 0,
        { r with less_than_k_heap := l',
                 node_store := eraseNode r.node_store
                   (LRUHeap.getN r.less_than_k_heap 0),
                 curr_size := r.curr_size - 1 },
        ?_, ?_, by simp [trackedEvictable, hf, hev], ha, hb, ?_, ?_, rfl, rfl, rfl⟩
      · simp [LRUKReplacer.Evict, hcs, hLnil, hpop]
      · refine ⟨hW1, ?_, eraseNode_nodup hW3, ?_, ?_, ?_, ?_, ?_⟩
        · intro n' hn'
          exact hW2 n' (mem_eraseNode.mp hn').1
        · intro n' hn'
          simp only
          rcases mem_eraseNode.mp hn' with ⟨hn'mem, hn'ne⟩
          have h4 := hW4 n' hn'mem
          have hc := hpermc n'.fid
          rw [if_neg hn'ne, add_zero] at hc
          rw [List.count_append] at h4
          rw [List.count_append, ← hc]
          exact h4
        · intro x hx
          simp only at hx
          rw [List.mem_append] at hx
          have hxne : x ≠ LRUHeap.getN r.less_than_k_heap 0 := by
            intro he
            rcases hx with hx | hx
            · exact hfidl' (he ▸ hx)
            · exact hfidq (he ▸ hx)
          have hxold : x ∈ r.less_than_k_heap ++ r.equal_to_k_heap := by
            rcases hx with hx | hx
            · exact List.mem_append.mpr (Or.inl (hl'sub x hx))
            · exact List.mem_append.mpr (Or.inr hx)
          rcases hW5 x hxold with ⟨n2, hn2, hn2e⟩
          exact ⟨n2, mem_eraseNode.mpr ⟨hn2, by rw [hn2e]; exact hxne⟩, hn2e⟩
        · intro x hx
          simp only at hx ⊢
          have hxne : x ≠ LRUHeap.getN r.less_than_k_heap 0 := by
            intro he
            exact hfidl' (he ▸ hx)
          have hgx : getNode (eraseNode r.node_store
              (LRUHeap.getN r.less_than_k_heap 0)) x = getNode r.node_store x := by
            simp [getNode, findNode_eraseNode_ne _ _ _ hxne]
          rw [hgx]
          exact hW6 x (hl'sub x hx)
        · intro x hx
          simp only at hx ⊢
          have hxne : x ≠ LRUHeap.getN r.less_than_k_heap 0 := by
            intro he
            exact hfidq (he ▸ hx)
          have hgx : getNode (eraseNode r.node_store
              (LRUHeap.getN r.less_than_k_heap 0)) x = getNode r.node_store x := by
            simp [getNode, findNode_eraseNode_ne _ _ _ hxne]
          rw [hgx]
          exact hW7 x hx
        · have hp := perm_cons_eraseIdx r.less_than_k_heap 0 hLpos
          have h1 := hp.length_eq
          simp only [List.length_cons] at h1
          have h2 := hperm.length_eq
          simp only
          omega
      · intro x
        by_cases hx : x = LRUHeap.getN r.less_than_k_heap 0
        · subst hx
          simp [tracked, findNode_eraseNode_self]
        · simp [tracked, findNode_eraseNode_ne _ _ _ hx, hx]
      · intro x
        by_cases hx : x = LRUHeap.getN r.less_than_k_heap 0
        · subst hx
          simp [trackedEvictable, findNode_eraseNode_self]
        · simp [trackedEvictable, findNode_eraseNode_ne _ _ _ hx, hx]

/-! ### Buffer-pool state lemmas -/

/-- A `map` with a guarded rewrite that never fires is the identity. -/
theorem map_if_eq_self {β : Type} (t : List β) (c : β → Prop) [DecidablePred c]
    (g : β → β) (h : ∀ p ∈ t, ¬ c p) :
    t.map (fun p => if c p then g p else p) = t := by
  induction t with
  | nil => rfl
  | cons q t ih =>
    simp only [List.map_cons]
    rw [if_neg (h q (List.mem_cons_self q t)),
      ih (fun p hp => h p (List.mem_cons_of_mem q hp))]

/-- With unique keys, two stored entries sharing a key coincide. -/
theorem fst_nodup_eq {t : List (Int × Int)}
    (h : (t.map Prod.fst).Nodup) {p q : Int × Int} (hp : p ∈ t) (hq : q ∈ t)
    (he : p.1 = q.1) : p = q := by
  induction t with
  | nil => cases hp
  | cons r t ih =>
    simp only [List.map_cons, List.nodup_cons] at h
    rcases List.mem_cons.mp hp with rfl | hp2
    · rcases List.mem_cons.mp hq with rfl | hq2
      · rfl
      · exact absurd (he ▸ List.mem_map_of_mem Prod.fst hq2) h.1
    · rcases List.mem_cons.mp hq with rfl | hq2
      · exact absurd (he ▸ List.mem_map_of_mem Prod.fst hp2) h.1
      · exact ih h.2 hp2 hq2

/-- Replacing the value stored under one key keeps the value column unique,
provided the new value is fresh. -/
theorem snd_nodup_keyUpdate (t : List (Int × Int)) (pid fid : Int)
    (h1 : (t.map Prod.fst).Nodup) (h2 : (t.map Prod.snd).Nodup)
    (h3 : ∀ p ∈ t, p.2 ≠ fid) :
    ((t.map (fun p => if p.1 = pid then (pid, fid) else p)).map Prod.snd).Nodup := by
  induction t with
  | nil => simp
  | cons q t ih =>
    simp only [List.map_cons, List.nodup_cons] at h1 h2 ⊢
    have ih2 := ih h1.2 h2.2 (fun p hp => h3 p (List.mem_cons_of_mem _ hp))
    by_cases hq : q.1 = pid
    · rw [if_pos hq]
      have ht : t.map (fun p => if p.1 = pid then (pid, fid) else p) = t := by
        apply map_if_eq_self
        intro p hp he
        exact h1.1 (show q.1 ∈ List.map Prod.fst t by
          rw [hq, ← he]; exact List.mem_map_of_mem Prod.fst hp)
      rw [ht]
      refine ⟨?_, h2.2⟩
      intro hmem
      rcases List.mem_map.mp hmem with ⟨p, hp, he⟩
      exact h3 p (List.mem_cons_of_mem _ hp) he
    · rw [if_neg hq]
      refine ⟨?_, ih2⟩
      intro hmem
      rcases List.mem_map.mp hmem with ⟨p2, hp2, he⟩
      rcases List.mem_map.mp hp2 with ⟨p, hp, he2⟩
      by_cases hpp : p.1 = pid
      · rw [if_pos hpp] at he2
        rw [← he2] at he
        have hq2 : q.2 = fid := by simpa using he.symm
        exact h3 q (List.mem_cons_self q t) hq2
      · rw [if_neg hpp] at he2
        rw [← he2] at he
        exact h2.1 (he ▸ List.mem_map_of_mem Prod.snd hp)

namespace BufferPoolManager

variable {α : Type} [Inhabited α] [DecidableEq α]

/-- Reading back the frame just written. -/
theorem frameAt_setFrame_self (s : BufferPoolManager α) (fid : Int)
    (f : Frame α → Frame α) (h0 : 0 ≤ fid) (h1 : fid.toNat < s.pages.length) :
    (s.setFrame fid f).frameAt fid = f (s.frameAt fid) := by
  simp only [setFrame, frameAt, if_pos h0]
  rw [List.getD_eq_getElem?_getD, List.getElem?_set_eq h1, Option.getD_some]

/-- Writing one frame leaves the others alone. -/
theorem frameAt_setFrame_ne (s : BufferPoolManager α) (fid x : Int)
    (f : Frame α → Frame α) (hx : x ≠ fid) :
    (s.setFrame fid f).frameAt x = s.frameAt x := by
  simp only [setFrame, frameAt]
  by_cases h0 : 0 ≤ fid
  · simp only [if_pos h0]
    by_cases hx0 : 0 ≤ x
    · simp only [if_pos hx0]
      rw [List.getD_eq_getElem?_getD, List.getD_eq_getElem?_getD,
        List.getElem?_set_ne (by omega), ← List.getD_eq_getElem?_getD]
    · simp only [if_neg hx0]
  · simp only [if_neg h0]

/-- `setFrame` keeps the frame vector's length. -/
theorem setFrame_pages_length (s : BufferPoolManager α) (fid : Int)
    (f : Frame α → Frame α) : (s.setFrame fid f).pages.length = s.pages.length := by
  simp only [setFrame]
  split
  · rw [List.length_set]
  · rfl

/-- A successful page-table lookup names a stored binding. -/
theorem ptFind_eq_some_mem {s : BufferPoolManager α} {pid fid : Int}
    (h : s.ptFind pid = some fid) : (pid, fid) ∈ s.page_table := by
  simp only [ptFind] at h
  rcases hf : s.page_table.find? (fun p => p.1 = pid) with _ | q
  · rw [hf] at h; simp at h
  · rw [hf] at h
    rw [show Option.map Prod.snd (some q) = some q.2 from rfl] at h
    have hm := List.mem_of_find?_eq_some hf
    have hp := List.find?_some hf
    simp only [decide_eq_true_eq] at hp
    injection h with h2
    have hq : q = (pid, fid) := by
      rcases q with ⟨a, b⟩
      simp only at hp h2
      rw [hp, h2]
    rw [← hq]
    exact hm

/-- A failed page-table lookup means the key is unbound. -/
theorem ptFind_none_forall {s : BufferPoolManager α} {pid : Int}
    (h : s.ptFind pid = none) : ∀ p ∈ s.page_table, p.1 ≠ pid := by
  simp only [ptFind] at h
  rcases hf : s.page_table.find? (fun p => p.1 = pid) with _ | q
  · intro p hp he
    have := List.find?_eq_none.mp hf p hp
    simp at this
    exact this he
  · rw [hf] at h; simp at h

/-- Each binding after `ptSet` is the new one or an untouched old one. -/
theorem ptSet_mem {s : BufferPoolManager α} {pid fid : Int} :
    ∀ q ∈ (s.ptSet pid fid).page_table,
      q = (pid, fid) ∨ (q ∈ s.page_table ∧ q.1 ≠ pid) := by
  intro q hq
  simp only [ptSet] at hq
  by_cases hf : (s.page_table.find? (fun p => p.1 = pid)).isSome = true
  · rw [if_pos hf] at hq
    rcases List.mem_map.mp hq with ⟨p, hp, he⟩
    by_cases hpp : p.1 = pid
    · rw [if_pos hpp] at he
      exact Or.inl he.symm
    · rw [if_neg hpp] at he
      exact Or.inr ⟨he ▸ hp, he ▸ hpp⟩
  · rw [if_neg hf] at hq
    rcases List.mem_append.mp hq with h | h
    · have hnone : s.page_table.find? (fun p => p.1 = pid) = none := by
        cases hx : s.page_table.find? (fun p => p.1 = pid)
        · rfl
        · rw [hx] at hf; simp at hf
      have := List.find?_eq_none.mp hnone q h
      simp at this
      exact Or.inr ⟨h, this⟩
    · rw [List.mem_singleton] at h
      exact Or.inl h

/-- `ptSet` keeps the key column unique. -/
theorem ptSet_fst_nodup {s : BufferPoolManager α} {pid fid : Int}
    (h : (s.page_table.map Prod.fst).Nodup) :
    ((s.ptSet pid fid).page_table.map Prod.fst).Nodup := by
  simp only [ptSet]
  by_cases hf : (s.page_table.find? (fun p => p.1 = pid)).isSome = true
  · rw [if_pos hf]
    have heq : (s.page_table.map
        (fun p => if p.1 = pid then (pid, fid) else p)).map Prod.fst =
        s.page_table.map Prod.fst := by
      simp only [List.map_map]
      apply List.map_congr_left
      intro p _
      by_cases hpp : p.1 = pid
      · simp [hpp]
      · simp [hpp]
    rw [heq]
    exact h
  · rw [if_neg hf]
    have hnone : s.page_table.find? (fun p => p.1 = pid) = none := by
      cases hx : s.page_table.find? (fun p => p.1 = pid)
      · rfl
      · rw [hx] at hf; simp at hf
    simp only [List.map_append, List.map_singleton]
    rw [List.nodup_append]
    refine ⟨h, List.nodup_singleton _, ?_⟩
    intro a ha hb
    rw [List.mem_singleton] at hb
    rcases List.mem_map.mp ha with ⟨p, hp, he⟩
    have := List.find?_eq_none.mp hnone p hp
    simp at this
    exact this (by rw [he, hb])

/-- `ptSet` with a fresh value keeps the value column unique. -/
theorem ptSet_snd_nodup {s : BufferPoolManager α} {pid fid : Int}
    (h1 : (s.page_table.map Prod.fst).Nodup)
    (h2 : (s.page_table.map Prod.snd).Nodup)
    (h3 : ∀ p ∈ s.page_table, p.2 ≠ fid) :
    ((s.ptSet pid fid).page_table.map Prod.snd).Nodup := by
  simp only [ptSet]
  by_cases hf : (s.page_table.find? (fun p => p.1 = pid)).isSome = true
  · rw [if_pos hf]
    exact snd_nodup_keyUpdate _ pid fid h1 h2 h3
  · rw [if_neg hf]
    simp only [List.map_append, List.map_singleton]
    rw [List.nodup_append]
    refine ⟨h2, List.nodup_singleton _, ?_⟩
    intro a ha hb
    rw [List.mem_singleton] at hb
    rcases List.mem_map.mp ha with ⟨p, hp, he⟩
    exact h3 p hp (by rw [he, hb])

/-- Re-binding a key to the value it already has changes nothing. -/
theorem ptSet_table_id {s : BufferPoolManager α} {pid fid : Int}
    (hmem : (pid, fid) ∈ s.page_table)
    (h1 : (s.page_table.map Prod.fst).Nodup) :
    (s.ptSet pid fid).page_table = s.page_table := by
  have hf : (s.page_table.find? (fun p => p.1 = pid)).isSome = true :=
    List.find?_isSome.mpr ⟨(pid, fid), hmem, by simp⟩
  simp only [ptSet, if_pos hf]
  conv_rhs => rw [← List.map_id s.page_table]
  apply List.map_congr_left
  intro p hp
  by_cases hpp : p.1 = pid
  · rw [if_pos hpp]
    have : p = (pid, fid) := fst_nodup_eq h1 hp hmem (by rw [hpp])
    rw [this]
    rfl
  · rw [if_neg hpp]
    rfl

/-- Swapping the replacer leaves every frame untouched. -/
theorem frameAt_set_replacer (s : BufferPoolManager α) (r : LRUKReplacer)
    (fid : Int) :
    ({ s with replacer := r } : BufferPoolManager α).frameAt fid =
      s.frameAt fid := rfl

/-- States with equal frame vectors read frames equally. -/
theorem frameAt_congr {s1 s2 : BufferPoolManager α}
    (h : s1.pages = s2.pages) (x : Int) : s1.frameAt x = s2.frameAt x := by
  simp [frameAt, h]

/-- `ptErase` keeps exactly the bindings with another key. -/
theorem ptErase_mem {s : BufferPoolManager α} {pid : Int} :
    ∀ q ∈ (s.ptErase pid).page_table, q ∈ s.page_table ∧ q.1 ≠ pid := by
  intro q hq
  simp only [ptErase] at hq
  have := List.mem_filter.mp hq
  exact ⟨this.1, by simpa using this.2⟩

/-- `ptErase` keeps the key column unique. -/
theorem ptErase_fst_nodup {s : BufferPoolManager α} {pid : Int}
    (h : (s.page_table.map Prod.fst).Nodup) :
    (((s.ptErase pid).page_table).map Prod.fst).Nodup :=
  h.sublist (List.Sublist.map Prod.fst (List.filter_sublist s.page_table))

/-- `ptErase` keeps the value column unique. -/
theorem ptErase_snd_nodup {s : BufferPoolManager α} {pid : Int}
    (h : (s.page_table.map Prod.snd).Nodup) :
    (((s.ptErase pid).page_table).map Prod.snd).Nodup :=
  h.sublist (List.Sublist.map Prod.snd (List.filter_sublist s.page_table))

/-- The frame-acquisition prefix of `NewPage`/`FetchPage` under `BInv`: it
never aborts (in particular the evicted victim really has pin count `0`),
and an acquired frame is in range, unmapped, absent from the remaining free
list, and leaves the pool invariant intact with no new page-table
bindings. -/
theorem acquireFrame_spec {pool : Nat} {s : BufferPoolManager α}
    (hb : BInv pool s) :
    ∃ res, s.acquireFrame = some res ∧
      ∀ fid s', res = some (fid, s') →
        0 ≤ fid ∧ fid < (pool : Int) ∧ BInv pool s' ∧
        (∀ p ∈ s'.page_table, p.2 ≠ fid) ∧ fid ∉ s'.free_list ∧
        (∀ p ∈ s'.page_table, p ∈ s.page_table) := by
  obtain ⟨hB1, hB2, hB3, hB4, hB5, hB6, hB7, hB8, hB9, hB10⟩ := hb
  rcases hfl : s.free_list with _ | ⟨fid, rest⟩
  · -- free list empty: evict a victim
    have hEv := Evict_spec hB3
    by_cases hcs : s.replacer.curr_size = 0
    · refine ⟨none, ?_, ?_⟩
      · simp [acquireFrame, hfl, hEv.1 hcs]
      · intro fid s' h
        simp at h
    · rcases hEv.2 hcs with
        ⟨vfid, r', heq, hw', hTEv, h0v, h1v, htrk, hTE, hcur, hrs, hk⟩
      have hpin0 : (s.frameAt vfid).pin_count = 0 := by
        have hge := hB4 vfid h0v h1v
        by_contra hne
        have hpos : 0 < (s.frameAt vfid).pin_count := by omega
        have hfalse := hB5 vfid h0v h1v hpos
        rw [hfalse] at hTEv
        cases hTEv
      have hvn : vfid.toNat < s.pages.length := by omega
      have hfin : ∀ s2 : BufferPoolManager α,
          s2.pages = s.pages → s2.page_table = s.page_table →
          s2.replacer = r' → s2.free_list = s.free_list →
          s2.pool_size = s.pool_size →
          BInv pool ((s2.setFrame vfid (fun f => { f with data := default })).ptErase
            (s.frameAt vfid).page_id) ∧
          (∀ p ∈ ((s2.setFrame vfid
              (fun f => { f with data := default })).ptErase
              (s.frameAt vfid).page_id).page_table, p.2 ≠ vfid) ∧
          vfid ∉ ((s2.setFrame vfid (fun f => { f with data := default })).ptErase
            (s.frameAt vfid).page_id).free_list ∧
          (∀ p ∈ ((s2.setFrame vfid
              (fun f => { f with data := default })).ptErase
              (s.frameAt vfid).page_id).page_table, p ∈ s.page_table) := by
        intro s2 hpg hpt hrep hfree hpool
        have hFAne : ∀ x : Int, x ≠ vfid →
            ((s2.setFrame vfid (fun f => { f with data := default })).ptErase
              (s.frameAt vfid).page_id).frameAt x = s.frameAt x := by
          intro x hx
          have h1 : ((s2.setFrame vfid
              (fun f => { f with data := default })).ptErase
              (s.frameAt vfid).page_id).frameAt x =
              (s2.setFrame vfid (fun f => { f with data := default })).frameAt x :=
            rfl
          rw [h1, frameAt_setFrame_ne _ _ _ _ hx, frameAt_congr hpg]
        have hFAv : ((s2.setFrame vfid
            (fun f => { f with data := default })).ptErase
            (s.frameAt vfid).page_id).frameAt vfid =
            { s.frameAt vfid with data := default } := by
          have h1 : ((s2.setFrame vfid
              (fun f => { f with data := default })).ptErase
              (s.frameAt vfid).page_id).frameAt vfid =
              (s2.setFrame vfid (fun f => { f with data := default })).frameAt vfid :=
            rfl
          rw [h1, frameAt_setFrame_self _ _ _ h0v (by rw [hpg]; exact hvn),
            frameAt_congr hpg]
        have hmem : ∀ q ∈ ((s2.setFrame vfid
            (fun f => { f with data := default })).ptErase
            (s.frameAt vfid).page_id).page_table,
            q ∈ s.page_table ∧ q.1 ≠ (s.frameAt vfid).page_id := by
          intro q hq
          have := ptErase_mem q hq
          rw [show (s2.setFrame vfid
            (fun f => { f with data := default })).page_table = s2.page_table
            from rfl, hpt] at this
          exact this
        have hq2ne : ∀ q ∈ ((s2.setFrame vfid
            (fun f => { f with data := default })).ptErase
            (s.frameAt vfid).page_id).page_table, q.2 ≠ vfid := by
          intro q hq he
          rcases hmem q hq with ⟨hqs, hqne⟩
          have := (hB6 q hqs).2.2.2
          rw [he] at this
          exact hqne this.symm
        refine ⟨⟨?_, ?_, ?_, ?_, ?_, ?_, ?_, ?_, ?_, ?_⟩, hq2ne, ?_, ?_⟩
        · rw [show ((s2.setFrame vfid
              (fun f => { f with data := default })).ptErase
              (s.frameAt vfid).page_id).pool_size = s2.pool_size from rfl,
            hpool, hB1]
        · rw [show ((s2.setFrame vfid
              (fun f => { f with data := default })).ptErase
              (s.frameAt vfid).page_id).pages =
              (s2.setFrame vfid (fun f => { f with data := default })).pages
              from rfl, setFrame_pages_length, hpg, hB2]
        · rw [show ((s2.setFrame vfid
              (fun f => { f with data := default })).ptErase
              (s.frameAt vfid).page_id).replacer = s2.replacer from rfl, hrep]
          exact hw'
        · intro x hx0 hx1
          by_cases hx : x = vfid
          · subst hx
            rw [hFAv]
            simp only
            omega
          · rw [hFAne x hx]
            exact hB4 x hx0 hx1
        · intro x hx0 hx1 hxpos
          rw [show ((s2.setFrame vfid
              (fun f => { f with data := default })).ptErase
              (s.frameAt vfid).page_id).replacer = s2.replacer from rfl, hrep,
            hTE x]
          by_cases hx : x = vfid
          · subst hx
            rw [hFAv] at hxpos
            simp only at hxpos
            omega
          · rw [hB5 x hx0 hx1 (by rw [hFAne x hx] at hxpos; exact hxpos)]
            rfl
        · intro q hq
          rcases hmem q hq with ⟨hqs, hqne⟩
          rcases hB6 q hqs with ⟨hq0, hq1, hqt, hqm⟩
          refine ⟨hq0, hq1, ?_, ?_⟩
          · rw [show ((s2.setFrame vfid
                (fun f => { f with data := default })).ptErase
                (s.frameAt vfid).page_id).replacer = s2.replacer from rfl, hrep,
              htrk q.2, hqt]
            simp [hq2ne q hq]
          · rw [hFAne q.2 (hq2ne q hq)]
            exact hqm
        · exact ptErase_fst_nodup (by
            rw [show (s2.setFrame vfid
              (fun f => { f with data := default })).page_table = s2.page_table
              from rfl, hpt]; exact hB7)
        · exact ptErase_snd_nodup (by
            rw [show (s2.setFrame vfid
              (fun f => { f with data := default })).page_table = s2.page_table
              from rfl, hpt]; exact hB8)
        · intro f hf
          rw [show ((s2.setFrame vfid
              (fun f => { f with data := default })).ptErase
              (s.frameAt vfid).page_id).free_list = s2.free_list from rfl,
            hfree, hfl] at hf
          cases hf
        · rw [show ((s2.setFrame vfid
              (fun f => { f with data := default })).ptErase
              (s.frameAt vfid).page_id).free_list = s2.free_list from rfl,
            hfree, hfl]
          exact List.nodup_nil
        · rw [show ((s2.setFrame vfid
              (fun f => { f with data := default })).ptErase
              (s.frameAt vfid).page_id).free_list = s2.free_list from rfl,
            hfree, hfl]
          simp
        · intro q hq
          exact (hmem q hq).1
      by_cases hd : (s.frameAt vfid).is_dirty = true
      · refine ⟨some (vfid,
          ((({ s with replacer := r' } : BufferPoolManager α).diskWrite
            (s.frameAt vfid).page_id (s.frameAt vfid).data).setFrame vfid
            (fun f => { f with data := default })).ptErase
            (s.frameAt vfid).page_id), ?_, ?_⟩
        · have hp2 := hpin0
          have hd2 := hd
          simp [frameAt, h0v] at hp2 hd2
          simp [acquireFrame, hfl, heq, frameAt, h0v, hp2, hd2]
        · intro fid2 s2 h
          cases h
          rcases hfin (({ s with replacer := r' } : BufferPoolManager α).diskWrite
              (s.frameAt vfid).page_id (s.frameAt vfid).data)
              rfl rfl rfl rfl rfl with ⟨hbi, hum, hnf, hsub⟩
          exact ⟨h0v, h1v, hbi, hum, hnf, hsub⟩
      · refine ⟨some (vfid,
          (({ s with replacer := r' } : BufferPoolManager α).setFrame vfid
            (fun f => { f with data := default })).ptErase
            (s.frameAt vfid).page_id), ?_, ?_⟩
        · have hp2 := hpin0
          have hd2 := hd
          simp [frameAt, h0v] at hp2 hd2
          simp [acquireFrame, hfl, heq, frameAt, h0v, hp2, hd2]
        · intro fid2 s2 h
          cases h
          rcases hfin ({ s with replacer := r' } : BufferPoolManager α)
              rfl rfl rfl rfl rfl with ⟨hbi, hum, hnf, hsub⟩
          exact ⟨h0v, h1v, hbi, hum, hnf, hsub⟩
  · -- pull the head of the free list
    have hfidP := hB9 fid (by rw [hfl]; exact List.mem_cons_self _ _)
    have hnodup : (fid :: rest).Nodup := by rw [← hfl]; exact hB10
    refine ⟨some (fid, { s with free_list := rest }), ?_, ?_⟩
    · simp [acquireFrame, hfl]
    · intro fid2 s2 h
      cases h
      refine ⟨hfidP.1, hfidP.2.1,
        ⟨hB1, hB2, hB3, hB4, hB5, hB6, hB7, hB8, ?_, ?_⟩,
        hfidP.2.2, (List.nodup_cons.mp hnodup).1, fun p hp => hp⟩
      · intro f hf
        exact hB9 f (by rw [hfl]; exact List.mem_cons_of_mem _ hf)
      · exact (List.nodup_cons.mp hnodup).2

/-- Installing a page into a freshly acquired (unmapped) frame — the shared
tail of `NewPage` and of `FetchPage`'s miss path — preserves the pool
invariant. -/
theorem install_BInv {pool : Nat} {s1 : BufferPoolManager α} {r2 : LRUKReplacer}
    (fid pid next' : Int) (g : Frame α → Frame α)
    (hb : BInv pool s1) (hw2 : RWF pool r2)
    (htr2 : tracked r2 fid = true)
    (htrmono : ∀ x, tracked s1.replacer x = true → tracked r2 x = true)
    (hTEfid : trackedEvictable r2 fid = false)
    (hTEother : ∀ x, x ≠ fid → trackedEvictable r2 x =
      trackedEvictable s1.replacer x)
    (h0 : 0 ≤ fid) (h1 : fid < (pool : Int))
    (hum : ∀ p ∈ s1.page_table, p.2 ≠ fid)
    (hnf : fid ∉ s1.free_list)
    (hgpin : 0 < (g (s1.frameAt fid)).pin_count)
    (hgpid : (g (s1.frameAt fid)).page_id = pid) :
    BInv pool ((({ s1 with replacer := r2, next_page_id := next' } : BufferPoolManager α).setFrame fid g).ptSet
        pid fid) := by
  obtain ⟨hB1, hB2, hB3, hB4, hB5, hB6, hB7, hB8, hB9, hB10⟩ := hb
  have hfidn : fid.toNat < s1.pages.length := by omega
  have hFAv : ((({ s1 with replacer := r2, next_page_id := next' } : BufferPoolManager α).setFrame fid g).ptSet
      pid fid).frameAt fid = g (s1.frameAt fid) := by
    have h2 : ((({ s1 with replacer := r2, next_page_id := next' } : BufferPoolManager α).setFrame fid g).ptSet
        pid fid).frameAt fid =
        (({ s1 with replacer := r2, next_page_id := next' } : BufferPoolManager α).setFrame fid g).frameAt
          fid := rfl
    rw [h2, frameAt_setFrame_self
      ({ s1 with replacer := r2, next_page_id := next' } : BufferPoolManager α)
      fid g h0 hfidn]
    rfl
  have hFAne : ∀ x : Int, x ≠ fid →
      ((({ s1 with replacer := r2, next_page_id := next' } : BufferPoolManager α).setFrame fid g).ptSet
        pid fid).frameAt x = s1.frameAt x := by
    intro x hx
    have h2 : ((({ s1 with replacer := r2, next_page_id := next' } : BufferPoolManager α).setFrame fid g).ptSet
        pid fid).frameAt x =
        (({ s1 with replacer := r2, next_page_id := next' } : BufferPoolManager α).setFrame fid g).frameAt
          x := rfl
    rw [h2, frameAt_setFrame_ne
      ({ s1 with replacer := r2, next_page_id := next' } : BufferPoolManager α)
      fid x g hx]
    rfl
  have hmem : ∀ q ∈ ((({ s1 with replacer := r2, next_page_id := next' } :
      BufferPoolManager α).setFrame fid g).ptSet pid fid).page_table,
      q = (pid, fid) ∨
      (q ∈ (({ s1 with replacer := r2, next_page_id := next' } :
        BufferPoolManager α).setFrame fid g).page_table ∧ q.1 ≠ pid) :=
    ptSet_mem
  have hrepl : ((({ s1 with replacer := r2, next_page_id := next' } : BufferPoolManager α).setFrame fid g).ptSet
      pid fid).replacer = r2 := rfl
  refine ⟨hB1, ?_, hw2, ?_, ?_, ?_, ?_, ?_, ?_, hB10⟩
  · exact (setFrame_pages_length _ _ _).trans hB2
  · intro x hx0 hx1
    by_cases hx : x = fid
    · subst hx
      rw [hFAv]
      omega
    · rw [hFAne x hx]
      exact hB4 x hx0 hx1
  · intro x hx0 hx1 hxpos
    rw [hrepl]
    by_cases hx : x = fid
    · subst hx
      exact hTEfid
    · rw [hTEother x hx]
      rw [hFAne x hx] at hxpos
      exact hB5 x hx0 hx1 hxpos
  · intro q hq
    rcases hmem q hq with h | ⟨hqs, hqne⟩
    · subst h
      refine ⟨h0, h1, htr2, ?_⟩
      simp only
      rw [hFAv]
      exact hgpid
    · rcases hB6 q hqs with ⟨hq0, hq1, hqt, hqm⟩
      refine ⟨hq0, hq1, htrmono q.2 hqt, ?_⟩
      rw [hFAne q.2 (hum q hqs)]
      exact hqm
  · exact ptSet_fst_nodup hB7
  · exact ptSet_snd_nodup hB7 hB8 hum
  · intro f hf
    have hf1 : f ∈ s1.free_list := hf
    rcases hB9 f hf1 with ⟨hf0, hfx, hfp⟩
    refine ⟨hf0, hfx, ?_⟩
    intro q hq
    rcases hmem q hq with h | ⟨hqs, _⟩
    · subst h
      intro he
      have hef : fid = f := by simpa using he
      exact hnf (by rw [hef]; exact hf1)
    · exact hfp q hqs

/-- `NewPage` under `BInv` never aborts and preserves the invariant. -/
theorem NewPage_spec {pool : Nat} {s : BufferPoolManager α} (hb : BInv pool s) :
    ∃ u, s.NewPage = some u ∧ BInv pool u.2 := by
  rcases acquireFrame_spec hb with ⟨res, hacq, hpost⟩
  rcases res with _ | ⟨fid, s1⟩
  · refine ⟨(none, s), ?_, hb⟩
    simp [NewPage, hacq]
  · rcases hpost fid s1 rfl with ⟨h0, h1, hb1, hum, hnf, hsub⟩
    have hB3 := hb1.2.2.1
    rcases RecordAccess_spec fid hB3 h0 h1 with
      ⟨r1, hrec, hw1, htrk1, hTE1, hcs1, hrs1, hk1⟩
    have htr1 : tracked r1 fid = true := by
      rw [htrk1]
      simp
    rcases SetEvictable_spec fid false hw1 htr1 h0 h1 with
      ⟨r2, hsetv, hw2, htrk2, hTE2, hcs2, hrs2, hk2, hh2⟩
    refine ⟨(some (s1.next_page_id, fid),
      ((({ s1 with replacer := r2, next_page_id := s1.next_page_id + 1 } : BufferPoolManager α).setFrame fid
        (fun f => { f with page_id := s1.next_page_id, is_dirty := false, pin_count := 1 })).ptSet s1.next_page_id fid)), ?_, ?_⟩
    · simp [NewPage, hacq, hrec, hsetv, AllocatePage]
    · refine install_BInv fid s1.next_page_id (s1.next_page_id + 1) _ hb1 hw2 ?_
        ?_ ?_ ?_ h0 h1 hum hnf (by simp) (by simp)
      · rw [htrk2]
        exact htr1
      · intro x hx
        rw [htrk2, htrk1, hx]
        simp
      · rw [hTE2]
        simp
      · intro x hx
        rw [hTE2, if_neg hx, hTE1]

/-- With unique values, two stored entries sharing a value coincide. -/
theorem snd_nodup_eq {t : List (Int × Int)}
    (h : (t.map Prod.snd).Nodup) {p q : Int × Int} (hp : p ∈ t) (hq : q ∈ t)
    (he : p.2 = q.2) : p = q := by
  induction t with
  | nil => cases hp
  | cons r t ih =>
    simp only [List.map_cons, List.nodup_cons] at h
    rcases List.mem_cons.mp hp with rfl | hp2
    · rcases List.mem_cons.mp hq with rfl | hq2
      · rfl
      · exact absurd (he ▸ List.mem_map_of_mem Prod.snd hq2) h.1
    · rcases List.mem_cons.mp hq with rfl | hq2
      · exact absurd (he ▸ List.mem_map_of_mem Prod.snd hp2) h.1
      · exact ih h.2 hp2 hq2

/-- `FetchPage` under `BInv` never aborts and preserves the invariant. -/
theorem FetchPage_spec {pool : Nat} {s : BufferPoolManager α} (pid : Int)
    (hb : BInv pool s) :
    ∃ u, s.FetchPage pid = some u ∧ BInv pool u.2 := by
  rcases hpt : s.ptFind pid with _ | fid
  · -- miss: pull a frame in and read the page from disk
    rcases acquireFrame_spec hb with ⟨res, hacq, hpost⟩
    rcases res with _ | ⟨fid, s1⟩
    · refine ⟨(none, s), ?_, hb⟩
      simp [FetchPage, hpt, hacq]
    · rcases hpost fid s1 rfl with ⟨h0, h1, hb1, hum, hnf, hsub⟩
      obtain ⟨hB1, hB2, hB3, hB4, hB5, hB6, hB7, hB8, hB9, hB10⟩ := hb1
      have hfidn : fid.toNat < s1.pages.length := by omega
      have hFAv2 : (s1.setFrame fid (fun f => { f with data := s1.diskRead pid, page_id := pid, is_dirty := false })).frameAt fid =
          { s1.frameAt fid with data := s1.diskRead pid, page_id := pid, is_dirty := false } :=
        frameAt_setFrame_self s1 fid _ h0 hfidn
      have hFAn2 : ∀ x : Int, x ≠ fid →
          (s1.setFrame fid (fun f => { f with data := s1.diskRead pid, page_id := pid, is_dirty := false })).frameAt x = s1.frameAt x :=
        fun x hx => frameAt_setFrame_ne s1 fid x _ hx
      have hb2 : BInv pool (s1.setFrame fid (fun f => { f with data := s1.diskRead pid, page_id := pid, is_dirty := false })) := by
        refine ⟨hB1, (setFrame_pages_length _ _ _).trans hB2, hB3, ?_, ?_, ?_,
          hB7, hB8, hB9, hB10⟩
        · intro x hx0 hx1
          by_cases hx : x = fid
          · subst hx
            rw [hFAv2]
            simp only
            exact hB4 x hx0 hx1
          · rw [hFAn2 x hx]
            exact hB4 x hx0 hx1
        · intro x hx0 hx1 hxpos
          by_cases hx : x = fid
          · subst hx
            rw [hFAv2] at hxpos
            simp only at hxpos
            exact hB5 x hx0 hx1 hxpos
          · rw [hFAn2 x hx] at hxpos
            exact hB5 x hx0 hx1 hxpos
        · intro q hq
          rcases hB6 q hq with ⟨hq0, hq1, hqt, hqm⟩
          refine ⟨hq0, hq1, hqt, ?_⟩
          rw [hFAn2 q.2 (hum q hq)]
          exact hqm
      have hB3x : RWF pool (s1.setFrame fid (fun f => { f with
          data := s1.diskRead pid, page_id := pid,
          is_dirty := false })).replacer := hB3
      rcases RecordAccess_spec fid hB3x h0 h1 with
        ⟨r1, hrec, hw1, htrk1, hTE1, hcs1, hrs1, hk1⟩
      have htr1 : tracked r1 fid = true := by
        rw [htrk1]
        simp
      rcases SetEvictable_spec fid false hw1 htr1 h0 h1 with
        ⟨r2, hsetv, hw2, htrk2, hTE2, hcs2, hrs2, hk2, hh2⟩
      refine ⟨(some fid,
        ((({ (s1.setFrame fid (fun f => { f with data := s1.diskRead pid, page_id := pid, is_dirty := false })) with
            replacer := r2 } : BufferPoolManager α).setFrame fid
          (fun f => { f with pin_count := f.pin_count + 1 })).ptSet pid fid)),
        ?_, ?_⟩
      · simp [FetchPage, hpt, hacq, hrec, hsetv]
      · have := install_BInv
          fid pid (s1.setFrame fid (fun f => { f with data := s1.diskRead pid, page_id := pid, is_dirty := false })).next_page_id
          (fun f => { f with pin_count := f.pin_count + 1 })
          hb2 hw2 ?_ ?_ ?_ ?_ h0 h1 hum hnf ?_ ?_
        · exact this
        · rw [htrk2]
          exact htr1
        · intro x hx
          rw [htrk2, htrk1, hx]
          simp
        · rw [hTE2]
          simp
        · intro x hx
          rw [hTE2, if_neg hx, hTE1]
        · simp only
          rw [hFAv2]
          simp only
          have := hB4 fid h0 h1
          omega
        · simp only
          rw [hFAv2]
  · -- hit: the page is resident, pin it once more
    obtain ⟨hB1, hB2, hB3, hB4, hB5, hB6, hB7, hB8, hB9, hB10⟩ := hb
    have hmem : (pid, fid) ∈ s.page_table := ptFind_eq_some_mem hpt
    rcases hB6 (pid, fid) hmem with ⟨h0, h1, htr, hmatch⟩
    simp only at h0 h1 htr hmatch
    have hfidn : fid.toNat < s.pages.length := by omega
    rcases RecordAccess_spec fid hB3 h0 h1 with
      ⟨r1, hrec, hw1, htrk1, hTE1, hcs1, hrs1, hk1⟩
    have htr1 : tracked r1 fid = true := by
      rw [htrk1]
      simp
    rcases SetEvictable_spec fid false hw1 htr1 h0 h1 with
      ⟨r2, hsetv, hw2, htrk2, hTE2, hcs2, hrs2, hk2, hh2⟩
    have hFAv : ((({ s with replacer := r2 } : BufferPoolManager α).setFrame fid
        (fun f => { f with pin_count := f.pin_count + 1 })).ptSet pid fid).frameAt
        fid = { s.frameAt fid with pin_count := (s.frameAt fid).pin_count + 1 } := by
      have h2 : ((({ s with replacer := r2 } : BufferPoolManager α).setFrame fid
          (fun f => { f with pin_count := f.pin_count + 1 })).ptSet pid fid).frameAt
          fid = (({ s with replacer := r2 } : BufferPoolManager α).setFrame fid
          (fun f => { f with pin_count := f.pin_count + 1 })).frameAt fid := rfl
      rw [h2, frameAt_setFrame_self ({ s with replacer := r2 } :
        BufferPoolManager α) fid _ h0 hfidn]
      rfl
    have hFAne : ∀ x : Int, x ≠ fid →
        ((({ s with replacer := r2 } : BufferPoolManager α).setFrame fid
          (fun f => { f with pin_count := f.pin_count + 1 })).ptSet pid fid).frameAt
          x = s.frameAt x := by
      intro x hx
      have h2 : ((({ s with replacer := r2 } : BufferPoolManager α).setFrame fid
          (fun f => { f with pin_count := f.pin_count + 1 })).ptSet pid fid).frameAt
          x = (({ s with replacer := r2 } : BufferPoolManager α).setFrame fid
          (fun f => { f with pin_count := f.pin_count + 1 })).frameAt x := rfl
      rw [h2, frameAt_setFrame_ne ({ s with replacer := r2 } :
        BufferPoolManager α) fid x _ hx]
      rfl
    have htable : ((({ s with replacer := r2 } : BufferPoolManager α).setFrame fid
        (fun f => { f with pin_count := f.pin_count + 1 })).ptSet pid
        fid).page_table = s.page_table :=
      ptSet_table_id hmem hB7
    have hrepl : ((({ s with replacer := r2 } : BufferPoolManager α).setFrame fid
        (fun f => { f with pin_count := f.pin_count + 1 })).ptSet pid
        fid).replacer = r2 := rfl
    refine ⟨(some fid,
      ((({ s with replacer := r2 } : BufferPoolManager α).setFrame fid
        (fun f => { f with pin_count := f.pin_count + 1 })).ptSet pid fid)),
      ?_, ?_⟩
    · simp [FetchPage, hpt, hrec, hsetv]
    · refine ⟨hB1, (setFrame_pages_length ({ s with replacer := r2 } :
        BufferPoolManager α) fid
        (fun f => { f with pin_count := f.pin_count + 1 })).trans hB2, hw2,
        ?_, ?_, ?_, ?_, ?_, ?_, hB10⟩
      · intro x hx0 hx1
        by_cases hx : x = fid
        · subst hx
          rw [hFAv]
          simp only
          have := hB4 x hx0 hx1
          omega
        · rw [hFAne x hx]
          exact hB4 x hx0 hx1
      · intro x hx0 hx1 hxpos
        rw [hrepl]
        by_cases hx : x = fid
        · subst hx
          rw [hTE2]
          simp
        · rw [hTE2, if_neg hx, hTE1]
          rw [hFAne x hx] at hxpos
          exact hB5 x hx0 hx1 hxpos
      · intro q hq
        rw [htable] at hq
        rcases hB6 q hq with ⟨hq0, hq1, hqt, hqm⟩
        refine ⟨hq0, hq1, ?_, ?_⟩
        · rw [hrepl, htrk2, htrk1, hqt]
          simp
        · by_cases hx : q.2 = fid
          · have hqe : q = (pid, fid) := snd_nodup_eq hB8 hq hmem hx
            rw [hx, hFAv]
            simp only
            rw [hmatch, hqe]
          · rw [hFAne q.2 hx]
            exact hqm
      · rw [htable]
        exact hB7
      · rw [htable]
        exact hB8
      · intro f hf
        have hf1 : f ∈ s.free_list := hf
        rcases hB9 f hf1 with ⟨hf0, hfx, hfp⟩
        refine ⟨hf0, hfx, ?_⟩
        intro q hq
        rw [htable] at hq
        exact hfp q hq

/-- `FlushPage` preserves the invariant: it only writes to disk and clears
a dirty bit. -/
theorem FlushPage_spec {pool : Nat} {s : BufferPoolManager α} (pid : Int)
    (hb : BInv pool s) : BInv pool (s.FlushPage pid).2 := by
  rcases hpt : s.ptFind pid with _ | fid
  · simp only [FlushPage, hpt]
    exact hb
  · obtain ⟨hB1, hB2, hB3, hB4, hB5, hB6, hB7, hB8, hB9, hB10⟩ := hb
    have hmem : (pid, fid) ∈ s.page_table := ptFind_eq_some_mem hpt
    rcases hB6 (pid, fid) hmem with ⟨h0, h1, htr, hmatch⟩
    simp only at h0 h1 htr hmatch
    have hfidn : fid.toNat < (s.diskWrite pid (s.frameAt fid).data).pages.length := by
      have : (s.diskWrite pid (s.frameAt fid).data).pages = s.pages := rfl
      rw [this]
      omega
    have hFAv : ((s.diskWrite pid (s.frameAt fid).data).setFrame fid
        (fun f => { f with is_dirty := false })).frameAt fid =
        { s.frameAt fid with is_dirty := false } := by
      rw [frameAt_setFrame_self _ fid _ h0 hfidn]
      rfl
    have hFAne : ∀ x : Int, x ≠ fid →
        ((s.diskWrite pid (s.frameAt fid).data).setFrame fid
          (fun f => { f with is_dirty := false })).frameAt x = s.frameAt x := by
      intro x hx
      rw [frameAt_setFrame_ne _ fid x _ hx]
      rfl
    simp only [FlushPage, hpt]
    refine ⟨hB1, ?_, hB3, ?_, ?_, ?_, hB7, hB8, hB9, hB10⟩
    · exact (setFrame_pages_length _ _ _).trans hB2
    · intro x hx0 hx1
      by_cases hx : x = fid
      · subst hx
        rw [hFAv]
        simp only
        exact hB4 x hx0 hx1
      · rw [hFAne x hx]
        exact hB4 x hx0 hx1
    · intro x hx0 hx1 hxpos
      by_cases hx : x = fid
      · subst hx
        rw [hFAv] at hxpos
        simp only at hxpos
        exact hB5 x hx0 hx1 hxpos
      · rw [hFAne x hx] at hxpos
        exact hB5 x hx0 hx1 hxpos
    · intro q hq
      rcases hB6 q hq with ⟨hq0, hq1, hqt, hqm⟩
      refine ⟨hq0, hq1, hqt, ?_⟩
      by_cases hx : q.2 = fid
      · rw [hx, hFAv]
        simp only
        rw [← hx]
        exact hqm
      · rw [hFAne q.2 hx]
        exact hqm

/-- `UnpinPage` under `BInv`: it never hits the replacer assert; it returns
`false` — changing nothing — exactly when the page is not resident or its
pin count is already zero; otherwise it returns `true`, decrements the pin
count, ORs the dirty bit, marks the frame evictable exactly when the count
reached zero, and touches nothing else.  The invariant is preserved. -/
theorem UnpinPage_spec {pool : Nat} {s : BufferPoolManager α} (pid : Int)
    (d : Bool) (hb : BInv pool s) :
    ∃ b s', s.UnpinPage pid d = some (b, s') ∧ BInv pool s' ∧
      (b = false ↔ (s.ptFind pid = none ∨
        ∃ fid, s.ptFind pid = some fid ∧ (s.frameAt fid).pin_count = 0)) ∧
      (b = false → s' = s) ∧
      (∀ fid, s.ptFind pid = some fid → (s.frameAt fid).pin_count ≠ 0 →
        b = true ∧
        (s'.frameAt fid).pin_count = (s.frameAt fid).pin_count - 1 ∧
        (s'.frameAt fid).is_dirty = ((s.frameAt fid).is_dirty || d) ∧
        trackedEvictable s'.replacer fid =
          decide ((s'.frameAt fid).pin_count = 0) ∧
        s'.page_table = s.page_table ∧
        (∀ x, x ≠ fid → s'.frameAt x = s.frameAt x) ∧
        (∀ x, x ≠ fid → trackedEvictable s'.replacer x =
          trackedEvictable s.replacer x)) := by
  obtain ⟨hB1, hB2, hB3, hB4, hB5, hB6, hB7, hB8, hB9, hB10⟩ := hb
  rcases hpt : s.ptFind pid with _ | fid
  · refine ⟨false, s, ?_, ⟨hB1, hB2, hB3, hB4, hB5, hB6, hB7, hB8, hB9, hB10⟩,
      ?_, fun _ => rfl, ?_⟩
    · simp [UnpinPage, hpt]
    · exact ⟨fun _ => Or.inl rfl, fun _ => rfl⟩
    · intro fid hf
      cases hf
  · have hmem : (pid, fid) ∈ s.page_table := ptFind_eq_some_mem hpt
    rcases hB6 (pid, fid) hmem with ⟨h0, h1, htr, hmatch⟩
    simp only at h0 h1 htr hmatch
    have hfidn : fid.toNat < s.pages.length := by omega
    by_cases hp0 : (s.frameAt fid).pin_count = 0
    · refine ⟨false, s, ?_, ⟨hB1, hB2, hB3, hB4, hB5, hB6, hB7, hB8, hB9, hB10⟩,
        ?_, fun _ => rfl, ?_⟩
      · simp [UnpinPage, hpt, hp0]
      · exact ⟨fun _ => Or.inr ⟨fid, rfl, hp0⟩, fun _ => rfl⟩
      · intro fid2 hf hne
        injection hf with hf
        rw [← hf] at hne
        exact absurd hp0 hne
    · -- really unpin
      have hpinpos : 0 < (s.frameAt fid).pin_count := by
        have := hB4 fid h0 h1
        omega
      have hFA1v : (s.setFrame fid
          (fun f => { f with pin_count := f.pin_count - 1 })).frameAt fid =
          { s.frameAt fid with pin_count := (s.frameAt fid).pin_count - 1 } :=
        frameAt_setFrame_self s fid _ h0 hfidn
      have hFA1n : ∀ x : Int, x ≠ fid →
          (s.setFrame fid
            (fun f => { f with pin_count := f.pin_count - 1 })).frameAt x =
          s.frameAt x :=
        fun x hx => frameAt_setFrame_ne s fid x _ hx
      have hlen1 : fid.toNat < (s.setFrame fid
          (fun f => { f with pin_count := f.pin_count - 1 })).pages.length := by
        rw [setFrame_pages_length]
        exact hfidn
      by_cases hz : ((s.setFrame fid
          (fun f => { f with pin_count := f.pin_count - 1 })).frameAt
          fid).pin_count = 0
      · -- the pin count reached zero: mark the frame evictable
        have hB3x : RWF pool (s.setFrame fid
            (fun f => { f with pin_count := f.pin_count - 1 })).replacer := hB3
        have htrx : tracked (s.setFrame fid
            (fun f => { f with pin_count := f.pin_count - 1 })).replacer fid =
            true := htr
        rcases SetEvictable_spec fid true hB3x htrx h0 h1 with
          ⟨r2, hsetv, hw2, htrk2, hTE2, hcs2, hrs2, hk2, hh2⟩
        have hFA2v : ((({ (s.setFrame fid
            (fun f => { f with pin_count := f.pin_count - 1 })) with
            replacer := r2 } : BufferPoolManager α)).setFrame fid
            (fun f => { f with is_dirty := f.is_dirty || d })).frameAt fid =
            { s.frameAt fid with
              pin_count := (s.frameAt fid).pin_count - 1,
              is_dirty := (s.frameAt fid).is_dirty || d } := by
          rw [frameAt_setFrame_self _ fid _ h0 (by
            have h9 : (({ (s.setFrame fid
              (fun f => { f with pin_count := f.pin_count - 1 })) with
              replacer := r2 } : BufferPoolManager α)).pages =
              (s.setFrame fid
                (fun f => { f with pin_count := f.pin_count - 1 })).pages := rfl
            rw [h9]
            exact hlen1)]
          have h8 : (({ (s.setFrame fid
              (fun f => { f with pin_count := f.pin_count - 1 })) with
              replacer := r2 } : BufferPoolManager α)).frameAt fid =
              (s.setFrame fid
                (fun f => { f with pin_count := f.pin_count - 1 })).frameAt fid :=
            rfl
          rw [h8, hFA1v]
        have hFA2n : ∀ x : Int, x ≠ fid →
            ((({ (s.setFrame fid
              (fun f => { f with pin_count := f.pin_count - 1 })) with
              replacer := r2 } : BufferPoolManager α)).setFrame fid
              (fun f => { f with is_dirty := f.is_dirty || d })).frameAt x =
            s.frameAt x := by
          intro x hx
          rw [frameAt_setFrame_ne _ fid x _ hx]
          have h8 : (({ (s.setFrame fid
              (fun f => { f with pin_count := f.pin_count - 1 })) with
              replacer := r2 } : BufferPoolManager α)).frameAt x =
              (s.setFrame fid
                (fun f => { f with pin_count := f.pin_count - 1 })).frameAt x :=
            rfl
          rw [h8, hFA1n x hx]
        have hz2 : (s.frameAt fid).pin_count - 1 = 0 := by
          rw [hFA1v] at hz
          simp only at hz
          exact hz
        have hrepl2 : (((({ (s.setFrame fid
            (fun f => { f with pin_count := f.pin_count - 1 })) with
            replacer := r2 } : BufferPoolManager α)).setFrame fid
            (fun f => { f with is_dirty := f.is_dirty || d }))).replacer = r2 :=
          rfl
        refine ⟨true, ((({ (s.setFrame fid
            (fun f => { f with pin_count := f.pin_count - 1 })) with
            replacer := r2 } : BufferPoolManager α)).setFrame fid
            (fun f => { f with is_dirty := f.is_dirty || d })),
          ?_, ?_, ?_, ?_, ?_⟩
        · simp [UnpinPage, hpt, hp0, hz, hsetv]
        · refine ⟨hB1, (setFrame_pages_length _ _ _).trans
            ((setFrame_pages_length s fid
              (fun f => { f with pin_count := f.pin_count - 1 })).trans hB2),
            hw2, ?_, ?_, ?_, hB7, hB8, hB9, hB10⟩
          · intro x hx0 hx1
            by_cases hx : x = fid
            · subst hx
              rw [hFA2v]
              simp only
              omega
            · rw [hFA2n x hx]
              exact hB4 x hx0 hx1
          · intro x hx0 hx1 hxpos
            by_cases hx : x = fid
            · subst hx
              rw [hFA2v] at hxpos
              simp only at hxpos
              omega
            · rw [hFA2n x hx] at hxpos
              have h8 : ((((({ (s.setFrame fid
                  (fun f => { f with pin_count := f.pin_count - 1 })) with
                  replacer := r2 } : BufferPoolManager α)).setFrame fid
                  (fun f => { f with is_dirty := f.is_dirty || d }))).replacer) =
                  r2 := rfl
              rw [h8, hTE2, if_neg hx]
              exact hB5 x hx0 hx1 hxpos
          · intro q hq
            have hq5 : q ∈ s.page_table := hq
            rcases hB6 q hq5 with ⟨hq0, hq1, hqt, hqm⟩
            refine ⟨hq0, hq1, by rw [hrepl2, htrk2]; exact hqt, ?_⟩
            by_cases hx : q.2 = fid
            · rw [hx, hFA2v]
              simp only
              rw [← hx]
              exact hqm
            · rw [hFA2n q.2 hx]
              exact hqm
        · constructor
          · intro h
            cases h
          · intro h
            rcases h with h | ⟨fid2, hf, hpz⟩
            · cases h
            · injection hf with hf
              rw [← hf] at hpz
              exact absurd hpz hp0
        · intro h
          cases h
        · intro fid2 hf hne
          injection hf with hf
          subst hf
          refine ⟨rfl, ?_, ?_, ?_, rfl, ?_, ?_⟩
          · rw [hFA2v]
          · rw [hFA2v]
          · rw [hrepl2, hFA2v]
            simp only
            rw [hTE2, if_pos rfl]
            simp [hz2]
          · intro x hx
            exact hFA2n x hx
          · intro x hx
            rw [hrepl2, hTE2, if_neg hx]
            rfl
      · -- the pin count is still positive: the replacer is untouched
        have hFA2v : ((s.setFrame fid
            (fun f => { f with pin_count := f.pin_count - 1 })).setFrame fid
            (fun f => { f with is_dirty := f.is_dirty || d })).frameAt fid =
            { s.frameAt fid with
              pin_count := (s.frameAt fid).pin_count - 1,
              is_dirty := (s.frameAt fid).is_dirty || d } := by
          rw [frameAt_setFrame_self _ fid _ h0 hlen1, hFA1v]
        have hFA2n : ∀ x : Int, x ≠ fid →
            ((s.setFrame fid
              (fun f => { f with pin_count := f.pin_count - 1 })).setFrame fid
              (fun f => { f with is_dirty := f.is_dirty || d })).frameAt x =
            s.frameAt x := by
          intro x hx
          rw [frameAt_setFrame_ne _ fid x _ hx, hFA1n x hx]
        have hz2 : (s.frameAt fid).pin_count - 1 ≠ 0 := by
          rw [hFA1v] at hz
          simp only at hz
          exact hz
        have hTEfid : trackedEvictable s.replacer fid = false :=
          hB5 fid h0 h1 hpinpos
        have hrepl3 : (((s.setFrame fid
            (fun f => { f with pin_count := f.pin_count - 1 })).setFrame fid
            (fun f => { f with is_dirty := f.is_dirty || d }))).replacer =
            s.replacer := rfl
        refine ⟨true, ((s.setFrame fid
            (fun f => { f with pin_count := f.pin_count - 1 })).setFrame fid
            (fun f => { f with is_dirty := f.is_dirty || d })),
          ?_, ?_, ?_, ?_, ?_⟩
        · simp [UnpinPage, hpt, hp0, hz]
        · refine ⟨hB1, (setFrame_pages_length _ _ _).trans
            ((setFrame_pages_length s fid
              (fun f => { f with pin_count := f.pin_count - 1 })).trans hB2),
            hB3, ?_, ?_, ?_, hB7, hB8, hB9, hB10⟩
          · intro x hx0 hx1
            by_cases hx : x = fid
            · subst hx
              rw [hFA2v]
              simp only
              omega
            · rw [hFA2n x hx]
              exact hB4 x hx0 hx1
          · intro x hx0 hx1 hxpos
            by_cases hx : x = fid
            · subst hx
              exact hTEfid
            · rw [hFA2n x hx] at hxpos
              exact hB5 x hx0 hx1 hxpos
          · intro q hq
            have hq5 : q ∈ s.page_table := hq
            rcases hB6 q hq5 with ⟨hq0, hq1, hqt, hqm⟩
            refine ⟨hq0, hq1, hqt, ?_⟩
            by_cases hx : q.2 = fid
            · rw [hx, hFA2v]
              simp only
              rw [← hx]
              exact hqm
            · rw [hFA2n q.2 hx]
              exact hqm
        · constructor
          · intro h
            cases h
          · intro h
            rcases h with h | ⟨fid2, hf, hpz⟩
            · cases h
            · injection hf with hf
              rw [← hf] at hpz
              exact absurd hpz hp0
        · intro h
          cases h
        · intro fid2 hf hne
          injection hf with hf
          subst hf
          refine ⟨rfl, ?_, ?_, ?_, rfl, ?_, ?_⟩
          · rw [hFA2v]
          · rw [hFA2v]
          · rw [hrepl3, hFA2v]
            simp only
            rw [hTEfid]
            simp [hz2]
          · intro x hx
            exact hFA2n x hx
          · intro x hx
            rfl

/-- The freshly constructed pool satisfies the invariant. -/
theorem BInv_init (pool k : Nat) : BInv pool (init (α := α) pool k) := by
  have hf : ∀ fid : Int, (init (α := α) pool k).frameAt fid = Frame.empty := by
    intro fid
    simp only [init, frameAt]
    split
    · rw [List.getD_eq_getElem?_getD, List.getElem?_replicate]
      split <;> rfl
    · rfl
  refine ⟨rfl, by simp [init], ?_, ?_, ?_, ?_, ?_, ?_, ?_, ?_⟩
  · refine ⟨rfl, ?_, ?_, ?_, ?_, ?_, ?_, rfl⟩
    · intro n hn
      have h2 : n ∈ ([] : List LRUKNode) := hn
      simp at h2
    · show (([] : List LRUKNode).map LRUKNode.fid).Nodup
      simp
    · intro n hn
      have h2 : n ∈ ([] : List LRUKNode) := hn
      simp at h2
    · intro x hx
      have h2 : x ∈ ([] : List Int) ++ ([] : List Int) := hx
      simp at h2
    · intro x hx
      have h2 : x ∈ ([] : List Int) := hx
      simp at h2
    · intro x hx
      have h2 : x ∈ ([] : List Int) := hx
      simp at h2
  · intro fid _ _
    rw [hf fid]
    simp [Frame.empty]
  · intro fid _ _ hpos
    rw [hf fid] at hpos
    simp [Frame.empty] at hpos
  · intro p hp
    have h2 : p ∈ ([] : List (Int × Int)) := hp
    simp at h2
  · show (([] : List (Int × Int)).map Prod.fst).Nodup
    simp
  · show (([] : List (Int × Int)).map Prod.snd).Nodup
    simp
  · intro f hfm
    have hfm2 : f ∈ (List.range pool).map Int.ofNat := hfm
    rcases List.mem_map.mp hfm2 with ⟨i, hi, he⟩
    rw [List.mem_range] at hi
    have he2 : (i : Int) = f := by exact_mod_cast he
    refine ⟨by omega, by omega, ?_⟩
    intro p hp
    have h2 : p ∈ ([] : List (Int × Int)) := hp
    simp at h2
  · show ((List.range pool).map Int.ofNat).Nodup
    exact (List.nodup_range pool).map (fun a b hab => Int.ofNat.inj hab)

/-- Every single call succeeds and preserves the invariant. -/
theorem applyBPMOp_BInv {pool : Nat} {s : BufferPoolManager α}
    (hb : BInv pool s) (op : BPMOp) :
    ∃ s', applyBPMOp s op = some s' ∧ BInv pool s' := by
  cases op with
  | newPage =>
    rcases NewPage_spec hb with ⟨u, he, hu⟩
    exact ⟨u.2, by simp [applyBPMOp, he], hu⟩
  | fetchPage pid =>
    rcases FetchPage_spec pid hb with ⟨u, he, hu⟩
    exact ⟨u.2, by simp [applyBPMOp, he], hu⟩
  | unpinPage pid d =>
    rcases UnpinPage_spec pid d hb with ⟨b, s', he, hu, _, _, _⟩
    exact ⟨s', by simp [applyBPMOp, he], hu⟩
  | flushPage pid =>
    exact ⟨(s.FlushPage pid).2, by simp [applyBPMOp], FlushPage_spec pid hb⟩

/-- The invariant is preserved along any successful call sequence. -/
theorem runBPMOps_BInv {pool : Nat} :
    ∀ (ops : List BPMOp) (s s' : BufferPoolManager α), BInv pool s →
      runBPMOps s ops = some s' → BInv pool s' := by
  intro ops
  induction ops with
  | nil =>
    intro s s' hb h
    simp only [runBPMOps] at h
    injection h with h
    rw [← h]
    exact hb
  | cons op ops ih =>
    intro s s' hb h
    simp only [runBPMOps] at h
    rcases applyBPMOp_BInv hb op with ⟨s1, he, hb1⟩
    rw [he] at h
    exact ih s1 s' hb1 h

/-- Every reachable pool state satisfies the invariant. -/
theorem BPMReachable_BInv {pool k : Nat} {s : BufferPoolManager α}
    (h : BPMReachable pool k s) : BInv pool s := by
  rcases h with ⟨ops, hops⟩
  exact runBPMOps_BInv ops _ s (BInv_init pool k) hops

end BufferPoolManager

/-- **C6.**  In every buffer pool state reachable from the constructor by
`NewPage`/`FetchPage`/`UnpinPage`/`FlushPage` calls: no frame's pin count is
negative; every frame with a positive pin count is non-evictable in the
replacer; any frame `Evict` would select as a victim has pin count zero;
and no such call can hit an internal assert or the replacer's exception
(`applyBPMOp` never aborts). -/
theorem C6_buffer_pool_invariant {α : Type} [Inhabited α] [DecidableEq α]
    {pool k : Nat} {s : BufferPoolManager α} (h : BPMReachable pool k s) :
    (∀ fid, 0 ≤ fid → fid < (pool : Int) → 0 ≤ (s.frameAt fid).pin_count) ∧
    (∀ fid, 0 ≤ fid → fid < (pool : Int) → 0 < (s.frameAt fid).pin_count →
      trackedEvictable s.replacer fid = false) ∧
    (∀ fid r', s.replacer.Evict = some (some fid, r') →
      (s.frameAt fid).pin_count = 0) ∧
    (∀ op, applyBPMOp s op ≠ none) := by
  have hb := BufferPoolManager.BPMReachable_BInv h
  obtain ⟨hB1, hB2, hB3, hB4, hB5, hB6, hB7, hB8, hB9, hB10⟩ :=
    BufferPoolManager.BPMReachable_BInv h
  refine ⟨hB4, hB5, ?_, ?_⟩
  · intro fid r' he
    have hEv := Evict_spec hB3
    by_cases hcs : s.replacer.curr_size = 0
    · rw [hEv.1 hcs] at he
      simp at he
    · rcases hEv.2 hcs with ⟨vf, r2, heq, _, hTEv, hv0, hv1, _⟩
      rw [heq] at he
      simp only [Option.some.injEq, Prod.mk.injEq] at he
      obtain ⟨rfl, rfl⟩ := he
      have hge := hB4 vf hv0 hv1
      by_contra hne
      have hTEf := hB5 vf hv0 hv1 (by omega)
      rw [hTEf] at hTEv
      cases hTEv
  · intro op
    rcases BufferPoolManager.applyBPMOp_BInv hb op with ⟨s1, he, _⟩
    rw [he]
    simp

/-- Witness for C6 at the freshly constructed pool of three frames. -/
theorem C6_buffer_pool_invariant_witness :
    0 ≤ (((BufferPoolManager.init (α := Int) 3 2)).frameAt 1).pin_count ∧
    applyBPMOp (BufferPoolManager.init (α := Int) 3 2) BPMOp.newPage ≠ none := by
  have h : BPMReachable 3 2 (BufferPoolManager.init (α := Int) 3 2) := ⟨[], rfl⟩
  exact ⟨(C6_buffer_pool_invariant h).1 1 (by decide) (by decide),
    (C6_buffer_pool_invariant h).2.2.2 BPMOp.newPage⟩

/-- **C9.**  In every reachable buffer pool state, `UnpinPage(page_id,
is_dirty)` returns without hitting any assert; it returns `false` — leaving
the state untouched — exactly when the page is not resident or its pin count
is already zero; and on a resident page with positive pin count it returns
`true`, decrements the pin count, ORs the dirty bit with the argument, marks
the frame evictable exactly when the count reached zero, and leaves the page
table, all other frames, and all other evictable flags unchanged. -/
theorem C9_unpin_page_contract {α : Type} [Inhabited α] [DecidableEq α]
    {pool k : Nat} {s : BufferPoolManager α} (h : BPMReachable pool k s)
    (pid : Int) (d : Bool) :
    ∃ b s', s.UnpinPage pid d = some (b, s') ∧
      (b = false ↔ (s.ptFind pid = none ∨
        ∃ fid, s.ptFind pid = some fid ∧ (s.frameAt fid).pin_count = 0)) ∧
      (b = false → s' = s) ∧
      (∀ fid, s.ptFind pid = some fid → (s.frameAt fid).pin_count ≠ 0 →
        b = true ∧
        (s'.frameAt fid).pin_count = (s.frameAt fid).pin_count - 1 ∧
        (s'.frameAt fid).is_dirty = ((s.frameAt fid).is_dirty || d) ∧
        trackedEvictable s'.replacer fid =
          decide ((s'.frameAt fid).pin_count = 0) ∧
        s'.page_table = s.page_table ∧
        (∀ x, x ≠ fid → s'.frameAt x = s.frameAt x) ∧
        (∀ x, x ≠ fid → trackedEvictable s'.replacer x =
          trackedEvictable s.replacer x)) := by
  rcases BufferPoolManager.UnpinPage_spec pid d
    (BufferPoolManager.BPMReachable_BInv h) with
    ⟨b, s', he, _, hiff, hfalse, htrue⟩
  exact ⟨b, s', he, hiff, hfalse, htrue⟩

/-- Witness for C9: after one `NewPage` on a three-frame pool, unpinning
page `0` (resident in frame `0` with pin count `1`) returns `true`, drops
the pin to `0`, sets the dirty bit, and marks the frame evictable. -/
theorem C9_unpin_page_contract_witness :
    ∃ b s', (⟨3,
      [⟨0, false, 1, 0, false, 0⟩, ⟨-1, false, 0, 0, false, 0⟩,
        ⟨-1, false, 0, 0, false, 0⟩],
      ⟨[⟨0, [0], false⟩], 1, 0, 3, 2, [], []⟩,
      [1, 2], [(0, 0)], 1, []⟩ : BufferPoolManager Int).UnpinPage 0 true =
        some (b, s') ∧
      b = true ∧ (s'.frameAt 0).pin_count = 0 ∧
      (s'.frameAt 0).is_dirty = true ∧
      trackedEvictable s'.replacer 0 = true := by
  have h : BPMReachable 3 2 (⟨3,
      [⟨0, false, 1, 0, false, 0⟩, ⟨-1, false, 0, 0, false, 0⟩,
        ⟨-1, false, 0, 0, false, 0⟩],
      ⟨[⟨0, [0], false⟩], 1, 0, 3, 2, [], []⟩,
      [1, 2], [(0, 0)], 1, []⟩ : BufferPoolManager Int) :=
    ⟨[BPMOp.newPage], by decide⟩
  rcases C9_unpin_page_contract h 0 true with ⟨b, s', he, hiff, hfalse, htrue⟩
  rcases htrue 0 (by decide) (by decide) with ⟨hb, hpin, hdirty, hTE, _, _, _⟩
  refine ⟨b, s', he, hb, ?_, ?_, ?_⟩
  · rw [hpin]
    have : ((⟨3,
      [⟨0, false, 1, 0, false, 0⟩, ⟨-1, false, 0, 0, false, 0⟩,
        ⟨-1, false, 0, 0, false, 0⟩],
      ⟨[⟨0, [0], false⟩], 1, 0, 3, 2, [], []⟩,
      [1, 2], [(0, 0)], 1, []⟩ : BufferPoolManager Int).frameAt 0).pin_count =
        1 := by decide
    rw [this]
    decide
  · rw [hdirty]
    have : ((⟨3,
      [⟨0, false, 1, 0, false, 0⟩, ⟨-1, false, 0, 0, false, 0⟩,
        ⟨-1, false, 0, 0, false, 0⟩],
      ⟨[⟨0, [0], false⟩], 1, 0, 3, 2, [], []⟩,
      [1, 2], [(0, 0)], 1, []⟩ : BufferPoolManager Int).frameAt 0).is_dirty =
        false := by decide
    rw [this]
    decide
  · rw [hTE]
    have h2 : (s'.frameAt 0).pin_count = 0 := by
      rw [hpin]
      decide
    rw [h2]
    decide

end Bustub
